import Mathlib

/-!
DynamO: the threaded neighbour-list scheduler.

A shallow embedding of `src/schedulers/threadedNBList.cpp`.

The scheduler (`SThreadedNBList`) works on four pieces of mutable state: the
particle list of the simulation, the per-particle generation counters
(`eventCount`), the event sorter and the queue of the thread pool.  Every
member function of the class is embedded as a function from state to state.
Each call that the code makes to a collaborator is also appended to a call
log (`trace`), so that statements about the order of calls can be made.

The collaborators that the file only calls (Liouvillean, globals, locals,
interactions, neighbour list) are fields of `SimData`.  The event sorter and
the thread pool are not part of the sources; they are modelled from the
specification (per-particle event lists; a queue that `wait` drains).

Concurrency is modelled by a `Schedule`: an arbitrary order in which the
queued tasks take effect.  A task may start as soon as it is queued, but it
only reads particle data and counters, which nothing writes between the
first `queue` call and the return of `wait`, and it makes at most one push
under a mutex; so its effect is that of running it whole at some point
before `wait` returns, and the log records it there.

Also embedded: `LRoughWall::runEvent` and `LRoughWall::checkOverlaps` of
`src/dynamics/locals/lroughwall.cpp`, with a call log of their own, and
`coordCalc` and `loadVolumeFromRawFile` of
`src/magnet/magnet/GL/textureLoaderRAW.hpp`.  The event sorter of the
specification (per-particle lists under a global structure of minimums, with
`pop_minimum`) is modelled from the specification's words and compared with
a brute-force list of pending events.

Layout: the embedding, the functions that read the log, a small concrete
system, the closed forms used in the proofs, lemmas, and the claims.
-/

namespace DynamO

/-! ## Data model -/

/-- Modelled from the spec: the event kind enumeration (`EEventType`) is declared in a header
that is not part of the sources.  The scheduler only names `NONE`, the rough wall names
`WALL`; the remaining kinds are collected under `OTHER`. -/
inductive EEventType where
  | NONE
  | WALL
  | OTHER (code : Nat)
  deriving DecidableEq, Repr

/-- A particle as the callbacks receive it (`const CParticle&`): its id (`getID()`) and the
data stored for it in `Sim->vParticleList`. -/
structure CParticle (P : Type) where
  ID : Nat
  data : P

/-- Modelled from the spec: an interaction event (`CIntEvent`), "participant id(s), predicted
time, kind".  Times are integers here. -/
structure CIntEvent where
  particle1 : Nat
  particle2 : Nat
  dt : Int
  type : EEventType
  deriving DecidableEq, Repr

/-- Modelled from the spec: a global event (`CGlobEvent`). -/
structure CGlobEvent where
  particle : Nat
  dt : Int
  type : EEventType
  globalID : Nat
  deriving DecidableEq, Repr

/-- Modelled from the spec: a local event (`CLocalEvent`). -/
structure CLocalEvent where
  particle : Nat
  dt : Int
  type : EEventType
  localID : Nat
  deriving DecidableEq, Repr

/-- The value handed to `sorter->push`.  The code builds it in three ways:
`intPart(eevent, eventCount[id])` from an interaction event and a generation number, and by
conversion from a global event and from a local event. -/
inductive intPart where
  | interaction (eevent : CIntEvent) (collCounter2 : Nat)
  | global (event : CGlobEvent)
  | localEv (event : CLocalEvent)
  deriving DecidableEq, Repr

/-- A global (`CGlobal`): the two member functions the scheduler calls. -/
structure CGlobal (P : Type) where
  isInteraction : CParticle P → Bool
  getEvent : CParticle P → CGlobEvent

/-- A local (`CLocal`): the two member functions the scheduler calls. -/
structure CLocal (P : Type) where
  isInteraction : CParticle P → Bool
  getEvent : CParticle P → CLocalEvent

/-- The collaborators reached through `Sim->dynamics`: the Liouvillean's `updateParticle`, the
globals (`getGlobals()`, iterated in index order), the locals (`getLocals()[id]`), the
interaction event of a pair (`getEvent`) and the neighbour list, given by the sequences of ids
that `getParticleNeighbourhood` and `getParticleLocalNeighbourhood` hand to their delegate. -/
structure SimData (P : Type) where
  updateParticle : CParticle P → P
  nGlobals : Nat
  globals : Nat → CGlobal P
  locals : Nat → CLocal P
  getEvent : CParticle P → CParticle P → CIntEvent
  nbhd : Nat → List Nat
  localNbhd : Nat → List Nat

/-- The two mutexes of the class, `_P1SorterLock` and `_P2SorterLock`. -/
inductive Lock where
  | P1SorterLock
  | P2SorterLock
  deriving DecidableEq, Repr

/-- A task queued on `_threadPool`: the member function and its bound arguments. -/
inductive Task where
  | threadAddIntEvent (part : Nat) (id : Nat) (sorterLock : Lock)
  | addGlobal (part : Nat) (glob : Nat) (sorterLock : Lock)
  | threadAddLocalEvent (part : Nat) (id : Nat) (sorterLock : Lock)
  deriving DecidableEq, Repr

/-- The calls recorded in the log.  `push ev owner held inTask` records
`sorter->push(ev, owner)`, the mutex held by the caller (if any) and whether the call is made
by a queued task; `wait` is recorded when `_threadPool.wait()` returns. -/
inductive Op where
  | getParticleNeighbourhood (part : Nat)
  | getParticleLocalNeighbourhood (part : Nat)
  | updateParticle (id : Nat)
  | incEventCount (id : Nat)
  | clearPEL (id : Nat)
  | queue (t : Task)
  | getEvent (part : Nat) (id : Nat)
  | push (ev : intPart) (owner : Nat) (held : Option Lock) (inTask : Bool)
  | wait
  | update (id : Nat)
  deriving DecidableEq, Repr

/-- The mutable state: particle data, generation counters, the sorter's per-particle event
lists, the queue of the thread pool and the call log. -/
structure SimState (P : Type) where
  vParticleList : Nat → P
  eventCount : Nat → Nat
  pel : Nat → List intPart
  poolQueue : List Task
  trace : List Op

/-- The particle with the given id, as currently stored. -/
def particle {P : Type} (S : SimState P) (id : Nat) : CParticle P :=
  ⟨id, S.vParticleList id⟩

/-- Append a call to the log. -/
def record {P : Type} (o : Op) (S : SimState P) : SimState P :=
  { S with trace := S.trace ++ [o] }

/-! ## Collaborator calls -/

/-- The call `Sim->dynamics.getLiouvillean().updateParticle(Sim->vParticleList[id])`. -/
def updateParticle {P : Type} (D : SimData P) (id : Nat) (S : SimState P) : SimState P :=
  { S with
    vParticleList := Function.update S.vParticleList id (D.updateParticle (particle S id))
    trace := S.trace ++ [Op.updateParticle id] }

/-- Modelled from the spec: the element type of `eventCount` is declared in the scheduler's
header, which is not part of the sources; the generation number is a counter that "increases",
an unbounded natural number.  This is `++eventCount[id]`. -/
def incEventCount {P : Type} (id : Nat) (S : SimState P) : SimState P :=
  { S with
    eventCount := Function.update S.eventCount id (S.eventCount id + 1)
    trace := S.trace ++ [Op.incEventCount id] }

/-- Modelled from the spec: the sorter's `clear(participant)`, which "discards all events owned
by participant".  This is `sorter->clearPEL(id)`. -/
def clearPEL {P : Type} (id : Nat) (S : SimState P) : SimState P :=
  { S with
    pel := Function.update S.pel id []
    trace := S.trace ++ [Op.clearPEL id] }

/-- Modelled from the spec: the sorter's `push(event)`, which "inserts event into the owning
participant's local list".  This is `sorter->push(ev, owner)`. -/
def push {P : Type} (ev : intPart) (owner : Nat) (held : Option Lock) (inTask : Bool)
    (S : SimState P) : SimState P :=
  { S with
    pel := Function.update S.pel owner (S.pel owner ++ [ev])
    trace := S.trace ++ [Op.push ev owner held inTask] }

/-- Modelled from the spec: the sorter's `update(participant)`, which re-admits the
participant's minimum to the global structure; the per-particle lists are not changed.  This is
`sorter->update(id)`. -/
def update {P : Type} (id : Nat) (S : SimState P) : SimState P :=
  record (Op.update id) S

/-- Modelled from the spec: `_threadPool.queue(f, args...)` appends a task to the pool. -/
def queue {P : Type} (t : Task) (S : SimState P) : SimState P :=
  { S with
    poolQueue := S.poolQueue ++ [t]
    trace := S.trace ++ [Op.queue t] }

/-- The call `nblist.getParticleNeighbourhood(part, func)`: the delegate is called once for
every neighbour id, in the neighbour list's order. -/
def getParticleNeighbourhood {P α : Type} (D : SimData P) (part : Nat)
    (func : Nat → Nat → α → α) (a : α) : α :=
  (D.nbhd part).foldl (fun s id => func part id s) a

/-- The call `nblist.getParticleLocalNeighbourhood(part, func)`. -/
def getParticleLocalNeighbourhood {P α : Type} (D : SimData P) (part : Nat)
    (func : Nat → Nat → α → α) (a : α) : α :=
  (D.localNbhd part).foldl (fun s id => func part id s) a

/-- The local helper `NBlistData`: a vector of neighbour ids. -/
structure NBlistData where
  nbIDs : List Nat
  deriving DecidableEq, Repr

/-- The member `NBlistData::AddNBIDs`: `nbIDs.push_back(ID)`. -/
def NBlistData.AddNBIDs (_p1 : Nat) (ID : Nat) (d : NBlistData) : NBlistData :=
  { nbIDs := d.nbIDs ++ [ID] }

/-! ## The task functions -/

/-- The member `SThreadedNBList::threadAddIntEvent`. -/
def threadAddIntEvent {P : Type} (D : SimData P) (part : Nat) (id : Nat) (sorterLock : Lock)
    (S : SimState P) : SimState P :=
  let eevent := D.getEvent (particle S part) (particle S id)
  let S1 := record (Op.getEvent part id) S
  if eevent.type ≠ EEventType.NONE then
    push (intPart.interaction eevent (S1.eventCount id)) part (some sorterLock) true S1
  else S1

/-- The member `SThreadedNBList::threadAddLocalEvent`. -/
def threadAddLocalEvent {P : Type} (D : SimData P) (part : Nat) (id : Nat) (sorterLock : Lock)
    (S : SimState P) : SimState P :=
  let Event := (D.locals id).getEvent (particle S part)
  push (intPart.localEv Event) part (some sorterLock) true S

/-- The member `SThreadedNBList::addGlobal`. -/
def addGlobal {P : Type} (D : SimData P) (part : Nat) (glob : Nat) (sorterLock : Lock)
    (S : SimState P) : SimState P :=
  let event := (D.globals glob).getEvent (particle S part)
  push (intPart.global event) part (some sorterLock) true S

/-- Run one queued task. -/
def runTask {P : Type} (D : SimData P) (S : SimState P) : Task → SimState P
  | Task.threadAddIntEvent part id l => threadAddIntEvent D part id l S
  | Task.addGlobal part glob l => addGlobal D part glob l S
  | Task.threadAddLocalEvent part id l => threadAddLocalEvent D part id l S

/-- The member `SThreadedNBList::spawnThreadAddLocalEvent1`. -/
def spawnThreadAddLocalEvent1 {P : Type} (D : SimData P) (part : Nat) (id : Nat)
    (S : SimState P) : SimState P :=
  if (D.locals id).isInteraction (particle S part) then
    queue (Task.threadAddLocalEvent part id Lock.P1SorterLock) S
  else S

/-- The member `SThreadedNBList::spawnThreadAddLocalEvent2`. -/
def spawnThreadAddLocalEvent2 {P : Type} (D : SimData P) (part : Nat) (id : Nat)
    (S : SimState P) : SimState P :=
  if (D.locals id).isInteraction (particle S part) then
    queue (Task.threadAddLocalEvent part id Lock.P2SorterLock) S
  else S

/-! ## The thread pool -/

/-- An execution order of the pool: for every queue content, the order in which the queued
tasks take effect.  Every task runs exactly once (`perm`); nothing else is fixed, so all
thread counts and all interleavings of the tasks are covered. -/
structure Schedule where
  order : List Task → List Task
  perm : ∀ q, (order q).Perm q

/-- The schedule that runs the tasks in queue order. -/
def Schedule.fifo : Schedule := ⟨fun q => q, fun q => List.Perm.refl q⟩

/-- The schedule that runs the tasks in reverse queue order. -/
def Schedule.lifo : Schedule := ⟨fun q => q.reverse, fun q => List.reverse_perm q⟩

/-- Modelled from the spec: `_threadPool.wait()`, "block until the pool drains all queued
tasks".  When it returns, every queued task has run, in the order the schedule gives, and the
queue is empty. -/
def ThreadPool.wait {P : Type} (D : SimData P) (σ : Schedule) (S : SimState P) : SimState P :=
  record Op.wait ((σ.order S.poolQueue).foldl (runTask D) { S with poolQueue := [] })

/-! ## The scheduler's member functions -/

/-- Lines 156 to 172 of `SThreadedNBList::fullUpdate(p1, p2)`: fetch the neighbour ids of both
particles, stream the particles and their neighbours, increment both generation counters and
clear both event lists. -/
def fullUpdatePrepare {P : Type} (D : SimData P) (p1 p2 : Nat) (S : SimState P) :
    NBlistData × NBlistData × SimState P :=
  let nbIDs1 : NBlistData := getParticleNeighbourhood D p1 NBlistData.AddNBIDs ⟨[]⟩
  let S := record (Op.getParticleNeighbourhood p1) S
  let nbIDs2 : NBlistData := getParticleNeighbourhood D p2 NBlistData.AddNBIDs ⟨[]⟩
  let S := record (Op.getParticleNeighbourhood p2) S
  let S := updateParticle D p1 S
  let S := updateParticle D p2 S
  let S := nbIDs1.nbIDs.foldl (fun s ID => updateParticle D ID s) S
  let S := nbIDs2.nbIDs.foldl (fun s ID => updateParticle D ID s) S
  let S := incEventCount p1 S
  let S := incEventCount p2 S
  let S := clearPEL p1 S
  let S := clearPEL p2 S
  (nbIDs1, nbIDs2, S)

/-- Lines 174 to 193 of `SThreadedNBList::fullUpdate(p1, p2)`: queue the interaction tasks, the
global tasks and the local tasks. -/
def fullUpdateQueue {P : Type} (D : SimData P) (p1 p2 : Nat) (nbIDs1 nbIDs2 : NBlistData)
    (S : SimState P) : SimState P :=
  let S := nbIDs1.nbIDs.foldl
    (fun s ID => queue (Task.threadAddIntEvent p1 ID Lock.P1SorterLock) s) S
  let S := nbIDs2.nbIDs.foldl
    (fun s ID => queue (Task.threadAddIntEvent p2 ID Lock.P2SorterLock) s) S
  let S := (List.range D.nGlobals).foldl
    (fun s glob =>
      let s1 := if (D.globals glob).isInteraction (particle s p1) then
          queue (Task.addGlobal p1 glob Lock.P1SorterLock) s else s
      if (D.globals glob).isInteraction (particle s1 p2) then
        queue (Task.addGlobal p2 glob Lock.P2SorterLock) s1 else s1) S
  let S := getParticleLocalNeighbourhood D p1 (spawnThreadAddLocalEvent1 D)
    (record (Op.getParticleLocalNeighbourhood p1) S)
  getParticleLocalNeighbourhood D p2 (spawnThreadAddLocalEvent2 D)
    (record (Op.getParticleLocalNeighbourhood p2) S)

/-- The member `SThreadedNBList::fullUpdate(const CParticle& p1, const CParticle& p2)`, under an
execution order of the pool. -/
def fullUpdate {P : Type} (D : SimData P) (σ : Schedule) (p1 p2 : Nat) (S : SimState P) :
    SimState P :=
  let (nbIDs1, nbIDs2, S) := fullUpdatePrepare D p1 p2 S
  let S := fullUpdateQueue D p1 p2 nbIDs1 nbIDs2 S
  let S := ThreadPool.wait D σ S
  let S := update p1 S
  update p2 S

/-- Modelled from the spec: `CScheduler::addLocalEvent` is defined in the scheduler base class,
which is not part of the sources.  It is the single-threaded counterpart of
`spawnThreadAddLocalEvent1` followed by `threadAddLocalEvent`: one local event is pushed for a
local that has `isInteraction(part)`. -/
def addLocalEvent {P : Type} (D : SimData P) (part : Nat) (id : Nat) (S : SimState P) :
    SimState P :=
  if (D.locals id).isInteraction (particle S part) then
    push (intPart.localEv ((D.locals id).getEvent (particle S part))) part none false S
  else S

/-- The member `SThreadedNBList::streamParticles`. -/
def streamParticles {P : Type} (D : SimData P) (_part : Nat) (id : Nat) (S : SimState P) :
    SimState P :=
  updateParticle D id S

/-- The member `SThreadedNBList::addEvents2`. -/
def addEvents2 {P : Type} (D : SimData P) (part : Nat) (id : Nat) (S : SimState P) :
    SimState P :=
  let eevent := D.getEvent (particle S part) (particle S id)
  let S1 := record (Op.getEvent part id) S
  if eevent.type ≠ EEventType.NONE then
    push (intPart.interaction eevent (S1.eventCount id)) part none false S1
  else S1

/-- The member `SThreadedNBList::addEvents`. -/
def addEvents {P : Type} (D : SimData P) (part : Nat) (S : SimState P) : SimState P :=
  let S := updateParticle D part S
  let S := (List.range D.nGlobals).foldl
    (fun s glob =>
      if (D.globals glob).isInteraction (particle s part) then
        push (intPart.global ((D.globals glob).getEvent (particle s part))) part none false s
      else s) S
  let S := getParticleLocalNeighbourhood D part (addLocalEvent D)
    (record (Op.getParticleLocalNeighbourhood part) S)
  let S := getParticleNeighbourhood D part (streamParticles D)
    (record (Op.getParticleNeighbourhood part) S)
  getParticleNeighbourhood D part (addEvents2 D)
    (record (Op.getParticleNeighbourhood part) S)

/-! ## The single-particle update and the initial pass -/

/-- Modelled from the spec: `CScheduler::invalidateEvents` is defined in the scheduler base
class, which is not part of the sources.  A particle's generation number "increases every time
any of its pending events is invalidated", and the update "performs clear": the counter of the
particle is incremented and its event list cleared, as lines 168 to 172 do for two particles. -/
def invalidateEvents {P : Type} (part : Nat) (S : SimState P) : SimState P :=
  clearPEL part (incEventCount part S)

/-- Modelled from the spec: `CScheduler::sort` is defined in the scheduler base class; it is the
step that "updates the sorter" for the particle, `sorter->update(part.getID())`. -/
def sort {P : Type} (part : Nat) (S : SimState P) : SimState P :=
  update part S

/-- The member `SThreadedNBList::fullUpdate(const CParticle& part)`. -/
def fullUpdatePart {P : Type} (D : SimData P) (part : Nat) (S : SimState P) : SimState P :=
  sort part (addEvents D part (invalidateEvents part S))

/-- Modelled from the spec: `CScheduler::addInteractionEventInit` is defined in the scheduler
base class, which is not part of the sources and has no access to the pool of the derived
class.  It is the candidate step of the initial `addEvents` pass: the neighbour is streamed,
the event of the pair computed and pushed, on the calling thread, when its type is not
`NONE`. -/
def addInteractionEventInit {P : Type} (D : SimData P) (part : Nat) (id : Nat)
    (S : SimState P) : SimState P :=
  addEvents2 D part id (updateParticle D id S)

/-- The member `SThreadedNBList::addEventsInit`. -/
def addEventsInit {P : Type} (D : SimData P) (part : Nat) (S : SimState P) : SimState P :=
  let S := updateParticle D part S
  let S := (List.range D.nGlobals).foldl
    (fun s glob =>
      if (D.globals glob).isInteraction (particle s part) then
        push (intPart.global ((D.globals glob).getEvent (particle s part))) part none false s
      else s) S
  let S := getParticleLocalNeighbourhood D part (addLocalEvent D)
    (record (Op.getParticleLocalNeighbourhood part) S)
  getParticleNeighbourhood D part (addInteractionEventInit D)
    (record (Op.getParticleNeighbourhood part) S)

/-- The member `SThreadedNBList::threadStreamParticles`. -/
def threadStreamParticles {P : Type} (D : SimData P) (id : Nat) (S : SimState P) : SimState P :=
  updateParticle D id S

/-- A logged call made on the calling thread outside the pool: not a `queue`, and if a push,
then one made without a mutex and not by a queued task. -/
def Op.onCallingThread : Op → Bool
  | Op.queue _ => false
  | Op.push _ _ held inTask => held.isNone && !inTask
  | _ => true

/-- A logged push made by a queued task (any other call passes). -/
def Op.pushInTask : Op → Bool
  | Op.push _ _ _ inTask => inTask
  | _ => true

/-- A logged call that, if it is a sorter call (`clearPEL`, `push`, `update`), is made for
`p1` or for `p2`. -/
def Op.sorterCallFor (p1 p2 : Nat) : Op → Bool
  | Op.clearPEL id => id == p1 || id == p2
  | Op.push _ owner _ _ => owner == p1 || owner == p2
  | Op.update id => id == p1 || id == p2
  | _ => true

/-! ## Reading the call log -/

/-- The calls made between state `S` and a later state `S1`. -/
def opsDuring {P : Type} (S S1 : SimState P) : List Op :=
  S1.trace.drop S.trace.length

/-- The events pushed for `owner` in a stretch of the log, in the order of the pushes. -/
def pushedFor (owner : Nat) : List Op → List intPart
  | [] => []
  | Op.push ev o _ _ :: ops => if o = owner then ev :: pushedFor owner ops else pushedFor owner ops
  | _ :: ops => pushedFor owner ops

/-- All pushes of a stretch of the log, as (owner, event) pairs. -/
def pushes : List Op → List (Nat × intPart)
  | [] => []
  | Op.push ev o _ _ :: ops => (o, ev) :: pushes ops
  | _ :: ops => pushes ops

/-! ## A small concrete system, used to evaluate the definitions -/

/-- A system over integer particle data: streaming rounds the datum up to the next odd number,
there are two globals and two locals, and a pair has no interaction event when the sum of the
data is divisible by three. -/
def demoSim : SimData Nat where
  updateParticle := fun c => if c.data % 2 = 0 then c.data + 1 else c.data
  nGlobals := 2
  globals := fun g =>
    { isInteraction := fun c => (c.ID + g) % 2 = 0
      getEvent := fun c => ⟨c.ID, c.data + g, EEventType.OTHER g, g⟩ }
  locals := fun l =>
    { isInteraction := fun c => c.ID ≤ l
      getEvent := fun c => ⟨c.ID, c.data + l, EEventType.WALL, l⟩ }
  getEvent := fun a b =>
    ⟨a.ID, b.ID, a.data + b.data, if (a.data + b.data) % 3 = 0 then EEventType.NONE
      else EEventType.OTHER 0⟩
  nbhd := fun p => if p = 0 then [1, 2] else if p = 1 then [0, 2, 3] else [p - 1]
  localNbhd := fun p => if p = 0 then [0, 1] else [0]

/-- A starting state for `demoSim`: particle `i` holds `2 * i`, all counters are `5`, particle 0
and particle 1 each own one stale event. -/
def demoState : SimState Nat where
  vParticleList := fun i => 2 * i
  eventCount := fun _ => 5
  pel := fun i => if i ≤ 1 then [intPart.localEv ⟨i, 0, EEventType.WALL, 7⟩] else []
  poolQueue := []
  trace := []

/-! ## The rough wall (`src/dynamics/locals/lroughwall.cpp`) -/

/-- A three-component vector (`Vector`); coordinates are integers here. -/
structure Vector where
  x : Int
  y : Int
  z : Int
  deriving DecidableEq, Repr

/-- The difference of two vectors (`operator-`). -/
def Vector.sub (a b : Vector) : Vector := ⟨a.x - b.x, a.y - b.y, a.z - b.z⟩

/-- The scalar product of two vectors (`operator|`). -/
def Vector.dot (a b : Vector) : Int := a.x * b.x + a.y * b.y + a.z * b.z

/-- The data members of `LRoughWall` that the embedded functions read. -/
structure LRoughWall where
  vNorm : Vector
  vPosition : Vector
  e : Int
  et : Int
  r : Int
  deriving DecidableEq, Repr

/-- A local event as `LRoughWall::runEvent` receives it (`LocalEvent`). -/
abbrev LocalEvent := CLocalEvent

/-- The calls of `LRoughWall::runEvent`, as logged: the increment of `Sim->eventCount`, the
Liouvillean's `runRoughWallCollision`, `Sim->signalParticleUpdate`, the scheduler's
`fullUpdate` and the `eventUpdate` of the output plugin at a position of the list. -/
inductive WallOp (E : Type) where
  | incEventCount
  | runRoughWallCollision (part : Nat)
  | signalParticleUpdate (EDat : E)
  | fullUpdate (part : Nat)
  | eventUpdate (plugin : Nat) (iEvent : LocalEvent) (EDat : E)

/-- Whether a logged call is the scheduler's `fullUpdate`. -/
def WallOp.isFullUpdate {E : Type} : WallOp E → Bool
  | WallOp.fullUpdate _ => true
  | _ => false

/-- Whether a logged call is a plugin's `eventUpdate`. -/
def WallOp.isEventUpdate {E : Type} : WallOp E → Bool
  | WallOp.eventUpdate _ _ _ => true
  | _ => false

/-- Whether a logged call is `runRoughWallCollision` or `signalParticleUpdate`. -/
def WallOp.isCollisionOrSignal {E : Type} : WallOp E → Bool
  | WallOp.runRoughWallCollision _ => true
  | WallOp.signalParticleUpdate _ => true
  | _ => false

/-- The collaborators of `LRoughWall::runEvent`, over the state `W` of the simulation they
work on, the event data `E` (`NEventData`) and the state `G` of an output plugin: the
Liouvillean's `runRoughWallCollision(part, vNorm, e, et, r)`, which changes the particle and
returns the event data, `Sim->signalParticleUpdate`, the scheduler's `fullUpdate(part)` and a
plugin's `eventUpdate(iEvent, EDat)`.  All of them return. -/
structure WallSim (W E G : Type) where
  runRoughWallCollision : LRoughWall → Nat → W → W × E
  signalParticleUpdate : E → W → W
  fullUpdate : Nat → W → W
  eventUpdate : LocalEvent → E → G → G

/-- The state `LRoughWall::runEvent` works on: `Sim->eventCount`, the rest of the simulation,
the list `Sim->outputPlugins` and the call log. -/
structure WallState (W E G : Type) where
  eventCount : Nat
  world : W
  outputPlugins : List G
  trace : List (WallOp E)

/-- The loop `BOOST_FOREACH(... Ptr, Sim->outputPlugins) Ptr->eventUpdate(iEvent, EDat)`, from
list position `i` on: the plugins after the calls, and the calls. -/
def notifyPlugins {W E G : Type} (env : WallSim W E G) (iEvent : LocalEvent) (EDat : E) :
    Nat → List G → List G × List (WallOp E)
  | _, [] => ([], [])
  | i, g :: gs =>
      (env.eventUpdate iEvent EDat g :: (notifyPlugins env iEvent EDat (i + 1) gs).1,
        WallOp.eventUpdate i iEvent EDat :: (notifyPlugins env iEvent EDat (i + 1) gs).2)

/-- The member `LRoughWall::runEvent`. -/
def LRoughWall.runEvent {W E G : Type} (env : WallSim W E G) (wall : LRoughWall) (part : Nat)
    (iEvent : LocalEvent) (S : WallState W E G) : WallState W E G :=
  let S1 : WallState W E G :=
    { S with eventCount := S.eventCount + 1, trace := S.trace ++ [WallOp.incEventCount] }
  let EDat := (env.runRoughWallCollision wall part S1.world).2
  let S2 : WallState W E G :=
    { S1 with
      world := (env.runRoughWallCollision wall part S1.world).1
      trace := S1.trace ++ [WallOp.runRoughWallCollision part] }
  let S3 : WallState W E G :=
    { S2 with
      world := env.signalParticleUpdate EDat S2.world
      trace := S2.trace ++ [WallOp.signalParticleUpdate EDat] }
  let S4 : WallState W E G :=
    { S3 with
      world := env.fullUpdate part S3.world
      trace := S3.trace ++ [WallOp.fullUpdate part] }
  { S4 with
    outputPlugins := (notifyPlugins env iEvent EDat 0 S4.outputPlugins).1
    trace := S4.trace ++ (notifyPlugins env iEvent EDat 0 S4.outputPlugins).2 }

/-- The calls made between wall state `S` and a later state `S1`. -/
def wallOpsDuring {W E G : Type} (S S1 : WallState W E G) : List (WallOp E) :=
  S1.trace.drop S.trace.length

/-- A line written to the information stream by `checkOverlaps`: "Possible overlap of
`overlap / unitLength` for particle `particle`", with the position and the normal of the
wall. -/
structure OverlapMessage where
  overlap : Int
  unitLength : Int
  particle : Nat
  vPosition : Vector
  vNorm : Vector
  deriving DecidableEq, Repr

/-- The member `LRoughWall::checkOverlaps`, for a particle with the given id and position.
The boundary condition `Sim->dynamics.BCs().applyBC` and the unit of length are parameters.
The result is an exception, or the lines written to the information stream on a normal
return. -/
def LRoughWall.checkOverlaps (applyBC : Vector → Vector) (unitLength : Int) (wall : LRoughWall)
    (ID : Nat) (position : Vector) : Except String (List OverlapMessage) :=
  let pos := applyBC (position.sub wall.vPosition)
  let r := pos.dot wall.vNorm
  if r < 0 then
    Except.ok [⟨r, unitLength, ID, wall.vPosition, wall.vNorm⟩]
  else Except.ok []

/-- A wall through the origin with normal along `z`, used to evaluate the definitions. -/
def demoWall : LRoughWall := ⟨⟨0, 0, 1⟩, ⟨0, 0, 0⟩, 1, 1, 1⟩

/-- Collaborators for `runEvent` over a counter as world, numbers as event data and lists of
received data as plugin states. -/
def demoWallSim : WallSim Nat Nat (List Nat) where
  runRoughWallCollision := fun _ part w => (w + 1, 10 * part + w)
  signalParticleUpdate := fun _ w => w + 100
  fullUpdate := fun _ w => w + 1000
  eventUpdate := fun _ EDat g => g ++ [EDat]

/-- A starting state for `demoWallSim` with three output plugins. -/
def demoWallState : WallState Nat Nat (List Nat) := ⟨41, 0, [[], [1], [2, 3]], []⟩

/-! ## The raw volume loader (`src/magnet/magnet/GL/textureLoaderRAW.hpp`) -/

/-- Modelled from the spec: `clamp` is declared in `magnet/clamp.hpp`, which is not part of the
sources; `clamp(x, lo, hi)` brings `x` into the range from `lo` to `hi`. -/
def clamp (x lo hi : Int) : Int := min (max x lo) hi

/-- The value of an arithmetic expression of type `GLint`, a signed integer of 32 bits: a
result outside the range wraps around (two's complement), which is what the usual platforms
compute where the C++ standard leaves the overflow undefined. -/
def GLint.wrap (v : Int) : Int := (v + 2 ^ 31) % 2 ^ 32 - 2 ^ 31

/-- The conversion of a `GLint` to `size_t`, an unsigned integer of 64 bits. -/
def GLint.toSizeT (v : Int) : Int := v % 2 ^ 64

/-- The function `magnet::GL::detail::coordCalc`.  Every operation on `GLint` wraps around at
32 bits, and the result is converted to `size_t`. -/
def detail.coordCalc (x y z width height depth : Int) : Int :=
  let x := clamp x 0 (GLint.wrap (width - 1))
  let y := clamp y 0 (GLint.wrap (height - 1))
  let z := clamp z 0 (GLint.wrap (depth - 1))
  GLint.toSizeT
    (GLint.wrap (x + GLint.wrap (width * GLint.wrap (y + GLint.wrap (height * z)))))

/-- The sample `inbuffer[detail::coordCalc(x, y, z, width, height, depth)]`, if the index is
inside the buffer. -/
def sampleAt (inbuffer : List Nat) (x y z width height depth : Int) : Option Nat :=
  inbuffer[(detail.coordCalc x y z width height depth).toNat]?

/-- A three-dimensional texture (`Texture3D`): its dimensions and the image last written to it
by `subImage`, if any. -/
structure Texture3D where
  width : Nat
  height : Nat
  depth : Nat
  image : Option (List Nat)
  deriving DecidableEq, Repr

/-- The call `file.read(buffer, n)` followed by the test `file.fail()`, on a file given by its
bytes (`none`: the file could not be opened): the `n` bytes read, or `none` when the stream
has failed, which it has when the file was not opened or holds fewer than `n` bytes. -/
def readBytes (file : Option (List Nat)) (n : Nat) : Option (List Nat) :=
  match file with
  | none => none
  | some bs => if n ≤ bs.length then some (bs.take n) else none

/-- The conversion loop of case 2: element `i` of `tempBuffer` is the 16-bit word made of
bytes `2 i` and `2 i + 1` (low byte first), and `inbuffer[i] = uint8_t(tempBuffer[i] >> 8)`. -/
def highBytes (bs : List Nat) (n : Nat) : List Nat :=
  (List.range n).map (fun i => ((bs.getD (2 * i) 0 + 256 * bs.getD (2 * i + 1) 0) / 256) % 256)

/-- How a call ends: it returns, it throws an exception, or it reads or writes outside a
vector, after which the program has no defined behaviour. -/
inductive Outcome where
  | returned
  | threw (what : String)
  | outOfRange
  deriving DecidableEq, Repr

/-- The write `voldata[k] = val`; an index outside the vector is a failure. -/
def writeAt (voldata : List Nat) (k : Int) (val : Nat) : Option (List Nat) :=
  if k.toNat < voldata.length then some (voldata.set k.toNat val) else none

/-- A `for` loop over the values `l` whose body may fail: the state after the last iteration,
or `none` at the first failure. -/
def forLoop {α β : Type} (body : β → α → Option β) : List α → β → Option β
  | [], b => some b
  | a :: as, b =>
    match body b a with
    | none => none
    | some b1 => forLoop body as b1

/-- The body of the innermost loop of `loadVolumeFromRawFile` for the voxel `(x, y, z)`
(lines 79 to 99): `voldata` after the body, or `none` when a read of `inbuffer` or a write of
`voldata` is outside the vector.  The arithmetic on `GLint` wraps around; `coord` and
`4 * coord + j` are `size_t`.  The floating-point step from the gradient `sample1 - sample2` to
its three bytes is a parameter. -/
def writeVoxel (encodeGrad : Vector → Nat × Nat × Nat) (inbuffer : List Nat)
    (width height depth : Int) (voldata : List Nat) (x y z : Int) : Option (List Nat) :=
  match sampleAt inbuffer (GLint.wrap (x - 1)) y z width height depth,
    sampleAt inbuffer x (GLint.wrap (y - 1)) z width height depth,
    sampleAt inbuffer x y (GLint.wrap (z - 1)) width height depth,
    sampleAt inbuffer (GLint.wrap (x + 1)) y z width height depth,
    sampleAt inbuffer x (GLint.wrap (y + 1)) z width height depth,
    sampleAt inbuffer x y (GLint.wrap (z + 1)) width height depth,
    sampleAt inbuffer x y z width height depth with
  | some a1, some a2, some a3, some b1, some b2, some b3, some c =>
    let sample1 : Vector := ⟨a1, a2, a3⟩
    let sample2 : Vector := ⟨b1, b2, b3⟩
    let grad := encodeGrad (sample1.sub sample2)
    let coord := GLint.toSizeT
      (GLint.wrap (x + GLint.wrap (width * GLint.wrap (y + GLint.wrap (height * z)))))
    match writeAt voldata ((4 * coord + 0) % 2 ^ 64) grad.1 with
    | none => none
    | some v1 =>
      match writeAt v1 ((4 * coord + 1) % 2 ^ 64) grad.2.1 with
      | none => none
      | some v2 =>
        match writeAt v2 ((4 * coord + 2) % 2 ^ 64) grad.2.2 with
        | none => none
        | some v3 => writeAt v3 ((4 * coord + 3) % 2 ^ 64) c
  | _, _, _, _, _, _, _ => none

/-- The three loops of `loadVolumeFromRawFile` that fill `voldata` (lines 75 to 100). -/
def fillVoldata (encodeGrad : Vector → Nat × Nat × Nat) (inbuffer : List Nat)
    (width height depth : Int) (voldata : List Nat) : Option (List Nat) :=
  forLoop (fun vol (z : Nat) =>
    forLoop (fun vol (y : Nat) =>
      forLoop (fun vol (x : Nat) =>
        writeVoxel encodeGrad inbuffer width height depth vol x y z)
        (List.range width.toNat) vol)
      (List.range height.toNat) vol)
    (List.range depth.toNat) voldata

/-- The value of the `GLint` expression `_width * _height * _depth`, the size given to
`inbuffer` and to `tempBuffer` (lines 50 and 62). -/
def volumeSize (width height depth : Int) : Int :=
  GLint.wrap (GLint.wrap (width * height) * depth)

/-- The value of the `GLint` expression `4 * _width * _height * _depth`, the size given to
`voldata` (line 73). -/
def voldataSize (width height depth : Int) : Int :=
  GLint.wrap (GLint.wrap (GLint.wrap (4 * width) * height) * depth)

/-- The function `magnet::GL::loadVolumeFromRawFile`: the texture after the call, and how the
call ended.  The dimensions are read into `GLint` variables and the sizes of the vectors are
`GLint` products, which wrap around; a vector whose size is a negative `GLint` converted to
`size_t` cannot be created and its constructor throws; other allocations succeed. -/
def loadVolumeFromRawFile (encodeGrad : Vector → Nat × Nat × Nat) (file : Option (List Nat))
    (tex : Texture3D) (bytes : Nat) : Texture3D × Outcome :=
  let _width := GLint.wrap tex.width
  let _height := GLint.wrap tex.height
  let _depth := GLint.wrap tex.depth
  let size := volumeSize _width _height _depth
  if size < 0 then (tex, Outcome.threw "std::length_error")
  else
    let inbuffer : Except String (List Nat) :=
      match bytes with
      | 1 =>
        match readBytes file size.toNat with
        | none => Except.error "Failed to load the texture from the file"
        | some bs => Except.ok bs
      | 2 =>
        match readBytes file (2 * size.toNat) with
        | none => Except.error "Failed to load the texture from the file"
        | some bs => Except.ok (highBytes bs size.toNat)
      | _ => Except.error "Cannot load at that bit depth yet"
    match inbuffer with
    | Except.error msg => (tex, Outcome.threw msg)
    | Except.ok inbuffer =>
      let volsize := voldataSize _width _height _depth
      if volsize < 0 then (tex, Outcome.threw "std::length_error")
      else
        match fillVoldata encodeGrad inbuffer _width _height _depth
            (List.replicate volsize.toNat 0) with
        | none => (tex, Outcome.outOfRange)
        | some voldata => ({ tex with image := some voldata }, Outcome.returned)

/-- The four OpenGL buffer objects of an `RTriangles`: `_colBuff`, `_posBuff`, `_normBuff` and
`_elementBuff`. -/
inductive GLBuffer where
  | colBuff
  | posBuff
  | normBuff
  | elementBuff
  deriving DecidableEq, Repr

/-- The OpenGL calls of the setters, with the buffer object they name; `glBufferDataARB`
carries the number of elements it uploads. -/
inductive GLCall where
  | glDeleteBuffers (b : GLBuffer)
  | glGenBuffersARB (b : GLBuffer)
  | glBindBufferARB (b : GLBuffer)
  | glBufferDataARB (b : GLBuffer) (elements : Nat)
  deriving DecidableEq, Repr

/-- The members of `RTriangles` that the setters use: the four recorded buffer sizes, and the
OpenGL calls made on the object so far. -/
structure RTriangles where
  _colBuffSize : Nat
  _posBuffSize : Nat
  _normBuffSize : Nat
  _elementBuffSize : Nat
  glCalls : List GLCall
  deriving DecidableEq, Repr

/-- The constructor `RTriangles::RTriangles()`. -/
def RTriangles.new : RTriangles := ⟨0, 0, 0, 0, []⟩

/-- Append OpenGL calls to the record of the object. -/
def RTriangles.gl (cs : List GLCall) (t : RTriangles) : RTriangles :=
  { t with glCalls := t.glCalls ++ cs }

/-- The member `RTriangles::setGLColors`: the object after the call, and whether the call
returned or threw.  The two nested tests of lines 87 and 88 are one conjunction. -/
def RTriangles.setGLColors {F : Type} (VertexColor : List F) (t : RTriangles) :
    RTriangles × Except String Unit :=
  if VertexColor.length = 0 then (t, Except.error "VertexColor.size() == 0!")
  else if VertexColor.length % 4 ≠ 0 then
    (t, Except.error "VertexColor.size() is not a multiple of 4!")
  else if t._posBuffSize ≠ 0 ∧ VertexColor.length / 4 ≠ t._posBuffSize / 3 then
    (t, Except.error "VertexColor.size()/4 != posBuffSize/3")
  else
    let t1 := if t._colBuffSize ≠ 0 then t.gl [GLCall.glDeleteBuffers GLBuffer.colBuff] else t
    let t2 := { t1 with _colBuffSize := VertexColor.length }
    (t2.gl [GLCall.glGenBuffersARB GLBuffer.colBuff, GLCall.glBindBufferARB GLBuffer.colBuff,
      GLCall.glBufferDataARB GLBuffer.colBuff VertexColor.length], Except.ok ())

/-- The member `RTriangles::setGLPositions`. -/
def RTriangles.setGLPositions {F : Type} (VertexPos : List F) (t : RTriangles) :
    RTriangles × Except String Unit :=
  if VertexPos.length = 0 then (t, Except.error "VertexPos.size() == 0!")
  else if VertexPos.length % 3 ≠ 0 then
    (t, Except.error "VertexPos.size() is not a multiple of 3!")
  else if t._colBuffSize ≠ 0 ∧ t._colBuffSize / 4 ≠ VertexPos.length / 3 then
    (t, Except.error "VertexPos.size()/3 != colBuffSize/4 ")
  else if t._normBuffSize ≠ 0 ∧ t._normBuffSize ≠ VertexPos.length then
    (t, Except.error "VertexPos.size() != normBuffSize!")
  else
    let t1 := if t._posBuffSize ≠ 0 then t.gl [GLCall.glDeleteBuffers GLBuffer.posBuff] else t
    let t2 := { t1 with _posBuffSize := VertexPos.length }
    (t2.gl [GLCall.glGenBuffersARB GLBuffer.posBuff, GLCall.glBindBufferARB GLBuffer.posBuff,
      GLCall.glBufferDataARB GLBuffer.posBuff VertexPos.length], Except.ok ())

/-- The member `RTriangles::setGLNormals`. -/
def RTriangles.setGLNormals {F : Type} (VertexNormals : List F) (t : RTriangles) :
    RTriangles × Except String Unit :=
  if VertexNormals.length = 0 then (t, Except.error "VertexNormals.size() == 0!")
  else if VertexNormals.length % 3 ≠ 0 then
    (t, Except.error "VertexNormals.size() is not a multiple of 3!")
  else if t._posBuffSize ≠ 0 ∧ VertexNormals.length ≠ t._posBuffSize then
    (t, Except.error "VertexNormals.size() != posBuffsize!")
  else
    let t1 := if t._normBuffSize ≠ 0 then t.gl [GLCall.glDeleteBuffers GLBuffer.normBuff] else t
    let t2 := { t1 with _normBuffSize := VertexNormals.length }
    (t2.gl [GLCall.glGenBuffersARB GLBuffer.normBuff, GLCall.glBindBufferARB GLBuffer.normBuff,
      GLCall.glBufferDataARB GLBuffer.normBuff VertexNormals.length], Except.ok ())

/-- The member `RTriangles::setGLElements`. -/
def RTriangles.setGLElements {I : Type} (Elements : List I) (t : RTriangles) :
    RTriangles × Except String Unit :=
  if Elements.length = 0 then (t, Except.error "Elements.size() == 0!")
  else if Elements.length % 3 ≠ 0 then
    (t, Except.error "Elements.size() is not a multiple of 3!")
  else
    let t1 :=
      if t._elementBuffSize ≠ 0 then t.gl [GLCall.glDeleteBuffers GLBuffer.elementBuff] else t
    let t2 := { t1 with _elementBuffSize := Elements.length }
    (t2.gl [GLCall.glGenBuffersARB GLBuffer.elementBuff,
      GLCall.glBindBufferARB GLBuffer.elementBuff,
      GLCall.glBufferDataARB GLBuffer.elementBuff Elements.length], Except.ok ())

/-- The four recorded buffer sizes of an `RTriangles`, in the order colours, positions,
normals, elements. -/
def RTriangles.sizes (t : RTriangles) : Nat × Nat × Nat × Nat :=
  (t._colBuffSize, t._posBuffSize, t._normBuffSize, t._elementBuffSize)

/-! ## The shadow-map framebuffer (`src/magnet/magnet/GL/shadowFBO.hpp`) -/

/-- The OpenGL calls of `shadowFBO::init` and `shadowFBO::deinit`, by name;
`glBindFramebufferEXT` carries whether it binds `_FBO` (or the window framebuffer 0), and
`glTexImage2D` the side length it is given. -/
inductive FBOCall where
  | glGenFramebuffersEXT
  | glBindFramebufferEXT (own : Bool)
  | glGenTextures
  | glBindTexture
  | glTexImage2D (length : Int)
  | glTexParameter
  | glFramebufferTexture2DEXT
  | glDrawBuffer
  | glReadBuffer
  | glCheckFramebufferStatusEXT
  | glDeleteFramebuffersEXT
  | glDeleteTextures
  deriving DecidableEq, Repr

/-- The class `magnet::GL::shadowFBO`: the member `_length` (a `GLsizei`, a signed integer)
and the OpenGL calls made on the object so far. -/
structure shadowFBO where
  _length : Int
  glCalls : List FBOCall
  deriving DecidableEq, Repr

/-- The constructor `shadowFBO::shadowFBO()`. -/
def shadowFBO.new : shadowFBO := ⟨0, []⟩

/-- The member `shadowFBO::getLength`. -/
def shadowFBO.getLength (s : shadowFBO) : Int := s._length

/-- The member `shadowFBO::init`: the object after the call, and whether the call returned or
threw.  The answer of the OpenGL driver in line 69, whether `FBOstatus` is
`GL_FRAMEBUFFER_COMPLETE_EXT`, is the parameter `complete`. -/
def shadowFBO.init (complete : Bool) (length : Int) (s : shadowFBO) :
    shadowFBO × Except String Unit :=
  if s._length ≠ 0 then (s, Except.error "shadowFBO has already been initialised!")
  else if length = 0 then
    (s, Except.error "Cannot initialise a shadowFBO with a side length == 0!")
  else
    let s1 : shadowFBO := { s with _length := length }
    let s2 : shadowFBO := { s1 with glCalls := s1.glCalls ++
      [FBOCall.glGenFramebuffersEXT, FBOCall.glBindFramebufferEXT true,
        FBOCall.glGenTextures, FBOCall.glBindTexture, FBOCall.glTexImage2D s1._length,
        FBOCall.glTexParameter, FBOCall.glTexParameter, FBOCall.glTexParameter,
        FBOCall.glTexParameter, FBOCall.glTexParameter, FBOCall.glTexParameter,
        FBOCall.glTexParameter, FBOCall.glTexParameter,
        FBOCall.glFramebufferTexture2DEXT, FBOCall.glDrawBuffer, FBOCall.glReadBuffer,
        FBOCall.glCheckFramebufferStatusEXT] }
    if complete = false then (s2, Except.error "GL_FRAMEBUFFER_COMPLETE_EXT failed")
    else ({ s2 with glCalls := s2.glCalls ++ [FBOCall.glBindFramebufferEXT false] }, Except.ok ())

/-- The member `shadowFBO::deinit`. -/
def shadowFBO.deinit (s : shadowFBO) : shadowFBO :=
  let s1 : shadowFBO :=
    if s._length ≠ 0 then
      { s with glCalls := s.glCalls ++
        [FBOCall.glDeleteFramebuffersEXT, FBOCall.glDeleteTextures] }
    else s
  { s1 with _length := 0 }

/-! ## Attributes and their selectors (`src/coil/coil/RenderObj/DataSet.hpp`) -/

/-- The members of `coil::Attribute` that `size()`, `components()` and the selectors use.  The
type `R` stands for `GLfloat`. -/
structure Attribute (R : Type) where
  _hostData : List R
  _components : Nat
  _type : Int

/-- The constructor `Attribute::Attribute(N, type, components, context)`: the object, or the
exception thrown.  The vector `_hostData(N * components)` holds `N * components` zeros; sizes
are natural numbers (no overflow). -/
def Attribute.new {R : Type} [Zero R] (N : Nat) (type : Int) (components : Nat) :
    Except String (Attribute R) :=
  let a : Attribute R := ⟨List.replicate (N * components) 0, components, type⟩
  if a._components > 4 then
    Except.error "We don't support greater than 4 component attributes due to the way data is sometimes directly passed to the shaders (e.g. positional data)"
  else Except.ok a

/-- The member `Attribute::getData`. -/
def Attribute.getData {R : Type} (a : Attribute R) : List R := a._hostData

/-- The member `Attribute::components`. -/
def Attribute.components {R : Type} (a : Attribute R) : Nat := a._components

/-- The member `Attribute::size`, `_hostData.size() / _components`: `none` when the division
is by zero, which in C++ has no defined result. -/
def Attribute.size {R : Type} (a : Attribute R) : Option Nat :=
  if a._components = 0 then none else some (a._hostData.length / a._components)

/-- The rows that `AttributeSelector::updateGui` appends to the component selector for the
attribute `ptr` (lines 536 to 545), in order; row 0 is the first. -/
def componentSelectRows {R : Type} (ptr : Attribute R) : List String :=
  ["Raw Data", "Magnitude", "X"] ++
  (if ptr.components > 1 then ["Y"] else []) ++
  (if ptr.components > 2 then ["Z"] else []) ++
  (if ptr.components > 3 then ["W"] else [])

/-- A loop `for (...) out[i] = f(i)` whose body may fail: the values in order, or the first
failure. -/
def forEach {α β : Type} (f : α → Except String β) : List α → Except String (List β)
  | [] => Except.ok []
  | a :: as =>
    match f a with
    | Except.error e => Except.error e
    | Except.ok b =>
      match forEach f as with
      | Except.error e => Except.error e
      | Except.ok bs => Except.ok (b :: bs)

/-- A loop that updates an accumulator and whose body may fail. -/
def foldEach {α β : Type} (f : β → α → Except String β) : List α → β → Except String β
  | [], b => Except.ok b
  | a :: as, b =>
    match f b a with
    | Except.error e => Except.error e
    | Except.ok b1 => foldEach f as b1

/-- The read `attrdata[k]`; an index outside the vector is a failure. -/
def readAt {R : Type} (attrdata : List R) (k : Nat) : Except String R :=
  match attrdata[k]? with
  | some val => Except.ok val
  | none => Except.error "read outside attrdata"

/-- The member `AttributeSelector::generateFilteredData`: the vector `scalardata` on return,
or a failure.  Addition, multiplication and `std::sqrt` of `GLfloat` are those of `R` and the
parameter `sqrt`; `debug` says whether `COIL_DEBUG` is defined; `mode - 2` is a subtraction of
`size_t` (64 bits), which wraps around below 2. -/
def generateFilteredData {R : Type} [Zero R] [Add R] [Mul R] (sqrt : R → R) (debug : Bool)
    (ptr : Attribute R) (mode : Nat) : Except String (List R) :=
  match ptr.size with
  | none => Except.error "division by zero in size()"
  | some n =>
    let components := ptr.components
    let attrdata := ptr.getData
    if mode = 1 then
      forEach (fun i =>
        match foldEach (fun sum j =>
            match readAt attrdata (i * components + j) with
            | Except.error e => Except.error e
            | Except.ok val => Except.ok (sum + val * val))
          (List.range components) 0 with
        | Except.error e => Except.error e
        | Except.ok sum => Except.ok (sqrt sum)) (List.range n)
    else
      let component := if 2 ≤ mode then mode - 2 else mode + 2 ^ 64 - 2
      if debug = true ∧ component ≥ components then
        Except.error "Trying to filter an invalid component"
      else
        forEach (fun i => readAt attrdata (i * components + component)) (List.range n)

/-- The Euclidean norm of a list of components, in the words of the specification: the square
root of the sum of the squares. -/
def euclideanNorm {R : Type} [Zero R] [Add R] [Mul R] (sqrt : R → R) (xs : List R) : R :=
  sqrt ((xs.map (fun v => v * v)).foldl (fun s q => s + q) 0)

/-- The largest integer whose square is at most `x`, used where a concrete square root is
needed to evaluate `generateFilteredData`. -/
def floorSqrt (x : Int) : Int :=
  ((List.range (x.toNat + 1)).filter (fun r => r * r ≤ x.toNat)).length - 1

/-- An attribute of two elements with three components each, over the integers. -/
def demoAttribute : Attribute Int := ⟨[3, 4, 0, 6, 8, 0], 3, 1⟩

/-- The class `Vector` with components in `K`, which stands for `double`: the arithmetic of
`K` is exact, rounding is not modelled. -/
structure Vector3 (K : Type) where
  x : K
  y : K
  z : K

/-- The scalar product of two vectors (`operator|`). -/
def Vector3.dot {K : Type} [Field K] (a b : Vector3 K) : K := a.x * b.x + a.y * b.y + a.z * b.z

/-- The length of a vector (`nrm()`), the square root of its scalar product with itself. -/
def Vector3.nrm {K : Type} [Field K] (sqrt : K → K) (a : Vector3 K) : K := sqrt (a.dot a)

/-- Modelled from the spec: the event sorter is not part of the sources.  An event, as the
sorter sees it: "predicted time", the "stable secondary key" that breaks ties, and a payload
the sorter does not read. -/
structure SorterEvent where
  time : Int
  tiebreak : Nat
  payload : Nat
  deriving DecidableEq, Repr

/-- Modelled from the spec: the ordering key, "time, ascending; ties broken by a stable
secondary key".  This is the order "(time, tiebreak)" on events. -/
def SorterEvent.le (a b : SorterEvent) : Bool :=
  decide (a.time < b.time ∨ (a.time = b.time ∧ a.tiebreak ≤ b.tiebreak))

/-- The first least element of a list under an order, if the list is not empty. -/
def minOf {α : Type} (le : α → α → Bool) : List α → Option α
  | [] => none
  | a :: l =>
    match minOf le l with
    | none => some a
    | some b => if le a b then some a else some b

/-- Modelled from the spec: the event sorter "owns a collection of per-particle event lists plus
a global priority structure over their current minimums", for participants `0 .. N-1`. -/
structure EventSorter (N : Nat) where
  pel : Fin N → List SorterEvent
  minimums : Fin N → Option SorterEvent

/-- The sorter with no event. -/
def EventSorter.empty (N : Nat) : EventSorter N := ⟨fun _ => [], fun _ => none⟩

/-- Modelled from the spec: `update(participant)` "re-admits the participant's new minimum to
the global structure". -/
def EventSorter.update {N : Nat} (p : Fin N) (s : EventSorter N) : EventSorter N :=
  { s with minimums := Function.update s.minimums p (minOf SorterEvent.le (s.pel p)) }

/-- Modelled from the spec: `push(event)` "inserts event into the owning participant's local
list" and updates "the global minimum structure". -/
def EventSorter.push {N : Nat} (ev : SorterEvent) (p : Fin N) (s : EventSorter N) :
    EventSorter N :=
  EventSorter.update p { s with pel := Function.update s.pel p (s.pel p ++ [ev]) }

/-- Modelled from the spec: `clear(participant)` "discards all events owned by participant";
it is "safe to call even if the participant has zero events". -/
def EventSorter.clear {N : Nat} (p : Fin N) (s : EventSorter N) : EventSorter N :=
  { pel := Function.update s.pel p []
    minimums := Function.update s.minimums p none }

/-- The order of the global structure: participants are compared by their minimums. -/
def entryLe {N : Nat} (a b : Fin N × SorterEvent) : Bool := a.2.le b.2

/-- The entries of the global structure: one per participant that has a minimum. -/
def EventSorter.entries {N : Nat} (s : EventSorter N) : List (Fin N × SorterEvent) :=
  (List.finRange N).filterMap (fun p => (s.minimums p).map (fun e => (p, e)))

/-- Modelled from the spec: `pop_minimum() -> Event` "removes and returns the event with
smallest (time, tiebreak) across all participants" and "fails with EmptyQueue if no events
remain".  The least entry of the global structure is taken, the event removed from its owner's
list, and the owner's next minimum re-admitted. -/
def EventSorter.popMinimum {N : Nat} (s : EventSorter N) :
    Except String ((Fin N × SorterEvent) × EventSorter N) :=
  match minOf entryLe s.entries with
  | none => Except.error "EmptyQueue"
  | some x =>
    Except.ok (x,
      EventSorter.update x.1 { s with pel := Function.update s.pel x.1 ((s.pel x.1).erase x.2) })

/-- An operation on the event sorter. -/
inductive SorterOp (N : Nat) where
  | push (ev : SorterEvent) (p : Fin N)
  | clear (p : Fin N)
  | update (p : Fin N)
  | pop
  deriving DecidableEq, Repr

/-- One operation applied to the sorter and, beside it, to a brute-force reference: the plain
list of pending (owner, event) pairs, "pushed and neither popped nor cleared since".  A pop
removes from the reference the pair that the sorter returned; a failed pop changes nothing. -/
def sorterStep {N : Nat} (st : EventSorter N × List (Fin N × SorterEvent)) :
    SorterOp N → EventSorter N × List (Fin N × SorterEvent)
  | SorterOp.push ev p => (st.1.push ev p, st.2 ++ [(p, ev)])
  | SorterOp.clear p => (st.1.clear p, st.2.filter (fun x => decide (x.1 ≠ p)))
  | SorterOp.update p => (st.1.update p, st.2)
  | SorterOp.pop =>
    match st.1.popMinimum with
    | Except.ok r => (r.2, st.2.erase r.1)
    | Except.error _ => st

/-- A sequence of operations applied to the empty sorter: the sorter and the reference list of
pending pairs after it. -/
def runSorter {N : Nat} (ops : List (SorterOp N)) :
    EventSorter N × List (Fin N × SorterEvent) :=
  ops.foldl sorterStep (EventSorter.empty N, [])

/-- The owners of the events that the pops of a sequence of operations return, from a given
sorter on. -/
def popOwners {N : Nat} : EventSorter N → List (SorterOp N) → List (Fin N)
  | _, [] => []
  | s, SorterOp.pop :: ops =>
    match s.popMinimum with
    | Except.ok r => r.1.1 :: popOwners r.2 ops
    | Except.error _ => popOwners s ops
  | s, SorterOp.push ev p :: ops => popOwners (s.push ev p) ops
  | s, SorterOp.clear p :: ops => popOwners (s.clear p) ops
  | s, SorterOp.update p :: ops => popOwners (s.update p) ops

/-- What a pop is checked against the reference list: a returned pair is pending and no
pending event is smaller; a failure leaves no pending event. -/
def popAgrees {N : Nat} (r : Except String ((Fin N × SorterEvent) × EventSorter N))
    (pending : List (Fin N × SorterEvent)) : Prop :=
  match r with
  | Except.ok x => x.1 ∈ pending ∧ ∀ y ∈ pending, x.1.2.le y.2 = true
  | Except.error _ => pending = []

/-! ## Replaying the log -/

/-- The effect of the sorter calls of a stretch of the log on the per-particle event lists. -/
def pelAfter : List Op → (Nat → List intPart) → (Nat → List intPart)
  | [], pel => pel
  | Op.push ev owner _ _ :: ops, pel =>
      pelAfter ops (Function.update pel owner (pel owner ++ [ev]))
  | Op.clearPEL id :: ops, pel => pelAfter ops (Function.update pel id [])
  | _ :: ops, pel => pelAfter ops pel

/-- The tasks queued in a stretch of the log, in queue order. -/
def queuedIn : List Op → List Task
  | [] => []
  | Op.queue t :: ops => t :: queuedIn ops
  | _ :: ops => queuedIn ops

/-- The state after a stretch of calls that touch neither particle data nor counters. -/
def logOps {P : Type} (ops : List Op) (S : SimState P) : SimState P :=
  { S with
    pel := pelAfter ops S.pel
    poolQueue := S.poolQueue ++ queuedIn ops
    trace := S.trace ++ ops }

/-- The particle data after streaming the listed particles, one after the other. -/
def streamAll {P : Type} (D : SimData P) (ids : List Nat) (v : Nat → P) : Nat → P :=
  ids.foldl (fun w id => Function.update w id (D.updateParticle ⟨id, w id⟩)) v

/-- The calls one task makes, given the particle data and the counters it reads. -/
def taskOps {P : Type} (D : SimData P) (v : Nat → P) (ec : Nat → Nat) : Task → List Op
  | Task.threadAddIntEvent part id l =>
      Op.getEvent part id ::
        (if (D.getEvent ⟨part, v part⟩ ⟨id, v id⟩).type ≠ EEventType.NONE then
          [Op.push (intPart.interaction (D.getEvent ⟨part, v part⟩ ⟨id, v id⟩) (ec id)) part
            (some l) true]
        else [])
  | Task.addGlobal part glob l =>
      [Op.push (intPart.global ((D.globals glob).getEvent ⟨part, v part⟩)) part (some l) true]
  | Task.threadAddLocalEvent part id l =>
      [Op.push (intPart.localEv ((D.locals id).getEvent ⟨part, v part⟩)) part (some l) true]

/-- The global tasks that `fullUpdate(p1, p2)` queues, given the particle data. -/
def globalTasks {P : Type} (D : SimData P) (p1 p2 : Nat) (v : Nat → P) : List Task :=
  (List.range D.nGlobals).flatMap (fun glob =>
    (if (D.globals glob).isInteraction ⟨p1, v p1⟩ then
      [Task.addGlobal p1 glob Lock.P1SorterLock] else []) ++
    (if (D.globals glob).isInteraction ⟨p2, v p2⟩ then
      [Task.addGlobal p2 glob Lock.P2SorterLock] else []))

/-- The local tasks that `fullUpdate(p1, p2)` queues for one of its particles. -/
def localTasks {P : Type} (D : SimData P) (part : Nat) (l : Lock) (v : Nat → P) : List Task :=
  (D.localNbhd part).flatMap (fun id =>
    if (D.locals id).isInteraction ⟨part, v part⟩ then [Task.threadAddLocalEvent part id l]
    else [])

/-- The calls of lines 156 to 172 of `fullUpdate(p1, p2)`. -/
def prepareOps {P : Type} (D : SimData P) (p1 p2 : Nat) : List Op :=
  [Op.getParticleNeighbourhood p1, Op.getParticleNeighbourhood p2,
    Op.updateParticle p1, Op.updateParticle p2] ++
  (D.nbhd p1).map Op.updateParticle ++ (D.nbhd p2).map Op.updateParticle ++
  [Op.incEventCount p1, Op.incEventCount p2, Op.clearPEL p1, Op.clearPEL p2]

/-- The calls of lines 174 to 193 of `fullUpdate(p1, p2)`, given the particle data. -/
def queueOps {P : Type} (D : SimData P) (p1 p2 : Nat) (v : Nat → P) : List Op :=
  (D.nbhd p1).map (fun ID => Op.queue (Task.threadAddIntEvent p1 ID Lock.P1SorterLock)) ++
  (D.nbhd p2).map (fun ID => Op.queue (Task.threadAddIntEvent p2 ID Lock.P2SorterLock)) ++
  (globalTasks D p1 p2 v).map Op.queue ++
  Op.getParticleLocalNeighbourhood p1 ::
    (localTasks D p1 Lock.P1SorterLock v).map Op.queue ++
  Op.getParticleLocalNeighbourhood p2 ::
    (localTasks D p2 Lock.P2SorterLock v).map Op.queue

/-- The tasks that `fullUpdate(p1, p2)` queues, in queue order. -/
def queuedTasks {P : Type} (D : SimData P) (p1 p2 : Nat) (v : Nat → P) : List Task :=
  (D.nbhd p1).map (fun ID => Task.threadAddIntEvent p1 ID Lock.P1SorterLock) ++
  (D.nbhd p2).map (fun ID => Task.threadAddIntEvent p2 ID Lock.P2SorterLock) ++
  globalTasks D p1 p2 v ++
  localTasks D p1 Lock.P1SorterLock v ++
  localTasks D p2 Lock.P2SorterLock v

/-- The counters after `++eventCount[p1]; ++eventCount[p2]`. -/
def bumped (p1 p2 : Nat) (ec : Nat → Nat) : Nat → Nat :=
  Function.update (Function.update ec p1 (ec p1 + 1)) p2
    (Function.update ec p1 (ec p1 + 1) p2 + 1)

/-- All calls of `fullUpdate(p1, p2)`, in order, from the state at entry. -/
def fullUpdateOps {P : Type} (D : SimData P) (σ : Schedule) (p1 p2 : Nat) (S : SimState P) :
    List Op :=
  prepareOps D p1 p2 ++
  queueOps D p1 p2 (streamAll D (p1 :: p2 :: (D.nbhd p1 ++ D.nbhd p2)) S.vParticleList) ++
  (σ.order (S.poolQueue ++
      queuedTasks D p1 p2
        (streamAll D (p1 :: p2 :: (D.nbhd p1 ++ D.nbhd p2)) S.vParticleList))).flatMap
    (taskOps D (streamAll D (p1 :: p2 :: (D.nbhd p1 ++ D.nbhd p2)) S.vParticleList)
      (bumped p1 p2 S.eventCount)) ++
  [Op.wait, Op.update p1, Op.update p2]

/-- The calls `addEvents2(part, id)` makes, given the particle data and the counters. -/
def addEvents2Ops {P : Type} (D : SimData P) (part : Nat) (v : Nat → P) (ec : Nat → Nat)
    (id : Nat) : List Op :=
  Op.getEvent part id ::
    (if (D.getEvent ⟨part, v part⟩ ⟨id, v id⟩).type ≠ EEventType.NONE then
      [Op.push (intPart.interaction (D.getEvent ⟨part, v part⟩ ⟨id, v id⟩) (ec id)) part
        none false]
    else [])

/-- The pushes of the global loop of `addEvents(part)`, given the particle data. -/
def addGlobalOps {P : Type} (D : SimData P) (part : Nat) (v : Nat → P) : List Op :=
  (List.range D.nGlobals).flatMap (fun glob =>
    if (D.globals glob).isInteraction ⟨part, v part⟩ then
      [Op.push (intPart.global ((D.globals glob).getEvent ⟨part, v part⟩)) part none false]
    else [])

/-- The pushes of the local pass of `addEvents(part)`, given the particle data. -/
def addLocalOps {P : Type} (D : SimData P) (part : Nat) (v : Nat → P) : List Op :=
  (D.localNbhd part).flatMap (fun id =>
    if (D.locals id).isInteraction ⟨part, v part⟩ then
      [Op.push (intPart.localEv ((D.locals id).getEvent ⟨part, v part⟩)) part none false]
    else [])

/-- All calls of `addEvents(part)`, in order, from the state at entry. -/
def addEventsOps {P : Type} (D : SimData P) (part : Nat) (S : SimState P) : List Op :=
  Op.updateParticle part ::
  addGlobalOps D part (streamAll D [part] S.vParticleList) ++
  Op.getParticleLocalNeighbourhood part ::
  addLocalOps D part (streamAll D [part] S.vParticleList) ++
  Op.getParticleNeighbourhood part ::
  (D.nbhd part).map Op.updateParticle ++
  Op.getParticleNeighbourhood part ::
  (D.nbhd part).flatMap
    (addEvents2Ops D part (streamAll D (part :: D.nbhd part) S.vParticleList) S.eventCount)

/-- The events the spec lists for a particle `p` in a state: "one global event per global with
isInteraction(p), one local event per local of p's local neighbourhood with isInteraction(p),
and one interaction event per neighbour id whose computed event type is not NONE". -/
def candidateEvents {P : Type} (D : SimData P) (S : SimState P) (p : Nat) : List intPart :=
  ((List.range D.nGlobals).filter
      (fun glob => (D.globals glob).isInteraction (particle S p))).map
    (fun glob => intPart.global ((D.globals glob).getEvent (particle S p))) ++
  ((D.localNbhd p).filter (fun id => (D.locals id).isInteraction (particle S p))).map
    (fun id => intPart.localEv ((D.locals id).getEvent (particle S p))) ++
  (D.nbhd p).filterMap (fun id =>
    if (D.getEvent (particle S p) (particle S id)).type ≠ EEventType.NONE then
      some (intPart.interaction (D.getEvent (particle S p) (particle S id)) (S.eventCount id))
    else none)

/-- The particle for which a task pushes. -/
def Task.owner : Task → Nat
  | Task.threadAddIntEvent part _ _ => part
  | Task.addGlobal part _ _ => part
  | Task.threadAddLocalEvent part _ _ => part

/-- The mutex a task takes for its push. -/
def Task.lock : Task → Lock
  | Task.threadAddIntEvent _ _ l => l
  | Task.addGlobal _ _ l => l
  | Task.threadAddLocalEvent _ _ l => l

/-- The events a task pushes, given the particle data and the counters it reads. -/
def taskEvents {P : Type} (D : SimData P) (v : Nat → P) (ec : Nat → Nat) : Task → List intPart
  | Task.threadAddIntEvent part id _ =>
      if (D.getEvent ⟨part, v part⟩ ⟨id, v id⟩).type ≠ EEventType.NONE then
        [intPart.interaction (D.getEvent ⟨part, v part⟩ ⟨id, v id⟩) (ec id)]
      else []
  | Task.addGlobal part glob _ => [intPart.global ((D.globals glob).getEvent ⟨part, v part⟩)]
  | Task.threadAddLocalEvent part id _ =>
      [intPart.localEv ((D.locals id).getEvent ⟨part, v part⟩)]

/-- Whether a logged call is `_threadPool.queue`. -/
def Op.isQueue : Op → Bool
  | Op.queue _ => true
  | _ => false

/-- Whether a logged call is `sorter->push`. -/
def Op.isPush : Op → Bool
  | Op.push _ _ _ _ => true
  | _ => false

/-- Whether a logged call is `sorter->clearPEL`. -/
def Op.isClearPEL : Op → Bool
  | Op.clearPEL _ => true
  | _ => false

/-- Whether a logged call is an increment of a generation counter. -/
def Op.isIncEventCount : Op → Bool
  | Op.incEventCount _ => true
  | _ => false

/-- Whether a logged call is the Liouvillean's `updateParticle`. -/
def Op.isUpdateParticle : Op → Bool
  | Op.updateParticle _ => true
  | _ => false

/-- Whether a logged call is `sorter->update`. -/
def Op.isUpdate : Op → Bool
  | Op.update _ => true
  | _ => false

/-- Whether a logged call is the return of `_threadPool.wait`. -/
def Op.isWait : Op → Bool
  | Op.wait => true
  | _ => false

/-- Whether a logged call is `Sim->dynamics.getEvent`. -/
def Op.isGetEvent : Op → Bool
  | Op.getEvent _ _ => true
  | _ => false

/-- Whether a logged call is `nblist.getParticleNeighbourhood`. -/
def Op.isGetParticleNeighbourhood : Op → Bool
  | Op.getParticleNeighbourhood _ => true
  | _ => false

/-- Whether a pushed value was built from an interaction event. -/
def intPart.isInteraction : intPart → Bool
  | intPart.interaction _ _ => true
  | _ => false

/-- Whether a task is an interaction task (`threadAddIntEvent`). -/
def Task.isIntTask : Task → Bool
  | Task.threadAddIntEvent _ _ _ => true
  | _ => false

/-- The push expected of a task in a state, as far as interaction events go: the interaction
task `(part, id)` pushes, for owner `part`, the event of the pair with the generation number
`eventCount[id]` of that state, unless the event type is `NONE`; other tasks push no
interaction event. -/
def expectedIntPush {P : Type} (D : SimData P) (S : SimState P) : Task → List (Nat × intPart)
  | Task.threadAddIntEvent part id _ =>
      if (D.getEvent (particle S part) (particle S id)).type ≠ EEventType.NONE then
        [(part, intPart.interaction (D.getEvent (particle S part) (particle S id))
          (S.eventCount id))]
      else []
  | _ => []

/-- The lock discipline of the claim, for one logged call: a push whose owner is `p1` is made
holding `_P1SorterLock`, and a push whose owner is `p2` is made holding `_P2SorterLock`. -/
def lockDiscipline (p1 p2 : Nat) : Op → Bool
  | Op.push _ owner held _ =>
      (owner != p1 || held == some Lock.P1SorterLock) &&
      (owner != p2 || held == some Lock.P2SorterLock)
  | _ => true

/-- The demonstration system with locals whose event is always of type `NONE`. -/
def quietSim : SimData Nat :=
  { demoSim with
    locals := fun l =>
      { isInteraction := fun _ => true
        getEvent := fun c => ⟨c.ID, 0, EEventType.NONE, l⟩ } }

/-- From state `S` to state `S1` only calls on the calling thread were made, and the queue of
the pool is as it was. -/
def CallerOnly {P : Type} (S S1 : SimState P) : Prop :=
  S1.poolQueue = S.poolQueue ∧
    ∃ ops : List Op, S1.trace = S.trace ++ ops ∧ ops.all Op.onCallingThread = true

/-- The sorter and the reference list agree: the global structure holds every participant's
current minimum, and every (owner, event) pair is pending in the reference as often as the
event is in the owner's list. -/
def SorterInv {N : Nat} (s : EventSorter N) (pending : List (Fin N × SorterEvent)) : Prop :=
  (∀ p, s.minimums p = minOf SorterEvent.le (s.pel p)) ∧
    (∀ p e, pending.count (p, e) = (s.pel p).count e)

/-- A sorter with two events of participant 0 and one of participant 1, used to evaluate the
definitions. -/
def demoSorter : EventSorter 3 :=
  (runSorter [SorterOp.push ⟨5, 0, 1⟩ 0, SorterOp.push ⟨3, 0, 2⟩ 1,
    SorterOp.push ⟨1, 0, 4⟩ 0]).1

/-- Operations after a clear of participant 0: a push for participant 2 and three pops. -/
def demoLater : List (SorterOp 3) :=
  [SorterOp.push ⟨3, 1, 3⟩ 2, SorterOp.pop, SorterOp.pop, SorterOp.pop]

/-! ## Lemmas on the log -/

theorem pelAfter_append (a b : List Op) (pel : Nat → List intPart) :
    pelAfter (a ++ b) pel = pelAfter b (pelAfter a pel) := by
  induction a generalizing pel with
  | nil => rfl
  | cons o a ih => cases o <;> simp [pelAfter, ih]

theorem queuedIn_append (a b : List Op) : queuedIn (a ++ b) = queuedIn a ++ queuedIn b := by
  induction a with
  | nil => rfl
  | cons o a ih => cases o <;> simp [queuedIn, ih]

theorem pushedFor_append (owner : Nat) (a b : List Op) :
    pushedFor owner (a ++ b) = pushedFor owner a ++ pushedFor owner b := by
  induction a with
  | nil => rfl
  | cons o a ih =>
    cases o <;> simp [pushedFor, ih]
    split <;> simp

theorem pushes_append (a b : List Op) : pushes (a ++ b) = pushes a ++ pushes b := by
  induction a with
  | nil => rfl
  | cons o a ih => cases o <;> simp [pushes, ih]

theorem logOps_nil {P : Type} (S : SimState P) : logOps [] S = S := by
  simp [logOps, pelAfter, queuedIn]

theorem logOps_logOps {P : Type} (a b : List Op) (S : SimState P) :
    logOps b (logOps a S) = logOps (a ++ b) S := by
  simp [logOps, pelAfter_append, queuedIn_append]

theorem foldl_logOps {P β : Type} (g : β → (Nat → P) → (Nat → Nat) → List Op)
    (f : SimState P → β → SimState P)
    (hf : ∀ s b, f s b = logOps (g b s.vParticleList s.eventCount) s)
    (l : List β) (S : SimState P) :
    l.foldl f S = logOps (l.flatMap (fun b => g b S.vParticleList S.eventCount)) S := by
  induction l generalizing S with
  | nil => simp [logOps_nil]
  | cons b l ih =>
    rw [List.foldl_cons, ih, hf, logOps_logOps]
    simp [logOps]

theorem runTask_eq {P : Type} (D : SimData P) (S : SimState P) (t : Task) :
    runTask D S t = logOps (taskOps D S.vParticleList S.eventCount t) S := by
  cases t with
  | threadAddIntEvent part id l =>
    simp only [runTask, threadAddIntEvent, taskOps, particle, record, push, logOps]
    split <;> simp [pelAfter, queuedIn]
  | addGlobal part glob l =>
    simp [runTask, addGlobal, taskOps, particle, push, logOps, pelAfter, queuedIn]
  | threadAddLocalEvent part id l =>
    simp [runTask, threadAddLocalEvent, taskOps, particle, push, logOps, pelAfter, queuedIn]

theorem queuedIn_taskOps {P : Type} (D : SimData P) (v : Nat → P) (ec : Nat → Nat)
    (ts : List Task) : queuedIn (ts.flatMap (taskOps D v ec)) = [] := by
  induction ts with
  | nil => rfl
  | cons t ts ih =>
    rw [List.flatMap_cons, queuedIn_append, ih]
    cases t <;> simp [taskOps, queuedIn]
    split <;> simp [queuedIn]

theorem foldl_updateParticle {P : Type} (D : SimData P) (ids : List Nat) (S : SimState P) :
    ids.foldl (fun s ID => updateParticle D ID s) S =
      { S with
        vParticleList := streamAll D ids S.vParticleList
        trace := S.trace ++ ids.map Op.updateParticle } := by
  induction ids generalizing S with
  | nil => simp [streamAll]
  | cons a ids ih =>
    rw [List.foldl_cons, ih]
    simp [updateParticle, streamAll, particle]

theorem getParticleNeighbourhood_AddNBIDs {P : Type} (D : SimData P) (part : Nat)
    (l : List Nat) :
    getParticleNeighbourhood D part NBlistData.AddNBIDs ⟨l⟩ = ⟨l ++ D.nbhd part⟩ := by
  unfold getParticleNeighbourhood
  induction D.nbhd part generalizing l with
  | nil => simp
  | cons a ids ih => rw [List.foldl_cons, NBlistData.AddNBIDs, ih]; simp

theorem streamAll_append {P : Type} (D : SimData P) (a b : List Nat) (v : Nat → P) :
    streamAll D (a ++ b) v = streamAll D b (streamAll D a v) := by
  simp [streamAll]

theorem fullUpdatePrepare_eq {P : Type} (D : SimData P) (p1 p2 : Nat) (S : SimState P) :
    fullUpdatePrepare D p1 p2 S =
      (⟨D.nbhd p1⟩, ⟨D.nbhd p2⟩,
        { vParticleList := streamAll D (p1 :: p2 :: (D.nbhd p1 ++ D.nbhd p2)) S.vParticleList
          eventCount := bumped p1 p2 S.eventCount
          pel := Function.update (Function.update S.pel p1 []) p2 []
          poolQueue := S.poolQueue
          trace := S.trace ++ prepareOps D p1 p2 }) := by
  have h1 := getParticleNeighbourhood_AddNBIDs D p1 []
  have h2 := getParticleNeighbourhood_AddNBIDs D p2 []
  simp only [List.nil_append] at h1 h2
  simp only [fullUpdatePrepare, h1, h2, foldl_updateParticle]
  simp [record, updateParticle, incEventCount, clearPEL, particle, bumped, prepareOps,
    streamAll]

theorem spawnThreadAddLocalEvent1_eq {P : Type} (D : SimData P) (part id : Nat)
    (S : SimState P) :
    spawnThreadAddLocalEvent1 D part id S =
      logOps ((if (D.locals id).isInteraction ⟨part, S.vParticleList part⟩ then
        [Task.threadAddLocalEvent part id Lock.P1SorterLock] else []).map Op.queue) S := by
  unfold spawnThreadAddLocalEvent1
  split <;> simp_all [particle, queue, logOps, pelAfter, queuedIn]

theorem spawnThreadAddLocalEvent2_eq {P : Type} (D : SimData P) (part id : Nat)
    (S : SimState P) :
    spawnThreadAddLocalEvent2 D part id S =
      logOps ((if (D.locals id).isInteraction ⟨part, S.vParticleList part⟩ then
        [Task.threadAddLocalEvent part id Lock.P2SorterLock] else []).map Op.queue) S := by
  unfold spawnThreadAddLocalEvent2
  split <;> simp_all [particle, queue, logOps, pelAfter, queuedIn]

theorem map_flatMap_queue {β : Type} (l : List β) (g : β → List Task) :
    l.flatMap (fun b => (g b).map Op.queue) = (l.flatMap g).map Op.queue := by
  induction l with
  | nil => rfl
  | cons b l ih => simp [List.flatMap_cons, ih]

theorem record_getParticleLocalNeighbourhood {P : Type} (part : Nat) (S : SimState P) :
    record (Op.getParticleLocalNeighbourhood part) S =
      logOps [Op.getParticleLocalNeighbourhood part] S := by
  simp [record, logOps, pelAfter, queuedIn]

theorem record_getParticleNeighbourhood {P : Type} (part : Nat) (S : SimState P) :
    record (Op.getParticleNeighbourhood part) S =
      logOps [Op.getParticleNeighbourhood part] S := by
  simp [record, logOps, pelAfter, queuedIn]

theorem foldl_queue {P : Type} (T : Nat → Task) (ids : List Nat) (S : SimState P) :
    ids.foldl (fun s ID => queue (T ID) s) S = logOps (ids.map (fun ID => Op.queue (T ID))) S := by
  rw [foldl_logOps (fun ID _ _ => [Op.queue (T ID)]) (fun s ID => queue (T ID) s)
    (by intro s b; simp [queue, logOps, pelAfter, queuedIn])]
  congr 1
  induction ids with
  | nil => rfl
  | cons a ids ih => simp [List.flatMap_cons, ih]

theorem foldl_queue_globals {P : Type} (D : SimData P) (p1 p2 : Nat) (l : List Nat)
    (S : SimState P) :
    l.foldl
      (fun s glob =>
        let s1 := if (D.globals glob).isInteraction (particle s p1) then
            queue (Task.addGlobal p1 glob Lock.P1SorterLock) s else s
        if (D.globals glob).isInteraction (particle s1 p2) then
          queue (Task.addGlobal p2 glob Lock.P2SorterLock) s1 else s1) S =
      logOps ((l.flatMap (fun glob =>
        (if (D.globals glob).isInteraction ⟨p1, S.vParticleList p1⟩ then
          [Task.addGlobal p1 glob Lock.P1SorterLock] else []) ++
        (if (D.globals glob).isInteraction ⟨p2, S.vParticleList p2⟩ then
          [Task.addGlobal p2 glob Lock.P2SorterLock] else []))).map Op.queue) S := by
  rw [← map_flatMap_queue]
  exact foldl_logOps (fun glob v _ =>
      ((if (D.globals glob).isInteraction ⟨p1, v p1⟩ then
        [Task.addGlobal p1 glob Lock.P1SorterLock] else []) ++
      (if (D.globals glob).isInteraction ⟨p2, v p2⟩ then
        [Task.addGlobal p2 glob Lock.P2SorterLock] else [])).map Op.queue)
    _ (by
      intro s b
      by_cases h1 : (D.globals b).isInteraction ⟨p1, s.vParticleList p1⟩ <;>
      by_cases h2 : (D.globals b).isInteraction ⟨p2, s.vParticleList p2⟩ <;>
      simp [h1, h2, particle, queue, logOps, pelAfter, queuedIn]) l S

theorem foldl_spawn1 {P : Type} (D : SimData P) (part : Nat) (l : List Nat) (S : SimState P) :
    l.foldl (fun s id => spawnThreadAddLocalEvent1 D part id s) S =
      logOps ((l.flatMap (fun id =>
        if (D.locals id).isInteraction ⟨part, S.vParticleList part⟩ then
          [Task.threadAddLocalEvent part id Lock.P1SorterLock] else [])).map Op.queue) S := by
  rw [← map_flatMap_queue]
  exact foldl_logOps (fun id v _ =>
      (if (D.locals id).isInteraction ⟨part, v part⟩ then
        [Task.threadAddLocalEvent part id Lock.P1SorterLock] else []).map Op.queue)
    _ (by intro s b; exact spawnThreadAddLocalEvent1_eq D part b s) l S

theorem foldl_spawn2 {P : Type} (D : SimData P) (part : Nat) (l : List Nat) (S : SimState P) :
    l.foldl (fun s id => spawnThreadAddLocalEvent2 D part id s) S =
      logOps ((l.flatMap (fun id =>
        if (D.locals id).isInteraction ⟨part, S.vParticleList part⟩ then
          [Task.threadAddLocalEvent part id Lock.P2SorterLock] else [])).map Op.queue) S := by
  rw [← map_flatMap_queue]
  exact foldl_logOps (fun id v _ =>
      (if (D.locals id).isInteraction ⟨part, v part⟩ then
        [Task.threadAddLocalEvent part id Lock.P2SorterLock] else []).map Op.queue)
    _ (by intro s b; exact spawnThreadAddLocalEvent2_eq D part b s) l S

theorem fullUpdateQueue_eq {P : Type} (D : SimData P) (p1 p2 : Nat) (S : SimState P) :
    fullUpdateQueue D p1 p2 ⟨D.nbhd p1⟩ ⟨D.nbhd p2⟩ S =
      logOps (queueOps D p1 p2 S.vParticleList) S := by
  unfold fullUpdateQueue getParticleLocalNeighbourhood
  simp only [foldl_queue, foldl_queue_globals, foldl_spawn1, foldl_spawn2,
    record_getParticleLocalNeighbourhood, logOps_logOps]
  congr 1
  simp [logOps, queueOps, globalTasks, localTasks]

theorem queuedIn_map_queue (ts : List Task) : queuedIn (ts.map Op.queue) = ts := by
  induction ts with
  | nil => rfl
  | cons t ts ih => simp [queuedIn, ih]

theorem queuedIn_queueOps {P : Type} (D : SimData P) (p1 p2 : Nat) (v : Nat → P) :
    queuedIn (queueOps D p1 p2 v) = queuedTasks D p1 p2 v := by
  have h : ∀ (T : Nat → Task) (l : List Nat),
      queuedIn (l.map (fun ID => Op.queue (T ID))) = l.map T := by
    intro T l
    induction l with
    | nil => rfl
    | cons a l ih => simp [queuedIn, ih]
  simp [queueOps, queuedTasks, queuedIn_append, queuedIn, queuedIn_map_queue, h]

theorem pelAfter_map_updateParticle (ids : List Nat) (pel : Nat → List intPart) :
    pelAfter (ids.map Op.updateParticle) pel = pel := by
  induction ids with
  | nil => rfl
  | cons a ids ih => simp [pelAfter, ih]

theorem pelAfter_prepareOps {P : Type} (D : SimData P) (p1 p2 : Nat)
    (pel : Nat → List intPart) :
    pelAfter (prepareOps D p1 p2) pel = Function.update (Function.update pel p1 []) p2 [] := by
  simp [prepareOps, pelAfter_append, pelAfter, pelAfter_map_updateParticle]

theorem wait_eq {P : Type} (D : SimData P) (σ : Schedule) (S : SimState P) :
    ThreadPool.wait D σ S =
      { vParticleList := S.vParticleList
        eventCount := S.eventCount
        pel := pelAfter ((σ.order S.poolQueue).flatMap (taskOps D S.vParticleList S.eventCount) ++
          [Op.wait]) S.pel
        poolQueue := []
        trace := S.trace ++ ((σ.order S.poolQueue).flatMap
          (taskOps D S.vParticleList S.eventCount) ++ [Op.wait]) } := by
  unfold ThreadPool.wait
  rw [foldl_logOps (fun t v ec => taskOps D v ec t) (runTask D) (fun s t => runTask_eq D s t)]
  simp [record, logOps, queuedIn_taskOps, pelAfter_append, pelAfter]

theorem fullUpdate_eq {P : Type} (D : SimData P) (σ : Schedule) (p1 p2 : Nat)
    (S : SimState P) :
    fullUpdate D σ p1 p2 S =
      { vParticleList := streamAll D (p1 :: p2 :: (D.nbhd p1 ++ D.nbhd p2)) S.vParticleList
        eventCount := bumped p1 p2 S.eventCount
        pel := pelAfter (fullUpdateOps D σ p1 p2 S) S.pel
        poolQueue := []
        trace := S.trace ++ fullUpdateOps D σ p1 p2 S } := by
  unfold fullUpdate
  rw [fullUpdatePrepare_eq]
  simp only [fullUpdateQueue_eq, wait_eq]
  simp [update, record, logOps, fullUpdateOps, pelAfter_append, pelAfter_prepareOps,
    queuedIn_queueOps, pelAfter, pelAfter_map_updateParticle]

theorem opsDuring_fullUpdate {P : Type} (D : SimData P) (σ : Schedule) (p1 p2 : Nat)
    (S : SimState P) :
    opsDuring S (fullUpdate D σ p1 p2 S) = fullUpdateOps D σ p1 p2 S := by
  rw [fullUpdate_eq]
  simp [opsDuring]

theorem pushes_map_updateParticle (ids : List Nat) :
    pushes (ids.map Op.updateParticle) = [] := by
  induction ids with
  | nil => rfl
  | cons a ids ih => simp [pushes, ih]

theorem pushes_map_queue (T : Nat → Task) (ids : List Nat) :
    pushes (ids.map (fun ID => Op.queue (T ID))) = [] := by
  induction ids with
  | nil => rfl
  | cons a ids ih => simp [pushes, ih]

theorem pushes_map_queue_tasks (ts : List Task) : pushes (ts.map Op.queue) = [] := by
  induction ts with
  | nil => rfl
  | cons a ts ih => simp [pushes, ih]

theorem pushes_prepareOps {P : Type} (D : SimData P) (p1 p2 : Nat) :
    pushes (prepareOps D p1 p2) = [] := by
  simp [prepareOps, pushes_append, pushes, pushes_map_updateParticle]

theorem pushes_queueOps {P : Type} (D : SimData P) (p1 p2 : Nat) (v : Nat → P) :
    pushes (queueOps D p1 p2 v) = [] := by
  simp [queueOps, pushes_append, pushes, pushes_map_queue, pushes_map_queue_tasks]

theorem pushes_flatMap {β : Type} (g : β → List Op) (l : List β) :
    pushes (l.flatMap g) = l.flatMap (fun b => pushes (g b)) := by
  induction l with
  | nil => rfl
  | cons b l ih => simp [List.flatMap_cons, pushes_append, ih]

theorem pushes_fullUpdateOps {P : Type} (D : SimData P) (σ : Schedule) (p1 p2 : Nat)
    (S : SimState P) :
    pushes (fullUpdateOps D σ p1 p2 S) =
      (σ.order (S.poolQueue ++
        queuedTasks D p1 p2
          (streamAll D (p1 :: p2 :: (D.nbhd p1 ++ D.nbhd p2)) S.vParticleList))).flatMap
      (fun t => pushes (taskOps D
        (streamAll D (p1 :: p2 :: (D.nbhd p1 ++ D.nbhd p2)) S.vParticleList)
        (bumped p1 p2 S.eventCount) t)) := by
  simp [fullUpdateOps, pushes_append, pushes_prepareOps, pushes_queueOps, pushes_flatMap,
    pushes, pushes_map_updateParticle]

theorem pushes_fullUpdateOps_perm {P : Type} (D : SimData P) (σ : Schedule) (p1 p2 : Nat)
    (S : SimState P) :
    (pushes (fullUpdateOps D σ p1 p2 S)).Perm
      ((S.poolQueue ++
        queuedTasks D p1 p2
          (streamAll D (p1 :: p2 :: (D.nbhd p1 ++ D.nbhd p2)) S.vParticleList)).flatMap
      (fun t => pushes (taskOps D
        (streamAll D (p1 :: p2 :: (D.nbhd p1 ++ D.nbhd p2)) S.vParticleList)
        (bumped p1 p2 S.eventCount) t))) := by
  rw [pushes_fullUpdateOps]
  exact List.Perm.flatMap_right _ (σ.perm _)

theorem pushedFor_eq_pushes (owner : Nat) (ops : List Op) :
    pushedFor owner ops =
      ((pushes ops).filter (fun x => decide (x.1 = owner))).map (fun x => x.2) := by
  induction ops with
  | nil => rfl
  | cons o ops ih =>
    cases o <;> simp [pushedFor, pushes, ih, List.filter_cons]
    split <;> simp

theorem pushedFor_perm_of_pushes_perm (owner : Nat) {a b : List Op}
    (h : (pushes a).Perm (pushes b)) : (pushedFor owner a).Perm (pushedFor owner b) := by
  rw [pushedFor_eq_pushes, pushedFor_eq_pushes]
  exact (h.filter _).map _

theorem pelAfter_of_no_clear (ops : List Op) (pel : Nat → List intPart) (owner : Nat)
    (h : ∀ o ∈ ops, ∀ i, o ≠ Op.clearPEL i) :
    pelAfter ops pel owner = pel owner ++ pushedFor owner ops := by
  induction ops generalizing pel with
  | nil => simp [pelAfter, pushedFor]
  | cons o ops ih =>
    have hops : ∀ o ∈ ops, ∀ i, o ≠ Op.clearPEL i :=
      fun o ho => h o (List.mem_cons_of_mem _ ho)
    cases o with
    | push ev w hd b =>
      simp only [pelAfter, pushedFor]
      rw [ih _ hops]
      by_cases hw : w = owner
      · subst hw; simp
      · have hw' : owner ≠ w := fun e => hw e.symm
        simp [hw, Function.update_noteq hw']
    | clearPEL i => exact absurd rfl (h _ (List.mem_cons_self _ _) i)
    | getParticleNeighbourhood _ => simpa [pelAfter, pushedFor] using ih pel hops
    | getParticleLocalNeighbourhood _ => simpa [pelAfter, pushedFor] using ih pel hops
    | updateParticle _ => simpa [pelAfter, pushedFor] using ih pel hops
    | incEventCount _ => simpa [pelAfter, pushedFor] using ih pel hops
    | queue _ => simpa [pelAfter, pushedFor] using ih pel hops
    | getEvent _ _ => simpa [pelAfter, pushedFor] using ih pel hops
    | wait => simpa [pelAfter, pushedFor] using ih pel hops
    | update _ => simpa [pelAfter, pushedFor] using ih pel hops

theorem taskOps_no_clear {P : Type} (D : SimData P) (v : Nat → P) (ec : Nat → Nat) (t : Task) :
    ∀ o ∈ taskOps D v ec t, ∀ i, o ≠ Op.clearPEL i := by
  intro o ho i
  cases t with
  | threadAddIntEvent part id l =>
    simp only [taskOps, List.mem_cons] at ho
    rcases ho with rfl | ho
    · simp
    · split at ho
      · simp at ho; subst ho; simp
      · simp at ho
  | addGlobal part glob l => simp [taskOps] at ho; subst ho; simp
  | threadAddLocalEvent part id l => simp [taskOps] at ho; subst ho; simp

theorem queueOps_no_clear {P : Type} (D : SimData P) (p1 p2 : Nat) (v : Nat → P) :
    ∀ o ∈ queueOps D p1 p2 v, ∀ i, o ≠ Op.clearPEL i := by
  intro o ho i ho2
  subst ho2
  simp [queueOps] at ho

theorem pushedFor_prepareOps {P : Type} (D : SimData P) (p1 p2 owner : Nat) :
    pushedFor owner (prepareOps D p1 p2) = [] := by
  rw [pushedFor_eq_pushes, pushes_prepareOps]; rfl

theorem fullUpdate_pel {P : Type} (D : SimData P) (σ : Schedule) (p1 p2 : Nat)
    (S : SimState P) (owner : Nat) :
    (fullUpdate D σ p1 p2 S).pel owner =
      (if owner = p1 ∨ owner = p2 then [] else S.pel owner) ++
        pushedFor owner (fullUpdateOps D σ p1 p2 S) := by
  rw [fullUpdate_eq]
  simp only []
  have hsplit : fullUpdateOps D σ p1 p2 S = prepareOps D p1 p2 ++
      (queueOps D p1 p2 (streamAll D (p1 :: p2 :: (D.nbhd p1 ++ D.nbhd p2)) S.vParticleList) ++
      (σ.order (S.poolQueue ++ queuedTasks D p1 p2
          (streamAll D (p1 :: p2 :: (D.nbhd p1 ++ D.nbhd p2)) S.vParticleList))).flatMap
        (taskOps D (streamAll D (p1 :: p2 :: (D.nbhd p1 ++ D.nbhd p2)) S.vParticleList)
          (bumped p1 p2 S.eventCount)) ++
      [Op.wait, Op.update p1, Op.update p2]) := by
    simp [fullUpdateOps, List.append_assoc]
  rw [hsplit, pelAfter_append, pelAfter_prepareOps, pushedFor_append, pushedFor_prepareOps,
    List.nil_append, pelAfter_of_no_clear]
  · congr 1
    by_cases h2 : owner = p2
    · subst h2; simp
    · by_cases h1 : owner = p1
      · subst h1; simp [Function.update_noteq h2]
      · simp [h1, h2, Function.update_noteq]
  · intro o ho i
    simp only [List.mem_append, List.mem_flatMap, List.mem_cons, List.mem_singleton] at ho
    rcases ho with (ho | ⟨t, _, ho⟩) | ho
    · exact queueOps_no_clear D p1 p2 _ o ho i
    · exact taskOps_no_clear D _ _ t o ho i
    · rcases ho with rfl | rfl | rfl | ho
      · simp
      · simp
      · simp
      · simp at ho

theorem queuedIn_flatMap_nil {β : Type} (g : β → List Op) (l : List β)
    (h : ∀ b, queuedIn (g b) = []) : queuedIn (l.flatMap g) = [] := by
  induction l with
  | nil => rfl
  | cons b l ih => rw [List.flatMap_cons, queuedIn_append, h, ih]; rfl

theorem addEvents2_eq {P : Type} (D : SimData P) (part id : Nat) (S : SimState P) :
    addEvents2 D part id S =
      logOps (addEvents2Ops D part S.vParticleList S.eventCount id) S := by
  simp only [addEvents2, addEvents2Ops, particle, record, push, logOps]
  split <;> simp [pelAfter, queuedIn]

theorem addLocalEvent_eq {P : Type} (D : SimData P) (part id : Nat) (S : SimState P) :
    addLocalEvent D part id S =
      logOps (if (D.locals id).isInteraction ⟨part, S.vParticleList part⟩ then
        [Op.push (intPart.localEv ((D.locals id).getEvent ⟨part, S.vParticleList part⟩)) part
          none false]
      else []) S := by
  unfold addLocalEvent
  split <;> simp_all [particle, push, logOps, pelAfter, queuedIn]

theorem addEvents_eq {P : Type} (D : SimData P) (part : Nat) (S : SimState P) :
    addEvents D part S =
      { vParticleList := streamAll D (part :: D.nbhd part) S.vParticleList
        eventCount := S.eventCount
        pel := pelAfter (addEventsOps D part S) S.pel
        poolQueue := S.poolQueue
        trace := S.trace ++ addEventsOps D part S } := by
  unfold addEvents getParticleLocalNeighbourhood getParticleNeighbourhood
  have hg : ∀ (l : List Nat) (s : SimState P),
      l.foldl (fun s glob =>
        if (D.globals glob).isInteraction (particle s part) then
          push (intPart.global ((D.globals glob).getEvent (particle s part))) part none false s
        else s) s =
      logOps (l.flatMap (fun glob =>
        if (D.globals glob).isInteraction ⟨part, s.vParticleList part⟩ then
          [Op.push (intPart.global ((D.globals glob).getEvent ⟨part, s.vParticleList part⟩))
            part none false]
        else [])) s := by
    intro l s
    exact foldl_logOps (fun glob v _ =>
        if (D.globals glob).isInteraction ⟨part, v part⟩ then
          [Op.push (intPart.global ((D.globals glob).getEvent ⟨part, v part⟩)) part none false]
        else []) _
      (by intro s b; split <;> simp_all [particle, push, logOps, pelAfter, queuedIn]) l s
  have hl : ∀ (l : List Nat) (s : SimState P),
      l.foldl (fun s id => addLocalEvent D part id s) s =
      logOps (l.flatMap (fun id =>
        if (D.locals id).isInteraction ⟨part, s.vParticleList part⟩ then
          [Op.push (intPart.localEv ((D.locals id).getEvent ⟨part, s.vParticleList part⟩))
            part none false]
        else [])) s := by
    intro l s
    exact foldl_logOps (fun id v _ =>
        if (D.locals id).isInteraction ⟨part, v part⟩ then
          [Op.push (intPart.localEv ((D.locals id).getEvent ⟨part, v part⟩)) part none false]
        else []) _ (fun s b => addLocalEvent_eq D part b s) l s
  have hs : ∀ (l : List Nat) (s : SimState P),
      l.foldl (fun s id => streamParticles D part id s) s =
      { s with
        vParticleList := streamAll D l s.vParticleList
        trace := s.trace ++ l.map Op.updateParticle } := by
    intro l s
    exact foldl_updateParticle D l s
  have hi : ∀ (l : List Nat) (s : SimState P),
      l.foldl (fun s id => addEvents2 D part id s) s =
      logOps (l.flatMap (addEvents2Ops D part s.vParticleList s.eventCount)) s := by
    intro l s
    exact foldl_logOps (fun id v ec => addEvents2Ops D part v ec id) _
      (fun s b => addEvents2_eq D part b s) l s
  simp only [hg, hl, hs, hi, record_getParticleLocalNeighbourhood,
    record_getParticleNeighbourhood]
  simp [updateParticle, logOps, particle, streamAll, addEventsOps, addGlobalOps, addLocalOps,
    pelAfter_append, pelAfter, pelAfter_map_updateParticle, queuedIn_append, queuedIn]
  refine ⟨?_, ?_, ?_⟩
  · apply queuedIn_flatMap_nil
    intro b
    split <;> simp [queuedIn]
  · apply queuedIn_flatMap_nil
    intro b
    split <;> simp [queuedIn]
  · apply queuedIn_flatMap_nil
    intro b
    simp only [addEvents2Ops]
    split <;> simp [queuedIn]

theorem streamAll_upToDate {P : Type} (D : SimData P)
    (hidem : ∀ c : CParticle P, D.updateParticle ⟨c.ID, D.updateParticle c⟩ = D.updateParticle c)
    (ids : List Nat) (v : Nat → P) (id : Nat)
    (h : id ∈ ids ∨ D.updateParticle ⟨id, v id⟩ = v id) :
    D.updateParticle ⟨id, streamAll D ids v id⟩ = streamAll D ids v id := by
  induction ids generalizing v with
  | nil =>
    rcases h with h | h
    · simp at h
    · simpa [streamAll] using h
  | cons a ids ih =>
    have hstep : streamAll D (a :: ids) v =
        streamAll D ids (Function.update v a (D.updateParticle ⟨a, v a⟩)) := by
      simp [streamAll]
    rw [hstep]
    apply ih
    by_cases ha : id = a
    · subst ha
      right
      simpa using hidem ⟨id, v id⟩
    · rcases h with h | h
      · rcases List.mem_cons.mp h with h | h
        · exact absurd h ha
        · exact Or.inl h
      · right
        simpa [Function.update_noteq ha] using h

theorem streamAll_fixed {P : Type} (D : SimData P) (ids : List Nat) (v : Nat → P)
    (h : ∀ id ∈ ids, D.updateParticle ⟨id, v id⟩ = v id) : streamAll D ids v = v := by
  induction ids with
  | nil => rfl
  | cons a ids ih =>
    have hstep : streamAll D (a :: ids) v =
        streamAll D ids (Function.update v a (D.updateParticle ⟨a, v a⟩)) := by
      simp [streamAll]
    rw [hstep, h a (List.mem_cons_self _ _), Function.update_eq_self]
    exact ih (fun id hid => h id (List.mem_cons_of_mem _ hid))

theorem pushedFor_flatMap {β : Type} (owner : Nat) (g : β → List Op) (l : List β) :
    pushedFor owner (l.flatMap g) = l.flatMap (fun b => pushedFor owner (g b)) := by
  induction l with
  | nil => rfl
  | cons b l ih => simp [List.flatMap_cons, pushedFor_append, ih]

theorem pushedFor_map_updateParticle (owner : Nat) (ids : List Nat) :
    pushedFor owner (ids.map Op.updateParticle) = [] := by
  rw [pushedFor_eq_pushes, pushes_map_updateParticle]; rfl

theorem flatMap_filter_map {β γ : Type} (c : β → Bool) (f : β → γ) (l : List β) :
    l.flatMap (fun b => if c b = true then [f b] else []) = (l.filter c).map f := by
  induction l with
  | nil => rfl
  | cons b l ih =>
    rw [List.flatMap_cons, ih, List.filter_cons]
    by_cases hb : c b = true <;> simp [hb]

theorem flatMap_filterMap {β γ : Type} (f : β → Option γ) (l : List β) :
    l.flatMap (fun b => (f b).toList) = l.filterMap f := by
  induction l with
  | nil => rfl
  | cons b l ih =>
    rw [List.flatMap_cons, ih, List.filterMap_cons]
    cases f b <;> simp

theorem pushedFor_cons_updateParticle (owner id : Nat) (ops : List Op) :
    pushedFor owner (Op.updateParticle id :: ops) = pushedFor owner ops := rfl

theorem pushedFor_cons_getParticleNeighbourhood (owner id : Nat) (ops : List Op) :
    pushedFor owner (Op.getParticleNeighbourhood id :: ops) = pushedFor owner ops := rfl

theorem pushedFor_cons_getParticleLocalNeighbourhood (owner id : Nat) (ops : List Op) :
    pushedFor owner (Op.getParticleLocalNeighbourhood id :: ops) = pushedFor owner ops := rfl

theorem pushedFor_cons_getEvent (owner part id : Nat) (ops : List Op) :
    pushedFor owner (Op.getEvent part id :: ops) = pushedFor owner ops := rfl

theorem pushedFor_push_self (owner : Nat) (ev : intPart) (h : Option Lock) (b : Bool) :
    pushedFor owner [Op.push ev owner h b] = [ev] := by
  simp [pushedFor]

theorem pushedFor_push_other (owner w : Nat) (ev : intPart) (h : Option Lock) (b : Bool)
    (hw : w ≠ owner) : pushedFor owner [Op.push ev w h b] = [] := by
  simp [pushedFor, hw]

theorem pushedFor_nil (owner : Nat) : pushedFor owner [] = [] := rfl

theorem pushedFor_addEventsOps {P : Type} (D : SimData P) (p : Nat) (S : SimState P)
    (hp : D.updateParticle ⟨p, S.vParticleList p⟩ = S.vParticleList p)
    (hnb : ∀ id ∈ D.nbhd p, D.updateParticle ⟨id, S.vParticleList id⟩ = S.vParticleList id) :
    pushedFor p (addEventsOps D p S) = candidateEvents D S p := by
  have h1 : streamAll D [p] S.vParticleList = S.vParticleList :=
    streamAll_fixed D [p] _ (by intro id hid; simp at hid; subst hid; exact hp)
  have h2 : streamAll D (p :: D.nbhd p) S.vParticleList = S.vParticleList :=
    streamAll_fixed D _ _ (by
      intro id hid
      rcases List.mem_cons.mp hid with h | h
      · subst h; exact hp
      · exact hnb id h)
  simp only [addEventsOps, h1, h2, addGlobalOps, addLocalOps, candidateEvents, particle]
  simp only [pushedFor_append, pushedFor_cons_updateParticle,
    pushedFor_cons_getParticleNeighbourhood, pushedFor_cons_getParticleLocalNeighbourhood,
    pushedFor_flatMap, pushedFor_map_updateParticle, List.append_nil]
  congr 1
  · congr 1
    · rw [← flatMap_filter_map]
      congr 1
      funext glob
      split
      · exact pushedFor_push_self _ _ _ _
      · rfl
    · rw [← flatMap_filter_map]
      congr 1
      funext id
      split
      · exact pushedFor_push_self _ _ _ _
      · rfl
  · rw [← flatMap_filterMap]
    congr 1
    funext id
    simp only [addEvents2Ops, pushedFor_cons_getEvent]
    split
    · simpa using pushedFor_push_self _ _ _ _
    · rfl

theorem pushes_taskOps {P : Type} (D : SimData P) (v : Nat → P) (ec : Nat → Nat) (t : Task) :
    pushes (taskOps D v ec t) = (taskEvents D v ec t).map (fun ev => (t.owner, ev)) := by
  cases t with
  | threadAddIntEvent part id l =>
    simp only [taskOps, taskEvents, Task.owner, pushes]
    split <;> simp [pushes]
  | addGlobal part glob l => simp [taskOps, taskEvents, Task.owner, pushes]
  | threadAddLocalEvent part id l => simp [taskOps, taskEvents, Task.owner, pushes]

theorem pushedFor_taskOps {P : Type} (D : SimData P) (v : Nat → P) (ec : Nat → Nat) (t : Task)
    (owner : Nat) :
    pushedFor owner (taskOps D v ec t) = if t.owner = owner then taskEvents D v ec t else [] := by
  rw [pushedFor_eq_pushes, pushes_taskOps]
  by_cases h : t.owner = owner
  · simp [h, List.filter_map, Function.comp_def]
  · simp [h, List.filter_map, Function.comp_def]

theorem pushedFor_fullUpdateOps_perm {P : Type} (D : SimData P) (σ : Schedule) (p1 p2 : Nat)
    (S : SimState P) (owner : Nat) :
    (pushedFor owner (fullUpdateOps D σ p1 p2 S)).Perm
      ((S.poolQueue ++ queuedTasks D p1 p2
          (streamAll D (p1 :: p2 :: (D.nbhd p1 ++ D.nbhd p2)) S.vParticleList)).flatMap
        (fun t => if t.owner = owner then
          taskEvents D (streamAll D (p1 :: p2 :: (D.nbhd p1 ++ D.nbhd p2)) S.vParticleList)
            (bumped p1 p2 S.eventCount) t else [])) := by
  have h := pushes_fullUpdateOps_perm D σ p1 p2 S
  rw [← pushes_flatMap] at h
  have h2 := pushedFor_perm_of_pushes_perm owner h
  rw [pushedFor_flatMap] at h2
  simpa only [pushedFor_taskOps] using h2

theorem intTasks_events_same {P : Type} (D : SimData P) (v : Nat → P) (ec : Nat → Nat)
    (p : Nat) (l : Lock) (ids : List Nat) :
    (ids.map (fun ID => Task.threadAddIntEvent p ID l)).flatMap
        (fun t => if t.owner = p then taskEvents D v ec t else []) =
      ids.filterMap (fun id =>
        if (D.getEvent ⟨p, v p⟩ ⟨id, v id⟩).type ≠ EEventType.NONE then
          some (intPart.interaction (D.getEvent ⟨p, v p⟩ ⟨id, v id⟩) (ec id))
        else none) := by
  rw [List.flatMap_map, ← flatMap_filterMap]
  congr 1
  funext id
  simp only [Task.owner, taskEvents, if_true]
  split <;> rfl

theorem intTasks_events_other {P : Type} (D : SimData P) (v : Nat → P) (ec : Nat → Nat)
    (p owner : Nat) (hne : p ≠ owner) (l : Lock) (ids : List Nat) :
    (ids.map (fun ID => Task.threadAddIntEvent p ID l)).flatMap
        (fun t => if t.owner = owner then taskEvents D v ec t else []) = [] := by
  induction ids with
  | nil => rfl
  | cons a ids ih =>
    rw [List.map_cons, List.flatMap_cons, ih]
    simp [Task.owner, hne]

theorem localTasks_events_same {P : Type} (D : SimData P) (v : Nat → P) (ec : Nat → Nat)
    (p : Nat) (l : Lock) :
    (localTasks D p l v).flatMap
        (fun t => if t.owner = p then taskEvents D v ec t else []) =
      ((D.localNbhd p).filter (fun id => (D.locals id).isInteraction ⟨p, v p⟩)).map
        (fun id => intPart.localEv ((D.locals id).getEvent ⟨p, v p⟩)) := by
  unfold localTasks
  rw [List.flatMap_assoc, ← flatMap_filter_map]
  congr 1
  funext id
  split <;> simp [Task.owner, taskEvents]

theorem localTasks_events_other {P : Type} (D : SimData P) (v : Nat → P) (ec : Nat → Nat)
    (p owner : Nat) (hne : p ≠ owner) (l : Lock) :
    (localTasks D p l v).flatMap
        (fun t => if t.owner = owner then taskEvents D v ec t else []) = [] := by
  unfold localTasks
  rw [List.flatMap_assoc]
  induction D.localNbhd p with
  | nil => rfl
  | cons a ids ih =>
    rw [List.flatMap_cons, ih]
    split <;> simp [Task.owner, hne]

theorem globalTasks_events_p1 {P : Type} (D : SimData P) (v : Nat → P) (ec : Nat → Nat)
    (p1 p2 : Nat) (hne : p1 ≠ p2) :
    (globalTasks D p1 p2 v).flatMap
        (fun t => if t.owner = p1 then taskEvents D v ec t else []) =
      ((List.range D.nGlobals).filter (fun glob => (D.globals glob).isInteraction ⟨p1, v p1⟩)).map
        (fun glob => intPart.global ((D.globals glob).getEvent ⟨p1, v p1⟩)) := by
  unfold globalTasks
  rw [List.flatMap_assoc, ← flatMap_filter_map]
  congr 1
  funext glob
  have h21 : p2 ≠ p1 := fun e => hne e.symm
  by_cases h1 : (D.globals glob).isInteraction ⟨p1, v p1⟩ = true <;>
  by_cases h2 : (D.globals glob).isInteraction ⟨p2, v p2⟩ = true <;>
  simp [h1, h2, Task.owner, taskEvents, h21]

theorem globalTasks_events_p2 {P : Type} (D : SimData P) (v : Nat → P) (ec : Nat → Nat)
    (p1 p2 : Nat) (hne : p1 ≠ p2) :
    (globalTasks D p1 p2 v).flatMap
        (fun t => if t.owner = p2 then taskEvents D v ec t else []) =
      ((List.range D.nGlobals).filter (fun glob => (D.globals glob).isInteraction ⟨p2, v p2⟩)).map
        (fun glob => intPart.global ((D.globals glob).getEvent ⟨p2, v p2⟩)) := by
  unfold globalTasks
  rw [List.flatMap_assoc, ← flatMap_filter_map]
  congr 1
  funext glob
  by_cases h1 : (D.globals glob).isInteraction ⟨p1, v p1⟩ = true <;>
  by_cases h2 : (D.globals glob).isInteraction ⟨p2, v p2⟩ = true <;>
  simp [h1, h2, Task.owner, taskEvents, hne]

theorem queuedTasks_events_p1 {P : Type} (D : SimData P) (p1 p2 : Nat) (hne : p1 ≠ p2)
    (S : SimState P) :
    ((queuedTasks D p1 p2 S.vParticleList).flatMap
        (fun t => if t.owner = p1 then taskEvents D S.vParticleList S.eventCount t else [])).Perm
      (candidateEvents D S p1) := by
  have h21 : p2 ≠ p1 := fun e => hne e.symm
  simp only [queuedTasks, List.flatMap_append, intTasks_events_same,
    intTasks_events_other D _ _ p2 p1 h21, globalTasks_events_p1 D _ _ p1 p2 hne,
    localTasks_events_same, localTasks_events_other D _ _ p2 p1 h21, List.append_nil,
    candidateEvents, particle]
  rw [List.append_assoc]
  exact List.perm_append_comm

theorem queuedTasks_events_p2 {P : Type} (D : SimData P) (p1 p2 : Nat) (hne : p1 ≠ p2)
    (S : SimState P) :
    ((queuedTasks D p1 p2 S.vParticleList).flatMap
        (fun t => if t.owner = p2 then taskEvents D S.vParticleList S.eventCount t else [])).Perm
      (candidateEvents D S p2) := by
  simp only [queuedTasks, List.flatMap_append, intTasks_events_same,
    intTasks_events_other D _ _ p1 p2 hne, globalTasks_events_p2 D _ _ p1 p2 hne,
    localTasks_events_same, localTasks_events_other D _ _ p1 p2 hne, List.append_nil,
    List.nil_append, candidateEvents, particle]
  rw [List.append_assoc]
  exact List.perm_append_comm

theorem opsDuring_addEvents {P : Type} (D : SimData P) (part : Nat) (S : SimState P) :
    opsDuring S (addEvents D part S) = addEventsOps D part S := by
  rw [addEvents_eq]
  simp [opsDuring]

theorem prepared_upToDate {P : Type} (D : SimData P)
    (hidem : ∀ c : CParticle P, D.updateParticle ⟨c.ID, D.updateParticle c⟩ = D.updateParticle c)
    (p1 p2 : Nat) (S : SimState P) (id : Nat)
    (hid : id ∈ p1 :: p2 :: (D.nbhd p1 ++ D.nbhd p2)) :
    D.updateParticle ⟨id, (fullUpdatePrepare D p1 p2 S).2.2.vParticleList id⟩ =
      (fullUpdatePrepare D p1 p2 S).2.2.vParticleList id := by
  rw [fullUpdatePrepare_eq]
  exact streamAll_upToDate D hidem _ _ id (Or.inl hid)

theorem fullUpdate_pushedFor_p1 {P : Type} (D : SimData P) (σ : Schedule) (p1 p2 : Nat)
    (S : SimState P) (hne : p1 ≠ p2) (hidle : S.poolQueue = []) :
    (pushedFor p1 (fullUpdateOps D σ p1 p2 S)).Perm
      (candidateEvents D (fullUpdatePrepare D p1 p2 S).2.2 p1) := by
  rw [fullUpdatePrepare_eq]
  have h := pushedFor_fullUpdateOps_perm D σ p1 p2 S p1
  rw [hidle, List.nil_append] at h
  exact h.trans (queuedTasks_events_p1 D p1 p2 hne
    { vParticleList := streamAll D (p1 :: p2 :: (D.nbhd p1 ++ D.nbhd p2)) S.vParticleList
      eventCount := bumped p1 p2 S.eventCount
      pel := Function.update (Function.update S.pel p1 []) p2 []
      poolQueue := S.poolQueue
      trace := S.trace ++ prepareOps D p1 p2 })

theorem fullUpdate_pushedFor_p2 {P : Type} (D : SimData P) (σ : Schedule) (p1 p2 : Nat)
    (S : SimState P) (hne : p1 ≠ p2) (hidle : S.poolQueue = []) :
    (pushedFor p2 (fullUpdateOps D σ p1 p2 S)).Perm
      (candidateEvents D (fullUpdatePrepare D p1 p2 S).2.2 p2) := by
  rw [fullUpdatePrepare_eq]
  have h := pushedFor_fullUpdateOps_perm D σ p1 p2 S p2
  rw [hidle, List.nil_append] at h
  exact h.trans (queuedTasks_events_p2 D p1 p2 hne
    { vParticleList := streamAll D (p1 :: p2 :: (D.nbhd p1 ++ D.nbhd p2)) S.vParticleList
      eventCount := bumped p1 p2 S.eventCount
      pel := Function.update (Function.update S.pel p1 []) p2 []
      poolQueue := S.poolQueue
      trace := S.trace ++ prepareOps D p1 p2 })

theorem demoSim_stream_idempotent (c : CParticle Nat) :
    demoSim.updateParticle ⟨c.ID, demoSim.updateParticle c⟩ = demoSim.updateParticle c := by
  simp only [demoSim]
  by_cases h : c.data % 2 = 0
  · have h2 : ¬ (c.data + 1) % 2 = 0 := by omega
    simp [h, h2]
  · simp [h]

theorem fullUpdateOps_split {P : Type} (D : SimData P) (σ : Schedule) (p1 p2 : Nat)
    (S : SimState P) :
    fullUpdateOps D σ p1 p2 S =
      ([Op.getParticleNeighbourhood p1, Op.getParticleNeighbourhood p2,
        Op.updateParticle p1, Op.updateParticle p2] ++
        (D.nbhd p1).map Op.updateParticle ++ (D.nbhd p2).map Op.updateParticle) ++
      [Op.incEventCount p1, Op.incEventCount p2, Op.clearPEL p1, Op.clearPEL p2] ++
      (queueOps D p1 p2 (streamAll D (p1 :: p2 :: (D.nbhd p1 ++ D.nbhd p2)) S.vParticleList) ++
        (σ.order (S.poolQueue ++ queuedTasks D p1 p2
          (streamAll D (p1 :: p2 :: (D.nbhd p1 ++ D.nbhd p2)) S.vParticleList))).flatMap
          (taskOps D (streamAll D (p1 :: p2 :: (D.nbhd p1 ++ D.nbhd p2)) S.vParticleList)
            (bumped p1 p2 S.eventCount)) ++
        [Op.wait, Op.update p1, Op.update p2]) := by
  simp [fullUpdateOps, prepareOps, List.append_assoc]

theorem mem_taskOps {P : Type} (D : SimData P) (v : Nat → P) (ec : Nat → Nat) (t : Task)
    (o : Op) (ho : o ∈ taskOps D v ec t) :
    (∃ part id, o = Op.getEvent part id) ∨
      (∃ ev, ev ∈ taskEvents D v ec t ∧ o = Op.push ev t.owner (some t.lock) true) := by
  cases t with
  | threadAddIntEvent part id l =>
    simp only [taskOps, List.mem_cons] at ho
    rcases ho with rfl | ho
    · exact Or.inl ⟨part, id, rfl⟩
    · right
      by_cases h : (D.getEvent ⟨part, v part⟩ ⟨id, v id⟩).type ≠ EEventType.NONE
      · rw [if_pos h, List.mem_singleton] at ho
        exact ⟨intPart.interaction (D.getEvent ⟨part, v part⟩ ⟨id, v id⟩) (ec id),
          by simp [taskEvents, h], by simpa [Task.owner, Task.lock] using ho⟩
      · rw [if_neg h] at ho
        simp at ho
  | addGlobal part glob l =>
    right
    simp only [taskOps, List.mem_singleton] at ho
    exact ⟨intPart.global ((D.globals glob).getEvent ⟨part, v part⟩),
      by simp [taskEvents], by simpa [Task.owner, Task.lock] using ho⟩
  | threadAddLocalEvent part id l =>
    right
    simp only [taskOps, List.mem_singleton] at ho
    exact ⟨intPart.localEv ((D.locals id).getEvent ⟨part, v part⟩),
      by simp [taskEvents], by simpa [Task.owner, Task.lock] using ho⟩

theorem mem_queueOps {P : Type} (D : SimData P) (p1 p2 : Nat) (v : Nat → P) (o : Op)
    (ho : o ∈ queueOps D p1 p2 v) :
    (∃ t, o = Op.queue t) ∨ (∃ p, o = Op.getParticleLocalNeighbourhood p) := by
  simp only [queueOps, List.mem_append, List.mem_map, List.mem_cons] at ho
  rcases ho with (((⟨_, _, rfl⟩ | ⟨_, _, rfl⟩) | ⟨_, _, rfl⟩) | (rfl | ⟨_, _, rfl⟩)) |
    (rfl | ⟨_, _, rfl⟩)
  all_goals first
    | exact Or.inl ⟨_, rfl⟩
    | exact Or.inr ⟨_, rfl⟩

theorem opsDuring_runTask {P : Type} (D : SimData P) (S : SimState P) (t : Task) :
    opsDuring S (runTask D S t) = taskOps D S.vParticleList S.eventCount t := by
  rw [runTask_eq]
  simp [opsDuring, logOps]

theorem queuedIn_prepareOps {P : Type} (D : SimData P) (p1 p2 : Nat) :
    queuedIn (prepareOps D p1 p2) = [] := by
  have h : ∀ l : List Nat, queuedIn (l.map Op.updateParticle) = [] := by
    intro l
    induction l with
    | nil => rfl
    | cons a l ih => simp [queuedIn, ih]
  simp [prepareOps, queuedIn_append, queuedIn, h]

theorem queuedIn_fullUpdateOps {P : Type} (D : SimData P) (σ : Schedule) (p1 p2 : Nat)
    (S : SimState P) :
    queuedIn (fullUpdateOps D σ p1 p2 S) =
      queuedTasks D p1 p2
        (streamAll D (p1 :: p2 :: (D.nbhd p1 ++ D.nbhd p2)) S.vParticleList) := by
  have hw : queuedIn [Op.wait, Op.update p1, Op.update p2] = [] := rfl
  simp only [fullUpdateOps, queuedIn_append, queuedIn_prepareOps, queuedIn_queueOps,
    queuedIn_taskOps, hw, List.nil_append, List.append_nil]

theorem mem_globalTasks {P : Type} (D : SimData P) (p1 p2 : Nat) (v : Nat → P) (t : Task)
    (ht : t ∈ globalTasks D p1 p2 v) :
    ∃ glob, t = Task.addGlobal p1 glob Lock.P1SorterLock ∨
      t = Task.addGlobal p2 glob Lock.P2SorterLock := by
  simp only [globalTasks, List.mem_flatMap, List.mem_append] at ht
  obtain ⟨glob, _, h | h⟩ := ht
  · split at h
    · exact ⟨glob, Or.inl (by simpa using h)⟩
    · simp at h
  · split at h
    · exact ⟨glob, Or.inr (by simpa using h)⟩
    · simp at h

theorem mem_localTasks {P : Type} (D : SimData P) (p : Nat) (l : Lock) (v : Nat → P) (t : Task)
    (ht : t ∈ localTasks D p l v) : ∃ id, t = Task.threadAddLocalEvent p id l := by
  simp only [localTasks, List.mem_flatMap] at ht
  obtain ⟨id, _, h⟩ := ht
  split at h
  · exact ⟨id, by simpa using h⟩
  · simp at h

theorem filter_isIntTask_queuedTasks {P : Type} (D : SimData P) (p1 p2 : Nat) (v : Nat → P) :
    (queuedTasks D p1 p2 v).filter Task.isIntTask =
      (D.nbhd p1).map (fun ID => Task.threadAddIntEvent p1 ID Lock.P1SorterLock) ++
      (D.nbhd p2).map (fun ID => Task.threadAddIntEvent p2 ID Lock.P2SorterLock) := by
  have hA : ∀ (p : Nat) (l : Lock) (ids : List Nat),
      (ids.map (fun ID => Task.threadAddIntEvent p ID l)).filter Task.isIntTask =
        ids.map (fun ID => Task.threadAddIntEvent p ID l) := by
    intro p l ids
    apply List.filter_eq_self.mpr
    intro t ht
    obtain ⟨_, _, rfl⟩ := List.mem_map.mp ht
    rfl
  have hG : (globalTasks D p1 p2 v).filter Task.isIntTask = [] := by
    apply List.filter_eq_nil_iff.mpr
    intro t ht
    obtain ⟨glob, rfl | rfl⟩ := mem_globalTasks D p1 p2 v t ht <;> simp [Task.isIntTask]
  have hL : ∀ (p : Nat) (l : Lock), (localTasks D p l v).filter Task.isIntTask = [] := by
    intro p l
    apply List.filter_eq_nil_iff.mpr
    intro t ht
    obtain ⟨id, rfl⟩ := mem_localTasks D p l v t ht
    simp [Task.isIntTask]
  simp only [queuedTasks, List.filter_append, hA, hG, hL, List.append_nil]

theorem filter_flatMap_list {β γ : Type} (c : γ → Bool) (g : β → List γ) (l : List β) :
    (l.flatMap g).filter c = l.flatMap (fun b => (g b).filter c) := by
  induction l with
  | nil => rfl
  | cons b l ih => simp [List.flatMap_cons, List.filter_append, ih]

theorem expectedIntPush_eq {P : Type} (D : SimData P) (S : SimState P) (t : Task) :
    expectedIntPush D S t =
      (pushes (taskOps D S.vParticleList S.eventCount t)).filter
        (fun x => x.2.isInteraction) := by
  cases t with
  | threadAddIntEvent part id l =>
    simp only [expectedIntPush, taskOps, particle, pushes]
    split <;> simp [pushes, intPart.isInteraction]
  | addGlobal part glob l => simp [expectedIntPush, taskOps, pushes, intPart.isInteraction]
  | threadAddLocalEvent part id l =>
    simp [expectedIntPush, taskOps, pushes, intPart.isInteraction]

theorem fullUpdate_vParticleList {P : Type} (D : SimData P) (σ : Schedule) (p1 p2 : Nat)
    (S : SimState P) :
    (fullUpdate D σ p1 p2 S).vParticleList =
      streamAll D (p1 :: p2 :: (D.nbhd p1 ++ D.nbhd p2)) S.vParticleList := by
  rw [fullUpdate_eq]

theorem fullUpdate_eventCount {P : Type} (D : SimData P) (σ : Schedule) (p1 p2 : Nat)
    (S : SimState P) :
    (fullUpdate D σ p1 p2 S).eventCount = bumped p1 p2 S.eventCount := by
  rw [fullUpdate_eq]

theorem mem_fullUpdateOps_push {P : Type} (D : SimData P) (σ : Schedule) (p1 p2 : Nat)
    (S : SimState P) (ev : intPart) (w : Nat) (h : Option Lock) (b : Bool)
    (ho : Op.push ev w h b ∈ fullUpdateOps D σ p1 p2 S) :
    ∃ t, t ∈ S.poolQueue ++ queuedTasks D p1 p2
        (streamAll D (p1 :: p2 :: (D.nbhd p1 ++ D.nbhd p2)) S.vParticleList) ∧
      w = t.owner ∧ h = some t.lock ∧ b = true := by
  simp only [fullUpdateOps, List.mem_append, List.mem_flatMap] at ho
  rcases ho with ((ho | ho) | ⟨t, ht, ho⟩) | ho
  · simp [prepareOps] at ho
  · rcases mem_queueOps D p1 p2 _ _ ho with ⟨_, h⟩ | ⟨_, h⟩ <;> simp at h
  · rcases mem_taskOps D _ _ t _ ho with ⟨_, _, h⟩ | ⟨_, _, h⟩
    · simp at h
    · simp only [Op.push.injEq] at h
      exact ⟨t, (σ.perm _).mem_iff.mp ht, h.2.1, h.2.2.1, h.2.2.2⟩
  · simp at ho

theorem mem_queuedTasks {P : Type} (D : SimData P) (p1 p2 : Nat) (v : Nat → P) (t : Task)
    (ht : t ∈ queuedTasks D p1 p2 v) :
    (t.owner = p1 ∧ t.lock = Lock.P1SorterLock) ∨ (t.owner = p2 ∧ t.lock = Lock.P2SorterLock) := by
  simp only [queuedTasks, List.mem_append, List.mem_map] at ht
  rcases ht with (((⟨_, _, rfl⟩ | ⟨_, _, rfl⟩) | ht) | ht) | ht
  · exact Or.inl ⟨rfl, rfl⟩
  · exact Or.inr ⟨rfl, rfl⟩
  · obtain ⟨glob, rfl | rfl⟩ := mem_globalTasks D p1 p2 v t ht
    · exact Or.inl ⟨rfl, rfl⟩
    · exact Or.inr ⟨rfl, rfl⟩
  · obtain ⟨id, rfl⟩ := mem_localTasks D p1 _ v t ht
    exact Or.inl ⟨rfl, rfl⟩
  · obtain ⟨id, rfl⟩ := mem_localTasks D p2 _ v t ht
    exact Or.inr ⟨rfl, rfl⟩

theorem mem_queuedTasks_int {P : Type} (D : SimData P) (p1 p2 : Nat) (v : Nat → P)
    (part id : Nat) (l : Lock)
    (ht : Task.threadAddIntEvent part id l ∈ queuedTasks D p1 p2 v) :
    (part = p1 ∧ id ∈ D.nbhd p1) ∨ (part = p2 ∧ id ∈ D.nbhd p2) := by
  simp only [queuedTasks, List.mem_append, List.mem_map] at ht
  rcases ht with (((⟨a, ha, h⟩ | ⟨a, ha, h⟩) | ht) | ht) | ht
  · simp only [Task.threadAddIntEvent.injEq] at h
    exact Or.inl ⟨h.1.symm, h.2.1 ▸ ha⟩
  · simp only [Task.threadAddIntEvent.injEq] at h
    exact Or.inr ⟨h.1.symm, h.2.1 ▸ ha⟩
  · obtain ⟨glob, h | h⟩ := mem_globalTasks D p1 p2 v _ ht <;> simp at h
  · obtain ⟨_, h⟩ := mem_localTasks D p1 _ v _ ht
    simp at h
  · obtain ⟨_, h⟩ := mem_localTasks D p2 _ v _ ht
    simp at h

theorem filter_isGetEvent_addEvents2Ops {P : Type} (D : SimData P) (part : Nat) (v : Nat → P)
    (ec : Nat → Nat) (ids : List Nat) :
    (ids.flatMap (addEvents2Ops D part v ec)).filter Op.isGetEvent =
      ids.map (Op.getEvent part) := by
  induction ids with
  | nil => rfl
  | cons a ids ih =>
    rw [List.flatMap_cons, List.filter_append, ih, List.map_cons]
    simp only [addEvents2Ops]
    split <;> simp [Op.isGetEvent]

/-! ## The claims -/

/-- C1: for distinct particles `p1`, `p2`, with streaming to the current time idempotent and
the pool idle at entry, the events that `fullUpdate(p1, p2)` pushes for owner `p1` (and for
owner `p2`) are, up to order, the events that the single-threaded `addEvents` pushes for that
owner when run from the state that the tasks see (particles streamed, both counters
incremented); and these are the events the spec lists: one global event per global with
`isInteraction`, one local event per local of the local neighbourhood with `isInteraction`, one
interaction event per neighbour id whose event type is not `NONE`. -/
theorem fullUpdate_refines_addEvents {P : Type} (D : SimData P) (σ : Schedule) (p1 p2 : Nat)
    (S : SimState P) (hne : p1 ≠ p2)
    (hidem : ∀ c : CParticle P, D.updateParticle ⟨c.ID, D.updateParticle c⟩ = D.updateParticle c)
    (hidle : S.poolQueue = []) :
    (pushedFor p1 (opsDuring S (fullUpdate D σ p1 p2 S))).Perm
      (pushedFor p1 (opsDuring (fullUpdatePrepare D p1 p2 S).2.2
        (addEvents D p1 (fullUpdatePrepare D p1 p2 S).2.2))) ∧
    (pushedFor p2 (opsDuring S (fullUpdate D σ p1 p2 S))).Perm
      (pushedFor p2 (opsDuring (fullUpdatePrepare D p1 p2 S).2.2
        (addEvents D p2 (fullUpdatePrepare D p1 p2 S).2.2))) ∧
    pushedFor p1 (opsDuring (fullUpdatePrepare D p1 p2 S).2.2
        (addEvents D p1 (fullUpdatePrepare D p1 p2 S).2.2)) =
      candidateEvents D (fullUpdatePrepare D p1 p2 S).2.2 p1 ∧
    pushedFor p2 (opsDuring (fullUpdatePrepare D p1 p2 S).2.2
        (addEvents D p2 (fullUpdatePrepare D p1 p2 S).2.2)) =
      candidateEvents D (fullUpdatePrepare D p1 p2 S).2.2 p2 := by
  have ha1 : pushedFor p1 (opsDuring (fullUpdatePrepare D p1 p2 S).2.2
        (addEvents D p1 (fullUpdatePrepare D p1 p2 S).2.2)) =
      candidateEvents D (fullUpdatePrepare D p1 p2 S).2.2 p1 := by
    rw [opsDuring_addEvents]
    apply pushedFor_addEventsOps
    · exact prepared_upToDate D hidem p1 p2 S p1 (by simp)
    · intro id hid
      exact prepared_upToDate D hidem p1 p2 S id (by simp [hid])
  have ha2 : pushedFor p2 (opsDuring (fullUpdatePrepare D p1 p2 S).2.2
        (addEvents D p2 (fullUpdatePrepare D p1 p2 S).2.2)) =
      candidateEvents D (fullUpdatePrepare D p1 p2 S).2.2 p2 := by
    rw [opsDuring_addEvents]
    apply pushedFor_addEventsOps
    · exact prepared_upToDate D hidem p1 p2 S p2 (by simp)
    · intro id hid
      exact prepared_upToDate D hidem p1 p2 S id (by simp [hid])
  refine ⟨?_, ?_, ha1, ha2⟩
  · rw [ha1, opsDuring_fullUpdate]
    exact fullUpdate_pushedFor_p1 D σ p1 p2 S hne hidle
  · rw [ha2, opsDuring_fullUpdate]
    exact fullUpdate_pushedFor_p2 D σ p1 p2 S hne hidle

/-- C1, at a concrete input: the demonstration system, particles 0 and 1, tasks run in reverse
queue order. -/
theorem fullUpdate_refines_addEvents_witness :
    (0 : Nat) ≠ 1 ∧
    (∀ c : CParticle Nat,
      demoSim.updateParticle ⟨c.ID, demoSim.updateParticle c⟩ = demoSim.updateParticle c) ∧
    demoState.poolQueue = [] ∧
    ((pushedFor 0 (opsDuring demoState (fullUpdate demoSim Schedule.lifo 0 1 demoState))).Perm
      (pushedFor 0 (opsDuring (fullUpdatePrepare demoSim 0 1 demoState).2.2
        (addEvents demoSim 0 (fullUpdatePrepare demoSim 0 1 demoState).2.2))) ∧
    (pushedFor 1 (opsDuring demoState (fullUpdate demoSim Schedule.lifo 0 1 demoState))).Perm
      (pushedFor 1 (opsDuring (fullUpdatePrepare demoSim 0 1 demoState).2.2
        (addEvents demoSim 1 (fullUpdatePrepare demoSim 0 1 demoState).2.2))) ∧
    pushedFor 0 (opsDuring (fullUpdatePrepare demoSim 0 1 demoState).2.2
        (addEvents demoSim 0 (fullUpdatePrepare demoSim 0 1 demoState).2.2)) =
      candidateEvents demoSim (fullUpdatePrepare demoSim 0 1 demoState).2.2 0 ∧
    pushedFor 1 (opsDuring (fullUpdatePrepare demoSim 0 1 demoState).2.2
        (addEvents demoSim 1 (fullUpdatePrepare demoSim 0 1 demoState).2.2)) =
      candidateEvents demoSim (fullUpdatePrepare demoSim 0 1 demoState).2.2 1) :=
  ⟨by decide, demoSim_stream_idempotent, rfl,
    fullUpdate_refines_addEvents demoSim Schedule.lifo 0 1 demoState (by decide)
      demoSim_stream_idempotent rfl⟩

/-- C2: `fullUpdate(p1, p2)` leaves `eventCount[p1]` and `eventCount[p2]` strictly greater than
before the call; each is larger by exactly 1 when the particles are distinct (and by 2 when
they are the same particle). -/
theorem fullUpdate_eventCount_increases {P : Type} (D : SimData P) (σ : Schedule)
    (p1 p2 : Nat) (S : SimState P) :
    S.eventCount p1 < (fullUpdate D σ p1 p2 S).eventCount p1 ∧
    S.eventCount p2 < (fullUpdate D σ p1 p2 S).eventCount p2 ∧
    (fullUpdate D σ p1 p2 S).eventCount p1 = S.eventCount p1 + (if p1 = p2 then 2 else 1) ∧
    (fullUpdate D σ p1 p2 S).eventCount p2 = S.eventCount p2 + (if p1 = p2 then 2 else 1) := by
  rw [fullUpdate_eq]
  by_cases h : p1 = p2
  · subst h
    simp only [bumped, Function.update_same, if_true]
    exact ⟨by omega, by omega, trivial, trivial⟩
  · have h' : p2 ≠ p1 := fun e => h e.symm
    simp [bumped, h, h', Function.update_noteq]

/-- C3: the interaction events that `fullUpdate(p1, p2)` pushes are, up to order, one per
interaction task `(part, id)` whose event type is not `NONE`, pushed for owner `part` and
carrying the generation number `eventCount[id]` of the state on return; and on return every
counter is the counter at entry plus one for each of `p1`, `p2` that the id equals, so the
number stored includes both increments (in particular in the event of `p1` with neighbour
`p2`, and of `p2` with neighbour `p1`); in the log both increments precede every push. -/
theorem fullUpdate_generation_current {P : Type} (D : SimData P) (σ : Schedule) (p1 p2 : Nat)
    (S : SimState P) :
    ((pushes (opsDuring S (fullUpdate D σ p1 p2 S))).filter (fun x => x.2.isInteraction)).Perm
      ((S.poolQueue ++ queuedIn (opsDuring S (fullUpdate D σ p1 p2 S))).flatMap
        (expectedIntPush D (fullUpdate D σ p1 p2 S))) ∧
    (∀ id, (fullUpdate D σ p1 p2 S).eventCount id =
      S.eventCount id + (if id = p1 then 1 else 0) + (if id = p2 then 1 else 0)) ∧
    (∃ pre post : List Op,
      opsDuring S (fullUpdate D σ p1 p2 S) =
        pre ++ [Op.incEventCount p1, Op.incEventCount p2] ++ post ∧
      pre.all (fun o => !o.isPush && !o.isIncEventCount) = true ∧
      post.all (fun o => !o.isIncEventCount) = true) := by
  refine ⟨?_, ?_, ?_⟩
  · have hfun : expectedIntPush D (fullUpdate D σ p1 p2 S) = fun t =>
        (pushes (taskOps D (streamAll D (p1 :: p2 :: (D.nbhd p1 ++ D.nbhd p2)) S.vParticleList)
          (bumped p1 p2 S.eventCount) t)).filter (fun x => x.2.isInteraction) := by
      funext t
      rw [expectedIntPush_eq, fullUpdate_vParticleList, fullUpdate_eventCount]
    rw [hfun, opsDuring_fullUpdate, queuedIn_fullUpdateOps, ← filter_flatMap_list]
    exact (pushes_fullUpdateOps_perm D σ p1 p2 S).filter _
  · intro id
    rw [fullUpdate_eventCount]
    by_cases h1 : id = p1 <;> by_cases h2 : id = p2
    · subst h1; subst h2; simp [bumped]
    · subst h1; simp [bumped, h2, Function.update_noteq h2]
    · subst h2; simp [bumped, h1, Function.update_noteq h1]
    · simp [bumped, h1, h2, Function.update_noteq h1, Function.update_noteq h2]
  · refine ⟨[Op.getParticleNeighbourhood p1, Op.getParticleNeighbourhood p2,
        Op.updateParticle p1, Op.updateParticle p2] ++
        (D.nbhd p1).map Op.updateParticle ++ (D.nbhd p2).map Op.updateParticle,
      [Op.clearPEL p1, Op.clearPEL p2] ++
      (queueOps D p1 p2 (streamAll D (p1 :: p2 :: (D.nbhd p1 ++ D.nbhd p2)) S.vParticleList) ++
        (σ.order (S.poolQueue ++ queuedTasks D p1 p2
          (streamAll D (p1 :: p2 :: (D.nbhd p1 ++ D.nbhd p2)) S.vParticleList))).flatMap
          (taskOps D (streamAll D (p1 :: p2 :: (D.nbhd p1 ++ D.nbhd p2)) S.vParticleList)
            (bumped p1 p2 S.eventCount)) ++
        [Op.wait, Op.update p1, Op.update p2]), ?_, ?_, ?_⟩
    · rw [opsDuring_fullUpdate, fullUpdateOps_split]
      simp only [List.append_assoc, List.cons_append, List.nil_append]
    · rw [List.all_eq_true]
      intro o ho
      simp only [List.mem_append, List.mem_cons, List.mem_map, List.mem_singleton,
        List.not_mem_nil, or_false] at ho
      rcases ho with ((rfl | rfl | rfl | rfl) | ⟨_, _, rfl⟩) | ⟨_, _, rfl⟩ <;> rfl
    · rw [List.all_eq_true]
      intro o ho
      simp only [List.mem_append, List.mem_flatMap, List.mem_cons, List.mem_singleton,
        List.not_mem_nil, or_false] at ho
      rcases ho with (rfl | rfl) | (ho | ⟨t, _, ho⟩) | (rfl | rfl | rfl)
      · rfl
      · rfl
      · rcases mem_queueOps D p1 p2 _ o ho with ⟨_, rfl⟩ | ⟨_, rfl⟩ <;> rfl
      · rcases mem_taskOps D _ _ t o ho with ⟨_, _, rfl⟩ | ⟨_, _, rfl⟩ <;> rfl
      · rfl
      · rfl
      · rfl

/-- C4: in every execution of `fullUpdate(p1, p2)` the log ends with the return of the pool's
wait followed by `update(p1)` and `update(p2)`, in that order, and there is no other wait or
update before; the pushes of every task that was queued have all been made before the wait
returns (the pushes logged before it are, up to order, the pushes of the queued tasks), so no
push follows either update; and the pool's queue is empty on return. -/
theorem fullUpdate_wait_then_update {P : Type} (D : SimData P) (σ : Schedule) (p1 p2 : Nat)
    (S : SimState P) :
    ∃ pre : List Op,
      opsDuring S (fullUpdate D σ p1 p2 S) = pre ++ [Op.wait, Op.update p1, Op.update p2] ∧
      pre.all (fun o => !o.isWait && !o.isUpdate) = true ∧
      (pushes pre).Perm ((S.poolQueue ++ queuedIn pre).flatMap (fun t =>
        pushes (opsDuring (fullUpdate D σ p1 p2 S) (runTask D (fullUpdate D σ p1 p2 S) t)))) ∧
      pushes (opsDuring S (fullUpdate D σ p1 p2 S)) = pushes pre ∧
      (fullUpdate D σ p1 p2 S).poolQueue = [] := by
  refine ⟨prepareOps D p1 p2 ++
    queueOps D p1 p2 (streamAll D (p1 :: p2 :: (D.nbhd p1 ++ D.nbhd p2)) S.vParticleList) ++
    (σ.order (S.poolQueue ++ queuedTasks D p1 p2
      (streamAll D (p1 :: p2 :: (D.nbhd p1 ++ D.nbhd p2)) S.vParticleList))).flatMap
      (taskOps D (streamAll D (p1 :: p2 :: (D.nbhd p1 ++ D.nbhd p2)) S.vParticleList)
        (bumped p1 p2 S.eventCount)), ?_, ?_, ?_, ?_, ?_⟩
  · rw [opsDuring_fullUpdate]
    rfl
  · rw [List.all_eq_true]
    intro o ho
    simp only [List.mem_append, List.mem_flatMap] at ho
    rcases ho with (ho | ho) | ⟨t, _, ho⟩
    · simp only [prepareOps, List.mem_append, List.mem_cons, List.mem_map,
        List.mem_singleton, List.not_mem_nil, or_false] at ho
      rcases ho with (((rfl | rfl | rfl | rfl) | ⟨_, _, rfl⟩) | ⟨_, _, rfl⟩) |
        (rfl | rfl | rfl | rfl) <;> rfl
    · rcases mem_queueOps D p1 p2 _ o ho with ⟨_, rfl⟩ | ⟨_, rfl⟩ <;> rfl
    · rcases mem_taskOps D _ _ t o ho with ⟨_, _, rfl⟩ | ⟨_, _, rfl⟩ <;> rfl
  · simp only [opsDuring_runTask]
    rw [fullUpdate_eq]
    simp only [queuedIn_append, queuedIn_prepareOps, queuedIn_queueOps, queuedIn_taskOps,
      List.nil_append, List.append_nil, pushes_append, pushes_prepareOps, pushes_queueOps,
      pushes_flatMap]
    exact List.Perm.flatMap_right _ (σ.perm _)
  · rw [opsDuring_fullUpdate]
    simp [fullUpdateOps, pushes_append, pushes]
  · rw [fullUpdate_eq]

/-- C5: in `fullUpdate(p1, p2)` the calls `clearPEL(p1)`, `clearPEL(p2)` come directly after
the two counter increments; no task is queued and no event pushed before them, and no list is
cleared after them.  So on return the event lists of `p1` and of `p2` are exactly the events
pushed for them during the call, in the order of the pushes. -/
theorem fullUpdate_clears_before_queueing {P : Type} (D : SimData P) (σ : Schedule)
    (p1 p2 : Nat) (S : SimState P) :
    (∃ pre post : List Op,
      opsDuring S (fullUpdate D σ p1 p2 S) =
        pre ++ [Op.incEventCount p1, Op.incEventCount p2, Op.clearPEL p1, Op.clearPEL p2] ++
          post ∧
      pre.all (fun o => !o.isQueue && !o.isPush && !o.isIncEventCount && !o.isClearPEL) = true ∧
      post.all (fun o => !o.isIncEventCount && !o.isClearPEL) = true) ∧
    (fullUpdate D σ p1 p2 S).pel p1 = pushedFor p1 (opsDuring S (fullUpdate D σ p1 p2 S)) ∧
    (fullUpdate D σ p1 p2 S).pel p2 = pushedFor p2 (opsDuring S (fullUpdate D σ p1 p2 S)) := by
  refine ⟨⟨_, _, by rw [opsDuring_fullUpdate]; exact fullUpdateOps_split D σ p1 p2 S, ?_, ?_⟩,
    ?_, ?_⟩
  · rw [List.all_eq_true]
    intro o ho
    simp only [List.mem_append, List.mem_cons, List.mem_map, List.mem_singleton,
      List.not_mem_nil, or_false] at ho
    rcases ho with ((rfl | rfl | rfl | rfl) | ⟨_, _, rfl⟩) | ⟨_, _, rfl⟩ <;> rfl
  · rw [List.all_eq_true]
    intro o ho
    simp only [List.mem_append, List.mem_flatMap] at ho
    rcases ho with (ho | ⟨t, _, ho⟩) | ho
    · rcases mem_queueOps D p1 p2 _ o ho with ⟨_, rfl⟩ | ⟨_, rfl⟩ <;> rfl
    · rcases mem_taskOps D _ _ t o ho with ⟨_, _, rfl⟩ | ⟨_, _, rfl⟩ <;> rfl
    · simp only [List.mem_cons, List.mem_singleton, List.not_mem_nil, or_false] at ho
      rcases ho with rfl | rfl | rfl <;> rfl
  · rw [fullUpdate_pel, opsDuring_fullUpdate]
    simp
  · rw [fullUpdate_pel, opsDuring_fullUpdate]
    simp

/-- C6: in `fullUpdate(p1, p2)` the log splits into a first part, in which no task is queued
and no interaction event computed, and a rest, in which no particle is streamed; the first
part contains `updateParticle` of `p1`, of `p2` and of every captured neighbour id, hence of
both particles that any queued interaction task reads.  Likewise the log of `addEvents(part)`
splits into a first part that streams `part` and every neighbour id and computes no
interaction event, and a rest that streams nothing and computes the interaction events of the
neighbour ids, in order. -/
theorem streaming_precedes_candidates {P : Type} (D : SimData P) (σ : Schedule) (p1 p2 : Nat)
    (S : SimState P) (part : Nat) :
    (∃ pre post : List Op,
      opsDuring S (fullUpdate D σ p1 p2 S) = pre ++ post ∧
      pre.all (fun o => !o.isQueue && !o.isGetEvent && !o.isPush) = true ∧
      post.all (fun o => !o.isUpdateParticle) = true ∧
      (∀ id ∈ p1 :: p2 :: ((fullUpdatePrepare D p1 p2 S).1.nbIDs ++
          (fullUpdatePrepare D p1 p2 S).2.1.nbIDs), Op.updateParticle id ∈ pre) ∧
      (∀ q id l, Task.threadAddIntEvent q id l ∈ queuedIn post →
        Op.updateParticle q ∈ pre ∧ Op.updateParticle id ∈ pre)) ∧
    (∃ pre post : List Op,
      opsDuring S (addEvents D part S) = pre ++ post ∧
      pre.all (fun o => !o.isGetEvent) = true ∧
      post.all (fun o => !o.isUpdateParticle) = true ∧
      (∀ id ∈ part :: D.nbhd part, Op.updateParticle id ∈ pre) ∧
      post.filter Op.isGetEvent = (D.nbhd part).map (Op.getEvent part)) := by
  constructor
  · refine ⟨prepareOps D p1 p2,
      queueOps D p1 p2 (streamAll D (p1 :: p2 :: (D.nbhd p1 ++ D.nbhd p2)) S.vParticleList) ++
      (σ.order (S.poolQueue ++ queuedTasks D p1 p2
        (streamAll D (p1 :: p2 :: (D.nbhd p1 ++ D.nbhd p2)) S.vParticleList))).flatMap
        (taskOps D (streamAll D (p1 :: p2 :: (D.nbhd p1 ++ D.nbhd p2)) S.vParticleList)
          (bumped p1 p2 S.eventCount)) ++
      [Op.wait, Op.update p1, Op.update p2], ?_, ?_, ?_, ?_, ?_⟩
    · rw [opsDuring_fullUpdate]
      simp only [fullUpdateOps, List.append_assoc]
    · rw [List.all_eq_true]
      intro o ho
      simp only [prepareOps, List.mem_append, List.mem_cons, List.mem_map,
        List.mem_singleton, List.not_mem_nil, or_false] at ho
      rcases ho with (((rfl | rfl | rfl | rfl) | ⟨_, _, rfl⟩) | ⟨_, _, rfl⟩) |
        (rfl | rfl | rfl | rfl) <;> rfl
    · rw [List.all_eq_true]
      intro o ho
      simp only [List.mem_append, List.mem_flatMap] at ho
      rcases ho with (ho | ⟨t, _, ho⟩) | ho
      · rcases mem_queueOps D p1 p2 _ o ho with ⟨_, rfl⟩ | ⟨_, rfl⟩ <;> rfl
      · rcases mem_taskOps D _ _ t o ho with ⟨_, _, rfl⟩ | ⟨_, _, rfl⟩ <;> rfl
      · simp only [List.mem_cons, List.mem_singleton, List.not_mem_nil, or_false] at ho
        rcases ho with rfl | rfl | rfl <;> rfl
    · intro id hid
      rw [fullUpdatePrepare_eq] at hid
      simp only [List.mem_cons, List.mem_append] at hid
      simp only [prepareOps, List.mem_append, List.mem_cons, List.mem_map,
        Op.updateParticle.injEq, exists_eq_right]
      rcases hid with rfl | rfl | h | h
      · simp
      · simp
      · exact Or.inl (Or.inl (Or.inr h))
      · exact Or.inl (Or.inr h)
    · intro q id l ht
      have hw : queuedIn [Op.wait, Op.update p1, Op.update p2] = [] := rfl
      rw [queuedIn_append, queuedIn_append, queuedIn_queueOps, queuedIn_taskOps, hw,
        List.append_nil, List.append_nil] at ht
      simp only [prepareOps, List.mem_append, List.mem_cons, List.mem_map,
        Op.updateParticle.injEq, exists_eq_right]
      rcases mem_queuedTasks_int D p1 p2 _ q id l ht with ⟨rfl, h⟩ | ⟨rfl, h⟩
      · exact ⟨by simp, Or.inl (Or.inl (Or.inr h))⟩
      · exact ⟨by simp, Or.inl (Or.inr h)⟩
  · refine ⟨Op.updateParticle part ::
        addGlobalOps D part (streamAll D [part] S.vParticleList) ++
        Op.getParticleLocalNeighbourhood part ::
        addLocalOps D part (streamAll D [part] S.vParticleList) ++
        Op.getParticleNeighbourhood part :: (D.nbhd part).map Op.updateParticle,
      Op.getParticleNeighbourhood part :: (D.nbhd part).flatMap
        (addEvents2Ops D part (streamAll D (part :: D.nbhd part) S.vParticleList) S.eventCount),
      ?_, ?_, ?_, ?_, ?_⟩
    · rw [opsDuring_addEvents]
      rfl
    · rw [List.all_eq_true]
      intro o ho
      simp only [addGlobalOps, addLocalOps, List.mem_append, List.mem_cons, List.mem_map,
        List.mem_flatMap] at ho
      rcases ho with ((rfl | ⟨g, _, ho⟩) | (rfl | ⟨g, _, ho⟩)) | (rfl | ⟨_, _, rfl⟩)
      · rfl
      · split at ho
        · simp only [List.mem_singleton] at ho; subst ho; rfl
        · simp at ho
      · rfl
      · split at ho
        · simp only [List.mem_singleton] at ho; subst ho; rfl
        · simp at ho
      · rfl
      · rfl
    · rw [List.all_eq_true]
      intro o ho
      simp only [List.mem_cons, List.mem_flatMap, addEvents2Ops] at ho
      rcases ho with rfl | ⟨id, _, rfl | ho⟩
      · rfl
      · rfl
      · split at ho
        · simp only [List.mem_singleton] at ho; subst ho; rfl
        · simp at ho
    · intro id hid
      simp only [List.mem_append, List.mem_cons, List.mem_map, Op.updateParticle.injEq,
        exists_eq_right]
      rcases List.mem_cons.mp hid with rfl | h
      · simp
      · exact Or.inr (Or.inr h)
    · rw [List.filter_cons]
      simp only [Op.isGetEvent, Bool.false_eq_true, if_false]
      exact filter_isGetEvent_addEvents2Ops D part _ _ _

/-- C7: `fullUpdate(p1, p2)` enumerates the neighbour ids of `p1` and of `p2` once each, as
its first two calls (so before any particle is streamed, any counter changed or any list
cleared); the captured ids are the ids the neighbour list hands out; and the interaction tasks
it queues are exactly one task `(p1, id)` per captured id of `p1` followed by one task
`(p2, id)` per captured id of `p2`, in the captured order. -/
theorem fullUpdate_snapshot_then_queue {P : Type} (D : SimData P) (σ : Schedule) (p1 p2 : Nat)
    (S : SimState P) :
    (fullUpdatePrepare D p1 p2 S).1.nbIDs = D.nbhd p1 ∧
    (fullUpdatePrepare D p1 p2 S).2.1.nbIDs = D.nbhd p2 ∧
    (∃ rest : List Op,
      opsDuring S (fullUpdate D σ p1 p2 S) =
        Op.getParticleNeighbourhood p1 :: Op.getParticleNeighbourhood p2 :: rest ∧
      rest.all (fun o => !o.isGetParticleNeighbourhood) = true) ∧
    (queuedIn (opsDuring S (fullUpdate D σ p1 p2 S))).filter Task.isIntTask =
      (fullUpdatePrepare D p1 p2 S).1.nbIDs.map
        (fun ID => Task.threadAddIntEvent p1 ID Lock.P1SorterLock) ++
      (fullUpdatePrepare D p1 p2 S).2.1.nbIDs.map
        (fun ID => Task.threadAddIntEvent p2 ID Lock.P2SorterLock) := by
  refine ⟨by rw [fullUpdatePrepare_eq], by rw [fullUpdatePrepare_eq],
    ⟨Op.updateParticle p1 :: Op.updateParticle p2 ::
      ((D.nbhd p1).map Op.updateParticle ++ ((D.nbhd p2).map Op.updateParticle ++
      ([Op.incEventCount p1, Op.incEventCount p2, Op.clearPEL p1, Op.clearPEL p2] ++
      (queueOps D p1 p2 (streamAll D (p1 :: p2 :: (D.nbhd p1 ++ D.nbhd p2)) S.vParticleList) ++
        ((σ.order (S.poolQueue ++ queuedTasks D p1 p2
          (streamAll D (p1 :: p2 :: (D.nbhd p1 ++ D.nbhd p2)) S.vParticleList))).flatMap
          (taskOps D (streamAll D (p1 :: p2 :: (D.nbhd p1 ++ D.nbhd p2)) S.vParticleList)
            (bumped p1 p2 S.eventCount)) ++
        [Op.wait, Op.update p1, Op.update p2]))))), ?_, ?_⟩, ?_⟩
  · rw [opsDuring_fullUpdate, fullUpdateOps_split]
    simp only [List.cons_append, List.nil_append, List.append_assoc]
  · rw [List.all_eq_true]
    intro o ho
    simp only [List.mem_append, List.mem_cons, List.mem_map, List.mem_flatMap,
      List.mem_singleton, List.not_mem_nil, or_false] at ho
    rcases ho with rfl | rfl | ⟨_, _, rfl⟩ | ⟨_, _, rfl⟩ | (rfl | rfl | rfl | rfl) | ho |
      ⟨t, _, ho⟩ | (rfl | rfl | rfl)
    any_goals rfl
    · rcases mem_queueOps D p1 p2 _ o ho with ⟨_, rfl⟩ | ⟨_, rfl⟩ <;> rfl
    · rcases mem_taskOps D _ _ t o ho with ⟨_, _, rfl⟩ | ⟨_, _, rfl⟩ <;> rfl
  · rw [opsDuring_fullUpdate, queuedIn_fullUpdateOps, filter_isIntTask_queuedTasks,
      fullUpdatePrepare_eq]

/-- C8, as amended: run on any state, the interaction task pushes exactly one event, owned by
`part` and carrying `eventCount[id]`, when the type of the computed interaction event is not
`NONE`, and leaves the sorter unchanged when it is `NONE`; the global task and the local task
push exactly one event owned by `part`, whatever the type of the computed event.  No task
touches the event list of another particle. -/
theorem task_push_rule {P : Type} (D : SimData P) (S : SimState P) (part id glob : Nat)
    (l : Lock) :
    (runTask D S (Task.threadAddIntEvent part id l)).pel =
      (if (D.getEvent (particle S part) (particle S id)).type ≠ EEventType.NONE then
        Function.update S.pel part (S.pel part ++
          [intPart.interaction (D.getEvent (particle S part) (particle S id))
            (S.eventCount id)])
      else S.pel) ∧
    (runTask D S (Task.addGlobal part glob l)).pel =
      Function.update S.pel part (S.pel part ++
        [intPart.global ((D.globals glob).getEvent (particle S part))]) ∧
    (runTask D S (Task.threadAddLocalEvent part id l)).pel =
      Function.update S.pel part (S.pel part ++
        [intPart.localEv ((D.locals id).getEvent (particle S part))]) := by
  refine ⟨?_, rfl, rfl⟩
  simp only [runTask, threadAddIntEvent, record, push]
  split <;> rfl

/-- C8, the claim as stated fails: with locals whose event has type `NONE`, `fullUpdate(0, 1)`
queues the local task for particle 0 and local 0, the event it computes has type `NONE`, and
the task still pushes it, so the event is in the list of particle 0 on return. -/
theorem task_push_rule_counterexample :
    Op.queue (Task.threadAddLocalEvent 0 0 Lock.P1SorterLock) ∈
      opsDuring demoState (fullUpdate quietSim Schedule.fifo 0 1 demoState) ∧
    ((quietSim.locals 0).getEvent (particle demoState 0)).type = EEventType.NONE ∧
    (runTask quietSim demoState (Task.threadAddLocalEvent 0 0 Lock.P1SorterLock)).pel 0 =
      demoState.pel 0 ++ [intPart.localEv ⟨0, 0, EEventType.NONE, 0⟩] ∧
    (runTask quietSim demoState (Task.threadAddLocalEvent 0 0 Lock.P1SorterLock)).pel 0 ≠
      demoState.pel 0 ∧
    intPart.localEv ⟨0, 0, EEventType.NONE, 0⟩ ∈
      (fullUpdate quietSim Schedule.fifo 0 1 demoState).pel 0 := by
  decide

/-- C9, as amended: for distinct particles `p1`, `p2` and an idle pool at entry, during
`fullUpdate(p1, p2)` every push whose owner is `p1` is made holding `_P1SorterLock` and every
push whose owner is `p2` is made holding `_P2SorterLock`; so any two pushes for the same owner
are made holding the same mutex. -/
theorem fullUpdate_lock_discipline {P : Type} (D : SimData P) (σ : Schedule) (p1 p2 : Nat)
    (S : SimState P) (hne : p1 ≠ p2) (hidle : S.poolQueue = []) :
    (opsDuring S (fullUpdate D σ p1 p2 S)).all (lockDiscipline p1 p2) = true ∧
    (∀ ev1 ev2 owner h1 h2 b1 b2,
      Op.push ev1 owner h1 b1 ∈ opsDuring S (fullUpdate D σ p1 p2 S) →
      Op.push ev2 owner h2 b2 ∈ opsDuring S (fullUpdate D σ p1 p2 S) →
      h1 = h2 ∧ h1 ≠ none) := by
  have hkey : ∀ ev w h b, Op.push ev w h b ∈ opsDuring S (fullUpdate D σ p1 p2 S) →
      (w = p1 ∧ h = some Lock.P1SorterLock) ∨ (w = p2 ∧ h = some Lock.P2SorterLock) := by
    intro ev w h b ho
    rw [opsDuring_fullUpdate] at ho
    obtain ⟨t, ht, hw, hh, _⟩ := mem_fullUpdateOps_push D σ p1 p2 S ev w h b ho
    rw [hidle, List.nil_append] at ht
    rcases mem_queuedTasks D p1 p2 _ t ht with ⟨h1, h2⟩ | ⟨h1, h2⟩
    · exact Or.inl ⟨hw.trans h1, by rw [hh, h2]⟩
    · exact Or.inr ⟨hw.trans h1, by rw [hh, h2]⟩
  constructor
  · rw [List.all_eq_true]
    intro o ho
    cases o with
    | push ev w h b =>
      rcases hkey ev w h b ho with ⟨rfl, rfl⟩ | ⟨rfl, rfl⟩
      · simp [lockDiscipline, hne]
      · have h21 : ¬ w = p1 := fun e => hne e.symm
        simp [lockDiscipline, h21]
    | _ => rfl
  · intro ev1 ev2 owner h1 h2 b1 b2 ho1 ho2
    rcases hkey ev1 owner h1 b1 ho1 with ⟨rfl, rfl⟩ | ⟨rfl, rfl⟩ <;>
    rcases hkey ev2 _ h2 b2 ho2 with ⟨e, rfl⟩ | ⟨e, rfl⟩
    · simp
    · exact absurd e hne
    · exact absurd e.symm hne
    · simp

/-- C9, at a concrete input: the demonstration system, particles 0 and 1, tasks run in
reverse queue order. -/
theorem fullUpdate_lock_discipline_witness :
    (0 : Nat) ≠ 1 ∧ demoState.poolQueue = [] ∧
    ((opsDuring demoState (fullUpdate demoSim Schedule.lifo 0 1 demoState)).all
        (lockDiscipline 0 1) = true ∧
    (∀ ev1 ev2 owner h1 h2 b1 b2,
      Op.push ev1 owner h1 b1 ∈
        opsDuring demoState (fullUpdate demoSim Schedule.lifo 0 1 demoState) →
      Op.push ev2 owner h2 b2 ∈
        opsDuring demoState (fullUpdate demoSim Schedule.lifo 0 1 demoState) →
      h1 = h2 ∧ h1 ≠ none)) :=
  ⟨by decide, rfl,
    fullUpdate_lock_discipline demoSim Schedule.lifo 0 1 demoState (by decide) rfl⟩

/-- C9, the claim as stated fails when the two arguments are the same particle: in
`fullUpdate(0, 0)` on the demonstration system, with an idle pool, a push whose owner is
particle 0 is made holding `_P2SorterLock` and not `_P1SorterLock`, while another push for
particle 0 is made holding `_P1SorterLock`. -/
theorem fullUpdate_lock_discipline_counterexample :
    demoState.poolQueue = [] ∧
    Op.push (intPart.global ⟨0, 1, EEventType.OTHER 0, 0⟩) 0 (some Lock.P2SorterLock) true ∈
      opsDuring demoState (fullUpdate demoSim Schedule.fifo 0 0 demoState) ∧
    Op.push (intPart.global ⟨0, 1, EEventType.OTHER 0, 0⟩) 0 (some Lock.P1SorterLock) true ∈
      opsDuring demoState (fullUpdate demoSim Schedule.fifo 0 0 demoState) ∧
    (opsDuring demoState (fullUpdate demoSim Schedule.fifo 0 0 demoState)).all
      (lockDiscipline 0 0) = false := by
  decide

/-- C10: the result of `fullUpdate(p1, p2)` does not depend on the order in which the pool runs
the queued tasks: for every schedule, the (owner, event) pairs pushed into the sorter are a
permutation of those pushed when the tasks run in queue order, every per-particle event list is
a permutation of the one of the queue-order run, and particle data and counters are the same. -/
theorem fullUpdate_schedule_independent {P : Type} (D : SimData P) (σ : Schedule)
    (p1 p2 : Nat) (S : SimState P) :
    (pushes (opsDuring S (fullUpdate D σ p1 p2 S))).Perm
      (pushes (opsDuring S (fullUpdate D Schedule.fifo p1 p2 S))) ∧
    (∀ owner, ((fullUpdate D σ p1 p2 S).pel owner).Perm
      ((fullUpdate D Schedule.fifo p1 p2 S).pel owner)) ∧
    (fullUpdate D σ p1 p2 S).vParticleList = (fullUpdate D Schedule.fifo p1 p2 S).vParticleList ∧
    (fullUpdate D σ p1 p2 S).eventCount = (fullUpdate D Schedule.fifo p1 p2 S).eventCount := by
  have hp : (pushes (fullUpdateOps D σ p1 p2 S)).Perm
      (pushes (fullUpdateOps D Schedule.fifo p1 p2 S)) :=
    (pushes_fullUpdateOps_perm D σ p1 p2 S).trans
      (pushes_fullUpdateOps_perm D Schedule.fifo p1 p2 S).symm
  refine ⟨?_, ?_, ?_, ?_⟩
  · rw [opsDuring_fullUpdate, opsDuring_fullUpdate]
    exact hp
  · intro owner
    rw [fullUpdate_pel, fullUpdate_pel]
    exact List.Perm.append_left _ (pushedFor_perm_of_pushes_perm owner hp)
  · rw [fullUpdate_eq, fullUpdate_eq]
  · rw [fullUpdate_eq, fullUpdate_eq]

/-! ## The single-particle update, the initial pass and the frame of the update -/

theorem opsDuring_of_trace {P : Type} (S S1 : SimState P) (ops : List Op)
    (h : S1.trace = S.trace ++ ops) : opsDuring S S1 = ops := by
  simp [opsDuring, h]

theorem callerOnly_refl {P : Type} (S : SimState P) : CallerOnly S S :=
  ⟨rfl, [], by simp, rfl⟩

theorem callerOnly_trans {P : Type} {S S1 S2 : SimState P} (h1 : CallerOnly S S1)
    (h2 : CallerOnly S1 S2) : CallerOnly S S2 := by
  obtain ⟨q1, ops1, t1, a1⟩ := h1
  obtain ⟨q2, ops2, t2, a2⟩ := h2
  refine ⟨q2.trans q1, ops1 ++ ops2, ?_, ?_⟩
  · rw [t2, t1, List.append_assoc]
  · rw [List.all_append, a1, a2]; rfl

theorem callerOnly_foldl {P β : Type} (f : SimState P → β → SimState P)
    (hf : ∀ s b, CallerOnly s (f s b)) (l : List β) (S : SimState P) :
    CallerOnly S (l.foldl f S) := by
  induction l generalizing S with
  | nil => exact callerOnly_refl S
  | cons b l ih => exact callerOnly_trans (hf S b) (ih (f S b))

theorem callerOnly_updateParticle {P : Type} (D : SimData P) (id : Nat) (S : SimState P) :
    CallerOnly S (updateParticle D id S) :=
  ⟨rfl, [Op.updateParticle id], rfl, rfl⟩

theorem callerOnly_record {P : Type} (o : Op) (ho : o.onCallingThread = true)
    (S : SimState P) : CallerOnly S (record o S) :=
  ⟨rfl, [o], rfl, by simp [ho]⟩

theorem callerOnly_push {P : Type} (ev : intPart) (owner : Nat) (S : SimState P) :
    CallerOnly S (push ev owner none false S) :=
  ⟨rfl, [Op.push ev owner none false], rfl, rfl⟩

theorem callerOnly_addEvents2 {P : Type} (D : SimData P) (part id : Nat) (S : SimState P) :
    CallerOnly S (addEvents2 D part id S) := by
  unfold addEvents2
  dsimp only
  by_cases h : (D.getEvent (particle S part) (particle S id)).type ≠ EEventType.NONE
  · rw [if_pos h]
    exact callerOnly_trans (callerOnly_record (Op.getEvent part id) rfl S)
      (callerOnly_push _ _ _)
  · rw [if_neg h]
    exact callerOnly_record (Op.getEvent part id) rfl S

theorem callerOnly_addLocalEvent {P : Type} (D : SimData P) (part id : Nat)
    (S : SimState P) : CallerOnly S (addLocalEvent D part id S) := by
  unfold addLocalEvent
  split
  · exact callerOnly_push _ _ _
  · exact callerOnly_refl S

theorem callerOnly_globalLoop {P : Type} (D : SimData P) (part : Nat) (l : List Nat)
    (S : SimState P) :
    CallerOnly S (l.foldl
      (fun s glob =>
        if (D.globals glob).isInteraction (particle s part) then
          push (intPart.global ((D.globals glob).getEvent (particle s part))) part none false s
        else s) S) := by
  apply callerOnly_foldl
  intro s b
  dsimp only
  by_cases h : (D.globals b).isInteraction (particle s part) = true
  · rw [if_pos h]
    exact callerOnly_push _ _ _
  · rw [if_neg h]
    exact callerOnly_refl s

theorem callerOnly_addEvents {P : Type} (D : SimData P) (part : Nat) (S : SimState P) :
    CallerOnly S (addEvents D part S) := by
  unfold addEvents getParticleLocalNeighbourhood getParticleNeighbourhood
  dsimp only
  refine callerOnly_trans ?_
    (callerOnly_foldl _ (fun s b => callerOnly_addEvents2 D part b s) _ _)
  refine callerOnly_trans ?_ (callerOnly_record (Op.getParticleNeighbourhood part) rfl _)
  refine callerOnly_trans ?_
    (callerOnly_foldl _ (fun s b => callerOnly_updateParticle D b s) _ _)
  refine callerOnly_trans ?_ (callerOnly_record (Op.getParticleNeighbourhood part) rfl _)
  refine callerOnly_trans ?_
    (callerOnly_foldl _ (fun s b => callerOnly_addLocalEvent D part b s) _ _)
  refine callerOnly_trans ?_
    (callerOnly_record (Op.getParticleLocalNeighbourhood part) rfl _)
  exact callerOnly_trans (callerOnly_updateParticle D part S)
    (callerOnly_globalLoop D part _ _)

theorem callerOnly_addEventsInit {P : Type} (D : SimData P) (part : Nat) (S : SimState P) :
    CallerOnly S (addEventsInit D part S) := by
  unfold addEventsInit getParticleLocalNeighbourhood getParticleNeighbourhood
  dsimp only
  refine callerOnly_trans ?_
    (callerOnly_foldl _ (fun s b =>
      callerOnly_trans (callerOnly_updateParticle D b s)
        (callerOnly_addEvents2 D part b (updateParticle D b s))) _ _)
  refine callerOnly_trans ?_ (callerOnly_record (Op.getParticleNeighbourhood part) rfl _)
  refine callerOnly_trans ?_
    (callerOnly_foldl _ (fun s b => callerOnly_addLocalEvent D part b s) _ _)
  refine callerOnly_trans ?_
    (callerOnly_record (Op.getParticleLocalNeighbourhood part) rfl _)
  exact callerOnly_trans (callerOnly_updateParticle D part S)
    (callerOnly_globalLoop D part _ _)

theorem callerOnly_fullUpdatePart {P : Type} (D : SimData P) (part : Nat) (S : SimState P) :
    CallerOnly S (fullUpdatePart D part S) := by
  unfold fullUpdatePart sort invalidateEvents update
  have h1 : CallerOnly S (incEventCount part S) := ⟨rfl, [Op.incEventCount part], rfl, rfl⟩
  have h2 : CallerOnly (incEventCount part S) (clearPEL part (incEventCount part S)) :=
    ⟨rfl, [Op.clearPEL part], rfl, rfl⟩
  exact callerOnly_trans (callerOnly_trans (callerOnly_trans h1 h2)
    (callerOnly_addEvents D part _)) (callerOnly_record (Op.update part) rfl _)

theorem callerOnly_opsDuring {P : Type} {S S1 : SimState P} (h : CallerOnly S S1) :
    (opsDuring S S1).all Op.onCallingThread = true ∧ S1.poolQueue = S.poolQueue := by
  obtain ⟨q, ops, t, a⟩ := h
  rw [opsDuring_of_trace S S1 ops t]
  exact ⟨a, q⟩

theorem pushedFor_eq_nil_of_no_push (owner : Nat) (ops : List Op)
    (h : ∀ ev hd b, Op.push ev owner hd b ∉ ops) : pushedFor owner ops = [] := by
  induction ops with
  | nil => rfl
  | cons o ops ih =>
    have hops : ∀ ev hd b, Op.push ev owner hd b ∉ ops :=
      fun ev hd b hm => h ev hd b (List.mem_cons_of_mem _ hm)
    cases o with
    | push ev w hd b =>
      by_cases hw : w = owner
      · subst hw
        exact absurd (List.mem_cons_self _ _) (h ev hd b)
      · simp only [pushedFor, hw, if_false]
        exact ih hops
    | getParticleNeighbourhood _ => simpa [pushedFor] using ih hops
    | getParticleLocalNeighbourhood _ => simpa [pushedFor] using ih hops
    | updateParticle _ => simpa [pushedFor] using ih hops
    | incEventCount _ => simpa [pushedFor] using ih hops
    | clearPEL _ => simpa [pushedFor] using ih hops
    | queue _ => simpa [pushedFor] using ih hops
    | getEvent _ _ => simpa [pushedFor] using ih hops
    | wait => simpa [pushedFor] using ih hops
    | update _ => simpa [pushedFor] using ih hops

theorem fullUpdate_push_owner {P : Type} (D : SimData P) (σ : Schedule) (p1 p2 : Nat)
    (S : SimState P) (hidle : S.poolQueue = []) (ev : intPart) (w : Nat) (h : Option Lock)
    (b : Bool) (ho : Op.push ev w h b ∈ fullUpdateOps D σ p1 p2 S) : w = p1 ∨ w = p2 := by
  obtain ⟨t, ht, hw, _, _⟩ := mem_fullUpdateOps_push D σ p1 p2 S ev w h b ho
  rw [hidle, List.nil_append] at ht
  rcases mem_queuedTasks D p1 p2 _ t ht with ⟨h1, _⟩ | ⟨h1, _⟩
  · exact Or.inl (hw.trans h1)
  · exact Or.inr (hw.trans h1)

/-- C12: with the pool idle at entry, `fullUpdate(p1, p2)` leaves the event list of every
particle other than `p1` and `p2` exactly as it was (so an entry there that names `p1` or `p2`
as partner stays in the sorter); every sorter call it makes (`clearPEL`, `push`, `update`) is
made for `p1` or for `p2`; and the counters of `p1` and `p2` are strictly larger on return, so
a generation number captured from them before the call no longer matches. -/
theorem fullUpdate_frame {P : Type} (D : SimData P) (σ : Schedule) (p1 p2 : Nat)
    (S : SimState P) (hidle : S.poolQueue = []) :
    (∀ owner, owner ≠ p1 → owner ≠ p2 →
      (fullUpdate D σ p1 p2 S).pel owner = S.pel owner) ∧
    (opsDuring S (fullUpdate D σ p1 p2 S)).all (Op.sorterCallFor p1 p2) = true ∧
    (∀ g, g ≤ S.eventCount p1 → g ≠ (fullUpdate D σ p1 p2 S).eventCount p1) ∧
    (∀ g, g ≤ S.eventCount p2 → g ≠ (fullUpdate D σ p1 p2 S).eventCount p2) := by
  have hinc : S.eventCount p1 < (fullUpdate D σ p1 p2 S).eventCount p1 ∧
      S.eventCount p2 < (fullUpdate D σ p1 p2 S).eventCount p2 := by
    rw [fullUpdate_eventCount]
    by_cases h : p1 = p2
    · subst h
      simp only [bumped, Function.update_same]
      exact ⟨by omega, by omega⟩
    · have h' : p2 ≠ p1 := fun e => h e.symm
      simp [bumped, h, h', Function.update_noteq]
  refine ⟨?_, ?_, ?_, ?_⟩
  · intro owner h1 h2
    rw [fullUpdate_pel]
    have hnil : pushedFor owner (fullUpdateOps D σ p1 p2 S) = [] := by
      apply pushedFor_eq_nil_of_no_push
      intro ev hd b hm
      rcases fullUpdate_push_owner D σ p1 p2 S hidle ev owner hd b hm with h | h
      · exact h1 h
      · exact h2 h
    simp [h1, h2, hnil]
  · rw [opsDuring_fullUpdate, List.all_eq_true]
    intro o ho
    cases o with
    | push ev w hd b =>
      rcases fullUpdate_push_owner D σ p1 p2 S hidle ev w hd b ho with h | h <;>
        simp [Op.sorterCallFor, h]
    | clearPEL i =>
      simp only [fullUpdateOps, List.mem_append, List.mem_flatMap] at ho
      rcases ho with ((ho | ho) | ⟨t, _, ho⟩) | ho
      · simp only [prepareOps, List.mem_append, List.mem_cons, List.mem_map,
          List.mem_singleton, List.not_mem_nil, or_false] at ho
        rcases ho with (((h | h | h | h) | ⟨_, _, h⟩) | ⟨_, _, h⟩) | (h | h | h | h) <;>
          simp at h <;> simp [Op.sorterCallFor, h]
      · rcases mem_queueOps D p1 p2 _ _ ho with ⟨_, h⟩ | ⟨_, h⟩ <;> simp at h
      · rcases mem_taskOps D _ _ t _ ho with ⟨_, _, h⟩ | ⟨_, _, h⟩ <;> simp at h
      · simp at ho
    | update i =>
      simp only [fullUpdateOps, List.mem_append, List.mem_flatMap] at ho
      rcases ho with ((ho | ho) | ⟨t, _, ho⟩) | ho
      · simp [prepareOps] at ho
      · rcases mem_queueOps D p1 p2 _ _ ho with ⟨_, h⟩ | ⟨_, h⟩ <;> simp at h
      · rcases mem_taskOps D _ _ t _ ho with ⟨_, _, h⟩ | ⟨_, _, h⟩ <;> simp at h
      · simp only [List.mem_cons, List.mem_singleton, List.not_mem_nil, or_false] at ho
        rcases ho with h | h | h
        · simp at h
        · simp only [Op.update.injEq] at h; simp [Op.sorterCallFor, h]
        · simp only [Op.update.injEq] at h; simp [Op.sorterCallFor, h]
    | _ => rfl
  · intro g hg
    have := hinc.1
    omega
  · intro g hg
    have := hinc.2
    omega

/-- C12, at a concrete input: the demonstration system, particles 0 and 1, tasks run in
reverse queue order. -/
theorem fullUpdate_frame_witness :
    demoState.poolQueue = [] ∧
    ((∀ owner, owner ≠ 0 → owner ≠ 1 →
      (fullUpdate demoSim Schedule.lifo 0 1 demoState).pel owner = demoState.pel owner) ∧
    (opsDuring demoState (fullUpdate demoSim Schedule.lifo 0 1 demoState)).all
      (Op.sorterCallFor 0 1) = true ∧
    (∀ g, g ≤ demoState.eventCount 0 →
      g ≠ (fullUpdate demoSim Schedule.lifo 0 1 demoState).eventCount 0) ∧
    (∀ g, g ≤ demoState.eventCount 1 →
      g ≠ (fullUpdate demoSim Schedule.lifo 0 1 demoState).eventCount 1)) :=
  ⟨rfl, fullUpdate_frame demoSim Schedule.lifo 0 1 demoState rfl⟩

/-- C13: `addEvents`, `addEventsInit` and the single-particle `fullUpdate(part)` queue no task
(the queue of the pool is unchanged and no `queue` call is logged) and make every push on the
calling thread, without a mutex; every push of `fullUpdate(p1, p2)` is made by a queued task;
and a task changes neither particle data nor counters nor the queue: its only calls are
`getEvent` and `push`. -/
theorem pool_used_only_by_pair_update {P : Type} (D : SimData P) (σ : Schedule)
    (p1 p2 part : Nat) (S : SimState P) (t : Task) :
    ((opsDuring S (addEvents D part S)).all Op.onCallingThread = true ∧
      (addEvents D part S).poolQueue = S.poolQueue) ∧
    ((opsDuring S (addEventsInit D part S)).all Op.onCallingThread = true ∧
      (addEventsInit D part S).poolQueue = S.poolQueue) ∧
    ((opsDuring S (fullUpdatePart D part S)).all Op.onCallingThread = true ∧
      (fullUpdatePart D part S).poolQueue = S.poolQueue) ∧
    (opsDuring S (fullUpdate D σ p1 p2 S)).all Op.pushInTask = true ∧
    ((runTask D S t).vParticleList = S.vParticleList ∧
      (runTask D S t).eventCount = S.eventCount ∧
      (runTask D S t).poolQueue = S.poolQueue ∧
      (opsDuring S (runTask D S t)).all (fun o => o.isGetEvent || o.isPush) = true) := by
  refine ⟨callerOnly_opsDuring (callerOnly_addEvents D part S),
    callerOnly_opsDuring (callerOnly_addEventsInit D part S),
    callerOnly_opsDuring (callerOnly_fullUpdatePart D part S), ?_, ?_⟩
  · rw [opsDuring_fullUpdate, List.all_eq_true]
    intro o ho
    cases o with
    | push ev w hd b =>
      obtain ⟨_, _, _, _, hb⟩ := mem_fullUpdateOps_push D σ p1 p2 S ev w hd b ho
      simp [Op.pushInTask, hb]
    | _ => rfl
  · rw [opsDuring_runTask, runTask_eq]
    refine ⟨rfl, rfl, ?_, ?_⟩
    · have hq := queuedIn_taskOps D S.vParticleList S.eventCount [t]
      simp only [List.flatMap_cons, List.flatMap_nil, List.append_nil] at hq
      simp [logOps, hq]
    · rw [List.all_eq_true]
      intro o ho
      rcases mem_taskOps D _ _ t o ho with ⟨_, _, rfl⟩ | ⟨_, _, rfl⟩ <;> rfl

/-! ## The rough wall -/

theorem notifyPlugins_eq {W E G : Type} (env : WallSim W E G) (iEvent : LocalEvent) (EDat : E)
    (i : Nat) (gs : List G) :
    notifyPlugins env iEvent EDat i gs =
      (gs.map (env.eventUpdate iEvent EDat),
        (List.range gs.length).map (fun k => WallOp.eventUpdate (i + k) iEvent EDat)) := by
  induction gs generalizing i with
  | nil => rfl
  | cons g gs ih =>
    simp only [notifyPlugins, ih, List.map_cons, List.length_cons, List.range_succ_eq_map,
      List.map_map, Nat.add_zero]
    congr 2
    apply List.map_congr_left
    intro k _
    simp only [Function.comp_apply]
    congr 1
    omega

theorem runEvent_trace {W E G : Type} (env : WallSim W E G) (wall : LRoughWall) (part : Nat)
    (iEvent : LocalEvent) (S : WallState W E G) :
    wallOpsDuring S (LRoughWall.runEvent env wall part iEvent S) =
      [WallOp.incEventCount, WallOp.runRoughWallCollision part,
        WallOp.signalParticleUpdate (env.runRoughWallCollision wall part S.world).2,
        WallOp.fullUpdate part] ++
      (List.range S.outputPlugins.length).map (fun k =>
        WallOp.eventUpdate k iEvent (env.runRoughWallCollision wall part S.world).2) := by
  simp [wallOpsDuring, LRoughWall.runEvent, notifyPlugins_eq]

/-- C16: `LRoughWall::runEvent(part, iEvent)` calls, after the scheduler's `fullUpdate(part)`
and as its last calls, `eventUpdate(iEvent, EDat)` on every output plugin exactly once, in list
order, where `EDat` is the event data that `runRoughWallCollision` returned in this call; on
return every plugin is the plugin after that one notification. -/
theorem runEvent_notifies_plugins {W E G : Type} (env : WallSim W E G) (wall : LRoughWall)
    (part : Nat) (iEvent : LocalEvent) (S : WallState W E G) :
    wallOpsDuring S (LRoughWall.runEvent env wall part iEvent S) =
      [WallOp.incEventCount, WallOp.runRoughWallCollision part,
        WallOp.signalParticleUpdate (env.runRoughWallCollision wall part S.world).2,
        WallOp.fullUpdate part] ++
      (List.range S.outputPlugins.length).map (fun k =>
        WallOp.eventUpdate k iEvent (env.runRoughWallCollision wall part S.world).2) ∧
    (LRoughWall.runEvent env wall part iEvent S).outputPlugins =
      S.outputPlugins.map
        (env.eventUpdate iEvent (env.runRoughWallCollision wall part S.world).2) := by
  refine ⟨runEvent_trace env wall part iEvent S, ?_⟩
  simp [LRoughWall.runEvent, notifyPlugins_eq]

/-- C17: `LRoughWall::runEvent(part, iEvent)` calls the scheduler's `fullUpdate` exactly once,
for `part`; the call comes directly after `runRoughWallCollision(part, ...)` and
`signalParticleUpdate(EDat)`, and none of these three calls is made again after it; the
simulation state on return is the one `fullUpdate(part)` produced from the state after the
collision and the signal. -/
theorem runEvent_updates_scheduler_once {W E G : Type} (env : WallSim W E G)
    (wall : LRoughWall) (part : Nat) (iEvent : LocalEvent) (S : WallState W E G) :
    (wallOpsDuring S (LRoughWall.runEvent env wall part iEvent S)).filter WallOp.isFullUpdate =
      [WallOp.fullUpdate part] ∧
    (∃ post : List (WallOp E),
      wallOpsDuring S (LRoughWall.runEvent env wall part iEvent S) =
        [WallOp.incEventCount, WallOp.runRoughWallCollision part,
          WallOp.signalParticleUpdate (env.runRoughWallCollision wall part S.world).2,
          WallOp.fullUpdate part] ++ post ∧
      post.all (fun o => !o.isFullUpdate && !o.isCollisionOrSignal) = true) ∧
    (LRoughWall.runEvent env wall part iEvent S).world =
      env.fullUpdate part
        (env.signalParticleUpdate (env.runRoughWallCollision wall part S.world).2
          (env.runRoughWallCollision wall part S.world).1) := by
  have hpost : ∀ o ∈ (List.range S.outputPlugins.length).map (fun k =>
      WallOp.eventUpdate k iEvent (env.runRoughWallCollision wall part S.world).2),
      (!o.isFullUpdate && !o.isCollisionOrSignal) = true := by
    intro o ho
    obtain ⟨k, _, rfl⟩ := List.mem_map.mp ho
    rfl
  refine ⟨?_, ⟨_, runEvent_trace env wall part iEvent S, List.all_eq_true.mpr hpost⟩, ?_⟩
  · rw [runEvent_trace, List.filter_append]
    have hnil : ((List.range S.outputPlugins.length).map (fun k =>
        WallOp.eventUpdate k iEvent (env.runRoughWallCollision wall part S.world).2)).filter
        WallOp.isFullUpdate = [] := by
      apply List.filter_eq_nil_iff.mpr
      intro o ho
      obtain ⟨k, _, rfl⟩ := List.mem_map.mp ho
      simp [WallOp.isFullUpdate]
    rw [hnil]
    simp [List.filter_cons, WallOp.isFullUpdate]
  · simp [LRoughWall.runEvent]

/-- C18, as amended: `LRoughWall::checkOverlaps` returns normally for every particle; when
the signed distance `(position - vPosition) . vNorm`, after boundary conditions, is negative it
writes one "Possible overlap" line to the information stream, and otherwise it writes
nothing. -/
theorem checkOverlaps_reports_and_returns (applyBC : Vector → Vector) (unitLength : Int)
    (wall : LRoughWall) (ID : Nat) (position : Vector) :
    LRoughWall.checkOverlaps applyBC unitLength wall ID position =
      Except.ok
        (if ((applyBC (position.sub wall.vPosition)).dot wall.vNorm) < 0 then
          [⟨(applyBC (position.sub wall.vPosition)).dot wall.vNorm, unitLength, ID,
            wall.vPosition, wall.vNorm⟩]
        else []) := by
  unfold LRoughWall.checkOverlaps
  dsimp only
  split <;> rfl

/-- C18, the claim as stated fails: a particle three units behind the demonstration wall has
signed distance `-3`, and `checkOverlaps` returns normally with one line of output. -/
theorem checkOverlaps_counterexample :
    ((fun v => v) (Vector.sub ⟨0, 0, -3⟩ demoWall.vPosition)).dot demoWall.vNorm = -3 ∧
    LRoughWall.checkOverlaps (fun v => v) 1 demoWall 7 ⟨0, 0, -3⟩ =
      Except.ok [⟨-3, 1, 7, ⟨0, 0, 0⟩, ⟨0, 0, 1⟩⟩] :=
  ⟨by decide, rfl⟩

/-! ## The raw volume loader -/

theorem wrap_eq (v : Int) (h1 : -2 ^ 31 ≤ v) (h2 : v < 2 ^ 31) : GLint.wrap v = v := by
  unfold GLint.wrap
  omega

theorem wrap_modEq (v : Int) : GLint.wrap v ≡ v [ZMOD 2 ^ 32] := by
  unfold Int.ModEq GLint.wrap
  omega

theorem wrap_congr (a b : Int) (h : a ≡ b [ZMOD 2 ^ 32]) : GLint.wrap a = GLint.wrap b := by
  unfold Int.ModEq at h
  unfold GLint.wrap
  omega

theorem toSizeT_eq (v : Int) (h1 : 0 ≤ v) (h2 : v < 2 ^ 31) : GLint.toSizeT v = v := by
  unfold GLint.toSizeT
  omega

/-- The `GLint` product of the dimensions is their product when that is less than `2 ^ 31`. -/
theorem volumeSize_eq (w h d : Nat) (hfit : w * h * d < 2 ^ 31) :
    volumeSize (GLint.wrap w) (GLint.wrap h) (GLint.wrap d) = ((w * h * d : Nat) : Int) := by
  unfold volumeSize
  have e : GLint.wrap (GLint.wrap (GLint.wrap (w : Int) * GLint.wrap (h : Int)) *
      GLint.wrap (d : Int)) = GLint.wrap (((w * h * d : Nat) : Int)) := by
    apply wrap_congr
    have h1 : GLint.wrap (w : Int) * GLint.wrap (h : Int) ≡ (w : Int) * (h : Int)
        [ZMOD 2 ^ 32] := (wrap_modEq _).mul (wrap_modEq _)
    have h2 := ((wrap_modEq _).trans h1).mul (wrap_modEq (d : Int))
    simpa using h2
  rw [e]
  apply wrap_eq <;> omega

/-- The `GLint` product `4 * _width * _height * _depth`, likewise. -/
theorem voldataSize_eq (w h d : Nat) (hfit : 4 * (w * h * d) < 2 ^ 31) :
    voldataSize (GLint.wrap w) (GLint.wrap h) (GLint.wrap d) =
      ((4 * (w * h * d) : Nat) : Int) := by
  unfold voldataSize
  have e : GLint.wrap (GLint.wrap (GLint.wrap (4 * GLint.wrap (w : Int)) *
      GLint.wrap (h : Int)) * GLint.wrap (d : Int)) =
      GLint.wrap (((4 * (w * h * d) : Nat) : Int)) := by
    apply wrap_congr
    have h0 : (4 : Int) * GLint.wrap (w : Int) ≡ 4 * (w : Int) [ZMOD 2 ^ 32] :=
      (Int.ModEq.refl 4).mul (wrap_modEq _)
    have h1 := ((wrap_modEq _).trans h0).mul (wrap_modEq (h : Int))
    have h2 := ((wrap_modEq _).trans h1).mul (wrap_modEq (d : Int))
    have e2 : (((4 * (w * h * d) : Nat) : Int)) = 4 * (w : Int) * (h : Int) * (d : Int) := by
      push_cast
      ring
    rw [e2]
    exact h2
  rw [e]
  apply wrap_eq <;> omega

theorem clamp_bounds (x hi : Int) (h : 0 ≤ hi) : 0 ≤ clamp x 0 hi ∧ clamp x 0 hi ≤ hi := by
  unfold clamp
  omega

theorem index_bounds (cx cy cz width height depth : Int)
    (hx0 : 0 ≤ cx) (hx1 : cx ≤ width - 1) (hy0 : 0 ≤ cy) (hy1 : cy ≤ height - 1)
    (hz0 : 0 ≤ cz) (hz1 : cz ≤ depth - 1) :
    (0 ≤ height * cz ∧ height * cz ≤ width * height * depth) ∧
    (0 ≤ cy + height * cz ∧ cy + height * cz ≤ width * height * depth) ∧
    (0 ≤ width * (cy + height * cz) ∧ width * (cy + height * cz) ≤ width * height * depth) ∧
    (0 ≤ cx + width * (cy + height * cz) ∧
      cx + width * (cy + height * cz) < width * height * depth) := by
  have hw : 1 ≤ width := by omega
  have hh : 1 ≤ height := by omega
  have hd : 1 ≤ depth := by omega
  have h1 : 0 ≤ height * cz := mul_nonneg (by omega) hz0
  have h2 : height * cz ≤ height * (depth - 1) := mul_le_mul_of_nonneg_left hz1 (by omega)
  have h3 : 0 ≤ width * (cy + height * cz) := mul_nonneg (by omega) (by omega)
  have h4 : width * (cy + height * cz) ≤ width * (height - 1 + height * (depth - 1)) :=
    mul_le_mul_of_nonneg_left (by omega) (by omega)
  have h5 : width * (height - 1 + height * (depth - 1)) = width * height * depth - width := by
    ring
  have h6 : 1 * (height * depth) ≤ width * (height * depth) :=
    mul_le_mul_of_nonneg_right hw (mul_nonneg (by omega) (by omega))
  have h7 : width * (height * depth) = width * height * depth := by ring
  have h8 : height * (depth - 1) = height * depth - height := by ring
  refine ⟨⟨h1, by omega⟩, ⟨by omega, by omega⟩, ⟨h3, by omega⟩, ⟨by omega, by omega⟩⟩

/-- Without overflow the wrapped index expression is the exact one. -/
theorem index_no_overflow (cx cy cz width height depth : Int)
    (hx0 : 0 ≤ cx) (hx1 : cx ≤ width - 1) (hy0 : 0 ≤ cy) (hy1 : cy ≤ height - 1)
    (hz0 : 0 ≤ cz) (hz1 : cz ≤ depth - 1) (hfit : width * height * depth < 2 ^ 31) :
    GLint.toSizeT (GLint.wrap (cx + GLint.wrap (width * GLint.wrap (cy +
      GLint.wrap (height * cz))))) = cx + width * (cy + height * cz) := by
  obtain ⟨⟨a1, a2⟩, ⟨b1, b2⟩, ⟨c1, c2⟩, ⟨d1, d2⟩⟩ :=
    index_bounds cx cy cz width height depth hx0 hx1 hy0 hy1 hz0 hz1
  rw [wrap_eq (height * cz) (by omega) (by omega)]
  rw [wrap_eq (cy + height * cz) (by omega) (by omega)]
  rw [wrap_eq (width * (cy + height * cz)) (by omega) (by omega)]
  rw [wrap_eq (cx + width * (cy + height * cz)) (by omega) (by omega)]
  exact toSizeT_eq _ d1 (by omega)

theorem dims_lt (width height depth : Int) (hw : 1 ≤ width) (hh : 1 ≤ height)
    (hd : 1 ≤ depth) (hfit : width * height * depth < 2 ^ 31) :
    width < 2 ^ 31 ∧ height < 2 ^ 31 ∧ depth < 2 ^ 31 := by
  have h1 : 1 * 1 ≤ height * depth := mul_le_mul hh hd (by omega) (by omega)
  have h2 : width * 1 ≤ width * (height * depth) :=
    mul_le_mul_of_nonneg_left (by omega) (by omega)
  have h3 : 1 * 1 ≤ width * depth := mul_le_mul hw hd (by omega) (by omega)
  have h4 : height * 1 ≤ height * (width * depth) :=
    mul_le_mul_of_nonneg_left (by omega) (by omega)
  have h5 : 1 * 1 ≤ width * height := mul_le_mul hw hh (by omega) (by omega)
  have h6 : depth * 1 ≤ depth * (width * height) :=
    mul_le_mul_of_nonneg_left (by omega) (by omega)
  have e1 : width * (height * depth) = width * height * depth := by ring
  have e2 : height * (width * depth) = width * height * depth := by ring
  have e3 : depth * (width * height) = width * height * depth := by ring
  refine ⟨by omega, by omega, by omega⟩

theorem coordCalc_eq (x y z width height depth : Int)
    (hw : 1 ≤ width) (hh : 1 ≤ height) (hd : 1 ≤ depth)
    (hfit : width * height * depth < 2 ^ 31) :
    detail.coordCalc x y z width height depth =
      clamp x 0 (width - 1) + width * (clamp y 0 (height - 1) +
        height * clamp z 0 (depth - 1)) := by
  obtain ⟨l1, l2, l3⟩ := dims_lt width height depth hw hh hd hfit
  have hx := clamp_bounds x (width - 1) (by omega)
  have hy := clamp_bounds y (height - 1) (by omega)
  have hz := clamp_bounds z (depth - 1) (by omega)
  unfold detail.coordCalc
  simp only
  rw [wrap_eq (width - 1) (by omega) (by omega), wrap_eq (height - 1) (by omega) (by omega),
    wrap_eq (depth - 1) (by omega) (by omega)]
  exact index_no_overflow _ _ _ width height depth hx.1 hx.2 hy.1 hy.2 hz.1 hz.2 hfit

theorem coordCalc_bounds (x y z width height depth : Int)
    (hw : 1 ≤ width) (hh : 1 ≤ height) (hd : 1 ≤ depth)
    (hfit : width * height * depth < 2 ^ 31) :
    0 ≤ detail.coordCalc x y z width height depth ∧
      detail.coordCalc x y z width height depth < width * height * depth := by
  rw [coordCalc_eq x y z width height depth hw hh hd hfit]
  have hx := clamp_bounds x (width - 1) (by omega)
  have hy := clamp_bounds y (height - 1) (by omega)
  have hz := clamp_bounds z (depth - 1) (by omega)
  exact (index_bounds _ _ _ width height depth hx.1 hx.2 hy.1 hy.2 hz.1 hz.2).2.2.2

theorem sampleAt_isSome (inbuffer : List Nat) (x y z width height depth : Int)
    (hw : 1 ≤ width) (hh : 1 ≤ height) (hd : 1 ≤ depth)
    (hfit : width * height * depth < 2 ^ 31)
    (hlen : (inbuffer.length : Int) = width * height * depth) :
    (sampleAt inbuffer x y z width height depth).isSome = true := by
  have hb := coordCalc_bounds x y z width height depth hw hh hd hfit
  unfold sampleAt
  have hlt : (detail.coordCalc x y z width height depth).toNat < inbuffer.length := by
    omega
  rw [List.getElem?_eq_getElem hlt]
  rfl

theorem writeAt_some (voldata : List Nat) (k : Int) (val : Nat) (h0 : 0 ≤ k)
    (h : k < voldata.length) :
    ∃ v1, writeAt voldata k val = some v1 ∧ v1.length = voldata.length := by
  have hlt : k.toNat < voldata.length := by omega
  exact ⟨voldata.set k.toNat val, by simp [writeAt, hlt], by simp⟩

theorem forLoop_inv {α β : Type} (body : β → α → Option β) (P : β → Prop) (l : List α)
    (b : β) (hb : P b) (h : ∀ a ∈ l, ∀ b, P b → ∃ b1, body b a = some b1 ∧ P b1) :
    ∃ r, forLoop body l b = some r ∧ P r := by
  induction l generalizing b with
  | nil => exact ⟨b, rfl, hb⟩
  | cons a as ih =>
    obtain ⟨b1, e1, p1⟩ := h a (List.mem_cons_self a as) b hb
    obtain ⟨r, er, pr⟩ := ih b1 p1 (fun a1 ha1 => h a1 (List.mem_cons_of_mem a ha1))
    exact ⟨r, by simp only [forLoop, e1, er], pr⟩

theorem forLoop_head_none {α β : Type} (body : β → α → Option β) (a : α) (as : List α) (b : β)
    (h : body b a = none) : forLoop body (a :: as) b = none := by
  simp only [forLoop, h]

/-- Without overflow the body of the innermost loop reads and writes inside the vectors. -/
theorem writeVoxel_some (encodeGrad : Vector → Nat × Nat × Nat) (inbuffer : List Nat)
    (width height depth : Int) (voldata : List Nat) (x y z : Nat)
    (hw : 1 ≤ width) (hh : 1 ≤ height) (hd : 1 ≤ depth)
    (hfit : 4 * (width * height * depth) < 2 ^ 31)
    (hlen : (inbuffer.length : Int) = width * height * depth)
    (hvol : (voldata.length : Int) = 4 * (width * height * depth))
    (hx : (x : Int) < width) (hy : (y : Int) < height) (hz : (z : Int) < depth) :
    ∃ v1, writeVoxel encodeGrad inbuffer width height depth voldata x y z = some v1 ∧
      v1.length = voldata.length := by
  have hpos : 0 ≤ width * height * depth := by positivity
  have hfit1 : width * height * depth < 2 ^ 31 := by omega
  have hs : ∀ a b c : Int, ∃ v, sampleAt inbuffer a b c width height depth = some v :=
    fun a b c => Option.isSome_iff_exists.mp
      (sampleAt_isSome inbuffer a b c width height depth hw hh hd hfit1 hlen)
  obtain ⟨a1, e1⟩ := hs (GLint.wrap (x - 1)) y z
  obtain ⟨a2, e2⟩ := hs x (GLint.wrap (y - 1)) z
  obtain ⟨a3, e3⟩ := hs x y (GLint.wrap (z - 1))
  obtain ⟨b1, e4⟩ := hs (GLint.wrap (x + 1)) y z
  obtain ⟨b2, e5⟩ := hs x (GLint.wrap (y + 1)) z
  obtain ⟨b3, e6⟩ := hs x y (GLint.wrap (z + 1))
  obtain ⟨c, e7⟩ := hs x y z
  have hc := index_no_overflow x y z width height depth (by omega) (by omega) (by omega)
    (by omega) (by omega) (by omega) hfit1
  obtain ⟨_, _, _, ⟨c0, c1⟩⟩ := index_bounds x y z width height depth (by omega) (by omega)
    (by omega) (by omega) (by omega) (by omega)
  unfold writeVoxel
  simp only [e1, e2, e3, e4, e5, e6, e7, hc]
  generalize (x : Int) + width * ((y : Int) + height * (z : Int)) = coord at c0 c1
  generalize encodeGrad _ = grad
  obtain ⟨v1, w1, l1⟩ := writeAt_some voldata ((4 * coord + 0) % 2 ^ 64) grad.1 (by omega)
    (by omega)
  obtain ⟨v2, w2, l2⟩ := writeAt_some v1 ((4 * coord + 1) % 2 ^ 64) grad.2.1 (by omega)
    (by omega)
  obtain ⟨v3, w3, l3⟩ := writeAt_some v2 ((4 * coord + 2) % 2 ^ 64) grad.2.2 (by omega)
    (by omega)
  obtain ⟨v4, w4, l4⟩ := writeAt_some v3 ((4 * coord + 3) % 2 ^ 64) c (by omega) (by omega)
  exact ⟨v4, by simp only [w1, w2, w3, w4], by omega⟩

/-- Without overflow the three loops fill `voldata` without leaving the vectors. -/
theorem fillVoldata_some (encodeGrad : Vector → Nat × Nat × Nat) (inbuffer : List Nat)
    (width height depth : Int) (voldata : List Nat)
    (hw : 1 ≤ width) (hh : 1 ≤ height) (hd : 1 ≤ depth)
    (hfit : 4 * (width * height * depth) < 2 ^ 31)
    (hlen : (inbuffer.length : Int) = width * height * depth)
    (hvol : (voldata.length : Int) = 4 * (width * height * depth)) :
    ∃ v1, fillVoldata encodeGrad inbuffer width height depth voldata = some v1 ∧
      (v1.length : Int) = 4 * (width * height * depth) := by
  unfold fillVoldata
  refine forLoop_inv _ (fun v : List Nat => (v.length : Int) = 4 * (width * height * depth)) _ _ hvol ?_
  intro z hz vz pz
  refine forLoop_inv _ (fun v : List Nat => (v.length : Int) = 4 * (width * height * depth)) _ _ pz ?_
  intro y hy vy py
  refine forLoop_inv _ (fun v : List Nat => (v.length : Int) = 4 * (width * height * depth)) _ _ py ?_
  intro x hx vx px
  rw [List.mem_range] at hx hy hz
  obtain ⟨v1, e, l⟩ := writeVoxel_some encodeGrad inbuffer width height depth vx x y z hw hh hd
    hfit hlen px (by omega) (by omega) (by omega)
  exact ⟨v1, e, by omega⟩

/-- With an empty `inbuffer` and dimensions of at least 1 the first read is outside the
vector. -/
theorem fillVoldata_nil (encodeGrad : Vector → Nat × Nat × Nat) (width height depth : Int)
    (voldata : List Nat) (hw : 1 ≤ width) (hh : 1 ≤ height) (hd : 1 ≤ depth) :
    fillVoldata encodeGrad [] width height depth voldata = none := by
  have hv : ∀ (vol : List Nat) (x y z : Int),
      writeVoxel encodeGrad [] width height depth vol x y z = none := by
    intro vol x y z
    simp [writeVoxel, sampleAt]
  obtain ⟨nw, enw⟩ : ∃ n, width.toNat = n + 1 := ⟨width.toNat - 1, by omega⟩
  obtain ⟨nh, enh⟩ : ∃ n, height.toNat = n + 1 := ⟨height.toNat - 1, by omega⟩
  obtain ⟨nd, end_⟩ : ∃ n, depth.toNat = n + 1 := ⟨depth.toNat - 1, by omega⟩
  unfold fillVoldata
  rw [enw, enh, end_]
  simp only [List.range_succ_eq_map]
  apply forLoop_head_none
  apply forLoop_head_none
  apply forLoop_head_none
  exact hv _ _ _ _

theorem load_of_buffer (encodeGrad : Vector → Nat × Nat × Nat) (file : Option (List Nat))
    (tex : Texture3D) (bytes : Nat)
    (hsize : 0 ≤ volumeSize (GLint.wrap tex.width) (GLint.wrap tex.height)
      (GLint.wrap tex.depth)) (hb : bytes ≠ 1) (hb2 : bytes ≠ 2) :
    loadVolumeFromRawFile encodeGrad file tex bytes =
      (tex, Outcome.threw "Cannot load at that bit depth yet") := by
  unfold loadVolumeFromRawFile
  simp only [not_lt.mpr hsize, if_false]

theorem load_short (encodeGrad : Vector → Nat × Nat × Nat) (file : Option (List Nat))
    (tex : Texture3D) (bytes : Nat)
    (hfit : tex.width * tex.height * tex.depth < 2 ^ 31) (hb : bytes = 1 ∨ bytes = 2)
    (hread : readBytes file (tex.width * tex.height * tex.depth * bytes) = none) :
    loadVolumeFromRawFile encodeGrad file tex bytes =
      (tex, Outcome.threw "Failed to load the texture from the file") := by
  have hs := volumeSize_eq tex.width tex.height tex.depth hfit
  unfold loadVolumeFromRawFile
  simp only [hs]
  have hn : ¬ (((tex.width * tex.height * tex.depth : Nat) : Int) < 0) := by omega
  simp only [hn, if_false, Int.toNat_ofNat]
  rcases hb with rfl | rfl
  · rw [Nat.mul_one] at hread
    simp only [hread]
  · rw [Nat.mul_comm] at hread
    simp only [hread]

theorem load_enough (encodeGrad : Vector → Nat × Nat × Nat) (bs : List Nat)
    (tex : Texture3D) (bytes : Nat)
    (hw : 1 ≤ tex.width) (hh : 1 ≤ tex.height) (hd : 1 ≤ tex.depth)
    (hfit : 4 * (tex.width * tex.height * tex.depth) < 2 ^ 31) (hb : bytes = 1 ∨ bytes = 2)
    (hlen : tex.width * tex.height * tex.depth * bytes ≤ bs.length) :
    ∃ voldata, loadVolumeFromRawFile encodeGrad (some bs) tex bytes =
      ({ tex with image := some voldata }, Outcome.returned) := by
  have hfit1 : tex.width * tex.height * tex.depth < 2 ^ 31 := by omega
  have hfitI : (tex.width : Int) * tex.height * tex.depth < 2 ^ 31 := by exact_mod_cast hfit1
  have hfit4 : 4 * ((tex.width : Int) * tex.height * tex.depth) < 2 ^ 31 := by
    exact_mod_cast hfit
  have hwI : 1 ≤ (tex.width : Int) := by omega
  have hhI : 1 ≤ (tex.height : Int) := by omega
  have hdI : 1 ≤ (tex.depth : Int) := by omega
  obtain ⟨l1, l2, l3⟩ := dims_lt tex.width tex.height tex.depth hwI hhI hdI hfitI
  have ew : GLint.wrap (tex.width : Int) = tex.width := wrap_eq _ (by omega) l1
  have eh : GLint.wrap (tex.height : Int) = tex.height := wrap_eq _ (by omega) l2
  have ed : GLint.wrap (tex.depth : Int) = tex.depth := wrap_eq _ (by omega) l3
  have hn : ¬ (((tex.width * tex.height * tex.depth : Nat) : Int) < 0) := by omega
  have hn4 : ¬ (((4 * (tex.width * tex.height * tex.depth) : Nat) : Int) < 0) := by omega
  have ht : (((4 * (tex.width * tex.height * tex.depth) : Nat) : Int)).toNat =
      4 * (tex.width * tex.height * tex.depth) := Int.toNat_natCast _
  have hfill : ∀ inbuffer : List Nat, inbuffer.length = tex.width * tex.height * tex.depth →
      ∃ v1, fillVoldata encodeGrad inbuffer tex.width tex.height tex.depth
        (List.replicate (4 * (tex.width * tex.height * tex.depth)) 0) = some v1 := by
    intro inbuffer hl
    have h1 : (inbuffer.length : Int) = (tex.width : Int) * tex.height * tex.depth := by
      rw [hl]
      push_cast
      ring
    have h2 : ((List.replicate (4 * (tex.width * tex.height * tex.depth)) 0).length : Int) =
        4 * ((tex.width : Int) * tex.height * tex.depth) := by
      rw [List.length_replicate]
      push_cast
      ring
    obtain ⟨v1, e, _⟩ := fillVoldata_some encodeGrad inbuffer tex.width tex.height tex.depth
      (List.replicate (4 * (tex.width * tex.height * tex.depth)) 0) hwI hhI hdI hfit4 h1 h2
    exact ⟨v1, e⟩
  have hle1 : bytes = 1 → tex.width * tex.height * tex.depth ≤ bs.length := by
    intro h
    rw [h] at hlen
    omega
  have hle2 : bytes = 2 → 2 * (tex.width * tex.height * tex.depth) ≤ bs.length := by
    intro h
    rw [h] at hlen
    omega
  have hs := volumeSize_eq tex.width tex.height tex.depth hfit1
  have hv := voldataSize_eq tex.width tex.height tex.depth hfit
  rw [ew, eh, ed] at hv
  unfold loadVolumeFromRawFile
  simp only [hs, hn, if_false, Int.toNat_ofNat]
  rcases hb with rfl | rfl
  · have hle := hle1 rfl
    obtain ⟨v1, e⟩ := hfill (bs.take (tex.width * tex.height * tex.depth))
      (by simp [hle])
    exact ⟨v1, by simp only [readBytes, hle, if_true, hv, hn4, if_false, ht, ew, eh, ed, e]⟩
  · have hle := hle2 rfl
    obtain ⟨v1, e⟩ := hfill (highBytes (bs.take (2 * (tex.width * tex.height * tex.depth)))
        (tex.width * tex.height * tex.depth))
      (by simp [highBytes])
    exact ⟨v1, by simp only [readBytes, hle, if_true, hv, hn4, if_false, ht, ew, eh, ed, e]⟩

/-- When the `GLint` sizes of both vectors are 0 and the dimensions are at least 1, nothing is
thrown and the first read is outside `inbuffer`. -/
theorem load_of_empty (encodeGrad : Vector → Nat × Nat × Nat) (bs : List Nat)
    (tex : Texture3D) (bytes : Nat) (w h d : Int) (ew : GLint.wrap tex.width = w)
    (eh : GLint.wrap tex.height = h) (ed : GLint.wrap tex.depth = d)
    (hw : 1 ≤ w) (hh : 1 ≤ h) (hd : 1 ≤ d)
    (hs : volumeSize w h d = 0) (hv : voldataSize w h d = 0) (hb : bytes = 1) :
    loadVolumeFromRawFile encodeGrad (some bs) tex bytes = (tex, Outcome.outOfRange) := by
  have hf := fillVoldata_nil encodeGrad w h d (List.replicate 0 0) hw hh hd
  have hr : readBytes (some bs) 0 = some [] := by simp [readBytes]
  have hn : ¬ ((0 : Int) < 0) := lt_irrefl 0
  unfold loadVolumeFromRawFile
  simp only [ew, eh, ed, hs, hv, hn, if_false, Int.toNat_zero]
  subst hb
  simp only [hr, hf]

theorem load_overflow (encodeGrad : Vector → Nat × Nat × Nat) (bs : List Nat) :
    loadVolumeFromRawFile encodeGrad (some bs) ⟨2048, 2048, 1024, none⟩ 1 =
      (⟨2048, 2048, 1024, none⟩, Outcome.outOfRange) :=
  load_of_empty encodeGrad bs ⟨2048, 2048, 1024, none⟩ 1 2048 2048 1024 (by decide)
    (by decide) (by decide) (by decide) (by decide) (by decide) (by decide) (by decide) rfl

/-- C19: for a texture whose `width * height * depth` is less than `2 ^ 31`,
`loadVolumeFromRawFile` throws, and leaves the texture as it was, when `bytes` is 1 or 2 and
the file cannot be opened or holds fewer than `width * height * depth * bytes` bytes; for any
other value of `bytes` it throws whatever the dimensions; with dimensions of at least 1,
`4 * width * height * depth` less than `2 ^ 31` and enough bytes it returns with the texture
written.  For a texture of 2048 x 2048 x 1024 samples, `bytes = 1` and a file of 100 bytes the
`GLint` product of the dimensions wraps around to 0, the read of 0 bytes does not fail, nothing
is thrown, and the first read of the empty `inbuffer` is outside the vector. -/
theorem loadVolumeFromRawFile_failures (encodeGrad : Vector → Nat × Nat × Nat)
    (file : Option (List Nat)) (bs : List Nat) (tex : Texture3D) (bytes : Nat) :
    (bytes ≠ 1 → bytes ≠ 2 →
      ∃ what, loadVolumeFromRawFile encodeGrad file tex bytes = (tex, Outcome.threw what)) ∧
    (tex.width * tex.height * tex.depth < 2 ^ 31 →
      (bytes ≠ 1 → bytes ≠ 2 →
        loadVolumeFromRawFile encodeGrad file tex bytes =
          (tex, Outcome.threw "Cannot load at that bit depth yet")) ∧
      ((bytes = 1 ∨ bytes = 2) → bs.length < tex.width * tex.height * tex.depth * bytes →
        loadVolumeFromRawFile encodeGrad (some bs) tex bytes =
          (tex, Outcome.threw "Failed to load the texture from the file")) ∧
      ((bytes = 1 ∨ bytes = 2) →
        loadVolumeFromRawFile encodeGrad none tex bytes =
          (tex, Outcome.threw "Failed to load the texture from the file"))) ∧
    (1 ≤ tex.width → 1 ≤ tex.height → 1 ≤ tex.depth →
      4 * (tex.width * tex.height * tex.depth) < 2 ^ 31 → (bytes = 1 ∨ bytes = 2) →
      tex.width * tex.height * tex.depth * bytes ≤ bs.length →
      ∃ voldata, loadVolumeFromRawFile encodeGrad (some bs) tex bytes =
        ({ tex with image := some voldata }, Outcome.returned)) ∧
    loadVolumeFromRawFile encodeGrad (some (List.replicate 100 0)) ⟨2048, 2048, 1024, none⟩ 1 =
      (⟨2048, 2048, 1024, none⟩, Outcome.outOfRange) := by
  refine ⟨?_, ?_, ?_, load_overflow encodeGrad _⟩
  · intro h1 h2
    by_cases hs : 0 ≤ volumeSize (GLint.wrap tex.width) (GLint.wrap tex.height)
        (GLint.wrap tex.depth)
    · exact ⟨_, load_of_buffer encodeGrad file tex bytes hs h1 h2⟩
    · refine ⟨"std::length_error", ?_⟩
      unfold loadVolumeFromRawFile
      simp only [not_le.mp hs, if_true]
  · intro hfit
    refine ⟨?_, ?_, ?_⟩
    · intro h1 h2
      have hs := volumeSize_eq tex.width tex.height tex.depth hfit
      exact load_of_buffer encodeGrad file tex bytes (by rw [hs]; exact Int.natCast_nonneg _)
        h1 h2
    · intro hb hlen
      apply load_short encodeGrad (some bs) tex bytes hfit hb
      simp only [readBytes, not_le.mpr hlen, if_false]
    · intro hb
      exact load_short encodeGrad none tex bytes hfit hb rfl
  · intro hw hh hd hfit hb hlen
    exact load_enough encodeGrad bs tex bytes hw hh hd hfit hb hlen

/-- C20, the code at a failing input: in a volume of 2 x 2 x 2 samples, the coordinates
`(-1, 0, 0)` lie outside the volume, `coordCalc` maps them to index 0, the index of
`(0, 0, 0)`, and the sample obtained is the value 5 stored there, not 0. -/
theorem coordCalc_out_of_volume_sample :
    detail.coordCalc (-1) 0 0 2 2 2 = 0 ∧
    detail.coordCalc (-1) 0 0 2 2 2 = detail.coordCalc 0 0 0 2 2 2 ∧
    sampleAt [5, 6, 7, 8, 9, 10, 11, 12] (-1) 0 0 2 2 2 = some 5 ∧
    sampleAt [5, 6, 7, 8, 9, 10, 11, 12] 2 1 1 2 2 2 = some 12 := by
  decide

/-! ## The event sorter -/

theorem SorterEvent.le_total (a b : SorterEvent) : a.le b = true ∨ b.le a = true := by
  simp only [SorterEvent.le, decide_eq_true_eq]
  omega

theorem SorterEvent.le_trans (a b c : SorterEvent) (h1 : a.le b = true) (h2 : b.le c = true) :
    a.le c = true := by
  simp only [SorterEvent.le, decide_eq_true_eq] at *
  omega

theorem minOf_eq_none {α : Type} (le : α → α → Bool) (l : List α) :
    minOf le l = none ↔ l = [] := by
  cases l with
  | nil => simp [minOf]
  | cons a l =>
    simp only [minOf]
    cases minOf le l with
    | none => simp
    | some b => by_cases h : le a b = true <;> simp [h]

theorem minOf_mem {α : Type} (le : α → α → Bool) (l : List α) (m : α)
    (h : minOf le l = some m) : m ∈ l := by
  induction l generalizing m with
  | nil => simp [minOf] at h
  | cons a l ih =>
    simp only [minOf] at h
    cases hb : minOf le l with
    | none =>
      rw [hb] at h
      simp only [Option.some.injEq] at h
      subst h
      exact List.mem_cons_self _ _
    | some b =>
      rw [hb] at h
      dsimp only at h
      by_cases hl : le a b = true
      · rw [if_pos hl] at h
        simp only [Option.some.injEq] at h
        subst h
        exact List.mem_cons_self _ _
      · rw [if_neg hl] at h
        simp only [Option.some.injEq] at h
        subst h
        exact List.mem_cons_of_mem _ (ih _ hb)

theorem minOf_le {α : Type} (le : α → α → Bool)
    (total : ∀ a b, le a b = true ∨ le b a = true)
    (trans : ∀ a b c, le a b = true → le b c = true → le a c = true)
    (l : List α) (m : α) (h : minOf le l = some m) : ∀ x ∈ l, le m x = true := by
  induction l generalizing m with
  | nil => simp [minOf] at h
  | cons a l ih =>
    simp only [minOf] at h
    have hrefl : ∀ a, le a a = true := fun a => (total a a).elim id id
    cases hb : minOf le l with
    | none =>
      rw [hb] at h
      simp only [Option.some.injEq] at h
      subst h
      have hl : l = [] := (minOf_eq_none le l).mp hb
      subst hl
      intro x hx
      simp only [List.mem_singleton] at hx
      subst hx
      exact hrefl _
    | some b =>
      rw [hb] at h
      dsimp only at h
      intro x hx
      by_cases hl : le a b = true
      · rw [if_pos hl] at h
        simp only [Option.some.injEq] at h
        subst h
        rcases List.mem_cons.mp hx with rfl | hx
        · exact hrefl _
        · exact trans _ _ _ hl (ih b hb x hx)
      · rw [if_neg hl] at h
        simp only [Option.some.injEq] at h
        subst h
        rcases List.mem_cons.mp hx with rfl | hx
        · exact (total b x).elim id (fun h => absurd h hl)
        · exact ih b hb x hx

theorem mem_entries {N : Nat} (s : EventSorter N) (x : Fin N × SorterEvent) :
    x ∈ s.entries ↔ s.minimums x.1 = some x.2 := by
  simp only [EventSorter.entries, List.mem_filterMap, List.mem_finRange, true_and,
    Option.map_eq_some']
  constructor
  · rintro ⟨p, e, he, rfl⟩
    exact he
  · intro h
    exact ⟨x.1, x.2, h, rfl⟩

theorem sorterInv_empty (N : Nat) : SorterInv (EventSorter.empty N) [] := by
  refine ⟨fun p => ?_, fun p e => ?_⟩ <;> simp [EventSorter.empty, minOf]

theorem sorterInv_update {N : Nat} (s : EventSorter N) (pending : List (Fin N × SorterEvent))
    (h : SorterInv s pending) (p : Fin N) : SorterInv (s.update p) pending := by
  refine ⟨fun q => ?_, fun q e => ?_⟩
  · by_cases hq : q = p
    · subst hq; simp [EventSorter.update]
    · simpa [EventSorter.update, Function.update_noteq hq] using h.1 q
  · simpa [EventSorter.update] using h.2 q e

theorem sorterInv_push {N : Nat} (s : EventSorter N) (pending : List (Fin N × SorterEvent))
    (h : SorterInv s pending) (ev : SorterEvent) (p : Fin N) :
    SorterInv (s.push ev p) (pending ++ [(p, ev)]) := by
  refine ⟨fun q => ?_, fun q e => ?_⟩
  · by_cases hq : q = p
    · subst hq; simp [EventSorter.push, EventSorter.update]
    · simpa [EventSorter.push, EventSorter.update, Function.update_noteq hq] using h.1 q
  · by_cases hq : q = p
    · subst hq
      simp only [EventSorter.push, EventSorter.update, Function.update_same, List.count_append,
        h.2 q e, List.count_singleton]
      by_cases he : ev = e
      · subst he; simp
      · have he' : ¬ (q, ev) = (q, e) := fun hh => he (Prod.mk.inj hh).2
        simp [he, he']
    · have hne : ¬ (p, ev) = (q, e) := fun hh => hq (Prod.mk.inj hh).1.symm
      simp [EventSorter.push, EventSorter.update, Function.update_noteq hq, List.count_append,
        h.2 q e, List.count_singleton, hne]

theorem sorterInv_clear {N : Nat} (s : EventSorter N) (pending : List (Fin N × SorterEvent))
    (h : SorterInv s pending) (p : Fin N) :
    SorterInv (s.clear p) (pending.filter (fun x => decide (x.1 ≠ p))) := by
  refine ⟨fun q => ?_, fun q e => ?_⟩
  · by_cases hq : q = p
    · subst hq; simp [EventSorter.clear, minOf]
    · simpa [EventSorter.clear, Function.update_noteq hq] using h.1 q
  · by_cases hq : q = p
    · subst hq
      have hnot : (q, e) ∉ pending.filter (fun x => decide (x.1 ≠ q)) := by
        simp [List.mem_filter]
      rw [List.count_eq_zero.mpr hnot]
      simp [EventSorter.clear]
    · rw [List.count_filter (by simpa using hq)]
      simpa [EventSorter.clear, Function.update_noteq hq] using h.2 q e

theorem sorterInv_pop {N : Nat} (s : EventSorter N) (pending : List (Fin N × SorterEvent))
    (h : SorterInv s pending) (x : Fin N × SorterEvent) :
    SorterInv
      (EventSorter.update x.1
        { s with pel := Function.update s.pel x.1 ((s.pel x.1).erase x.2) })
      (pending.erase x) := by
  refine ⟨fun q => ?_, fun q e => ?_⟩
  · by_cases hq : q = x.1
    · subst hq; simp [EventSorter.update]
    · simpa [EventSorter.update, Function.update_noteq hq] using h.1 q
  · by_cases hq : q = x.1
    · subst hq
      simp only [EventSorter.update, Function.update_same, List.count_erase, h.2]
      by_cases he : x.2 = e
      · have hx : x = (x.1, e) := by rw [← he]
        simp [he, ← hx]
      · have hx : ¬ x = (x.1, e) := fun hh => he (by rw [hh])
        simp [he, hx]
    · have hx : (q, e) ≠ x := fun hh => hq (by rw [← hh])
      rw [List.count_erase_of_ne hx]
      simpa [EventSorter.update, Function.update_noteq hq] using h.2 q e

theorem sorterInv_step {N : Nat} (st : EventSorter N × List (Fin N × SorterEvent))
    (h : SorterInv st.1 st.2) (op : SorterOp N) :
    SorterInv (sorterStep st op).1 (sorterStep st op).2 := by
  cases op with
  | push ev p => exact sorterInv_push _ _ h ev p
  | clear p => exact sorterInv_clear _ _ h p
  | update p => exact sorterInv_update _ _ h p
  | pop =>
    simp only [sorterStep, EventSorter.popMinimum]
    cases hm : minOf entryLe st.1.entries with
    | none => exact h
    | some x => exact sorterInv_pop _ _ h x

theorem sorterInv_foldl {N : Nat} (ops : List (SorterOp N))
    (st : EventSorter N × List (Fin N × SorterEvent)) (h : SorterInv st.1 st.2) :
    SorterInv (ops.foldl sorterStep st).1 (ops.foldl sorterStep st).2 := by
  induction ops generalizing st with
  | nil => exact h
  | cons op ops ih => exact ih _ (sorterInv_step st h op)

theorem popAgrees_of_inv {N : Nat} (s : EventSorter N) (pending : List (Fin N × SorterEvent))
    (h : SorterInv s pending) : popAgrees s.popMinimum pending := by
  have hmin : ∀ (p : Fin N) (e : SorterEvent), e ∈ s.pel p →
      ∃ m, s.minimums p = some m ∧ m.le e = true := by
    intro p e he
    cases hm : minOf SorterEvent.le (s.pel p) with
    | none =>
      rw [(minOf_eq_none _ _).mp hm] at he
      simp at he
    | some m =>
      exact ⟨m, (h.1 p).trans hm,
        minOf_le _ SorterEvent.le_total SorterEvent.le_trans _ m hm e he⟩
  simp only [EventSorter.popMinimum]
  cases hm : minOf entryLe s.entries with
  | none =>
    simp only [popAgrees]
    have hent : s.entries = [] := (minOf_eq_none _ _).mp hm
    apply List.eq_nil_iff_forall_not_mem.mpr
    intro y hy
    have hc : 0 < pending.count (y.1, y.2) := List.count_pos_iff.mpr hy
    rw [h.2] at hc
    obtain ⟨m, hmm, _⟩ := hmin y.1 y.2 (List.count_pos_iff.mp hc)
    have : (y.1, m) ∈ s.entries := (mem_entries s (y.1, m)).mpr hmm
    rw [hent] at this
    simp at this
  | some x =>
    simp only [popAgrees]
    have hx : s.minimums x.1 = some x.2 := (mem_entries s x).mp (minOf_mem _ _ _ hm)
    have hxm : x.2 ∈ s.pel x.1 := minOf_mem _ _ _ ((h.1 x.1).symm.trans hx)
    refine ⟨?_, ?_⟩
    · have hc : 0 < pending.count (x.1, x.2) := by
        rw [h.2]
        exact List.count_pos_iff.mpr hxm
      exact List.count_pos_iff.mp hc
    · intro y hy
      have hc : 0 < pending.count (y.1, y.2) := List.count_pos_iff.mpr hy
      rw [h.2] at hc
      obtain ⟨m, hmm, hle⟩ := hmin y.1 y.2 (List.count_pos_iff.mp hc)
      have hmem : (y.1, m) ∈ s.entries := (mem_entries s (y.1, m)).mpr hmm
      have htot : ∀ a b : Fin N × SorterEvent, entryLe a b = true ∨ entryLe b a = true :=
        fun a b => SorterEvent.le_total a.2 b.2
      have htr : ∀ a b c : Fin N × SorterEvent, entryLe a b = true → entryLe b c = true →
          entryLe a c = true := fun a b c => SorterEvent.le_trans a.2 b.2 c.2
      have h1 : entryLe x (y.1, m) = true := minOf_le _ htot htr _ x hm _ hmem
      exact SorterEvent.le_trans _ _ _ h1 hle

/-- C14: for every sequence of push, clear, update and pop operations applied to the empty
sorter, the next `pop_minimum` agrees with the brute-force list of pending events (pushed and
neither popped nor cleared since): it returns a pending event such that no pending event has a
smaller (time, tiebreak), and it fails only when no event is pending. -/
theorem popMinimum_returns_smallest_pending {N : Nat} (ops : List (SorterOp N)) :
    popAgrees (runSorter ops).1.popMinimum (runSorter ops).2 :=
  popAgrees_of_inv _ _ (sorterInv_foldl ops _ (sorterInv_empty N))

theorem popOwners_not_mem {N : Nat} (p : Fin N) (later : List (SorterOp N))
    (h : ∀ ev, SorterOp.push ev p ∉ later) (s : EventSorter N)
    (hpel : s.pel p = []) (hmin : s.minimums p = none) : p ∉ popOwners s later := by
  induction later generalizing s with
  | nil => simp [popOwners]
  | cons op later ih =>
    have hl : ∀ ev, SorterOp.push ev p ∉ later :=
      fun ev hm => h ev (List.mem_cons_of_mem _ hm)
    cases op with
    | push ev q =>
      have hq : p ≠ q := by
        intro e
        subst e
        exact h ev (List.mem_cons_self _ _)
      simp only [popOwners]
      apply ih hl
      · simp [EventSorter.push, EventSorter.update, Function.update_noteq hq, hpel]
      · simp [EventSorter.push, EventSorter.update, Function.update_noteq hq, hmin]
    | clear q =>
      simp only [popOwners]
      apply ih hl
      · by_cases hq : p = q
        · subst hq; simp [EventSorter.clear]
        · simp [EventSorter.clear, Function.update_noteq hq, hpel]
      · by_cases hq : p = q
        · subst hq; simp [EventSorter.clear]
        · simp [EventSorter.clear, Function.update_noteq hq, hmin]
    | update q =>
      simp only [popOwners]
      apply ih hl
      · simp [EventSorter.update, hpel]
      · by_cases hq : p = q
        · subst hq; simp [EventSorter.update, hpel, minOf]
        · simp [EventSorter.update, Function.update_noteq hq, hmin]
    | pop =>
      simp only [popOwners, EventSorter.popMinimum]
      cases hm : minOf entryLe s.entries with
      | none => exact ih hl s hpel hmin
      | some x =>
        have hx : s.minimums x.1 = some x.2 := (mem_entries s x).mp (minOf_mem _ _ _ hm)
        have hq : p ≠ x.1 := by
          intro e
          rw [← e, hmin] at hx
          simp at hx
        simp only [List.mem_cons, not_or]
        refine ⟨hq, ih hl _ ?_ ?_⟩
        · simp [EventSorter.update, Function.update_noteq hq, hpel]
        · simp [EventSorter.update, Function.update_noteq hq, hmin]

/-- C15: after `clear(p)`, whatever operations follow, as long as none of them is a push for
`p`, no pop returns an event owned by `p`.  And `clear(p)` is defined on every sorter: on one
in which `p` has no event it changes nothing. -/
theorem clear_then_no_pop_of_owner {N : Nat} (s : EventSorter N) (p : Fin N)
    (later : List (SorterOp N)) (h : ∀ ev, SorterOp.push ev p ∉ later) :
    p ∉ popOwners (s.clear p) later ∧
    (s.clear p).pel p = [] ∧
    (s.pel p = [] → s.minimums p = none → s.clear p = s) := by
  refine ⟨popOwners_not_mem p later h _ ?_ ?_, ?_, ?_⟩
  · simp [EventSorter.clear]
  · simp [EventSorter.clear]
  · simp [EventSorter.clear]
  · intro h1 h2
    cases s with
    | mk pel minimums =>
      simp only [EventSorter.clear, EventSorter.mk.injEq]
      exact ⟨by rw [← h1]; exact Function.update_eq_self _ _,
        by rw [← h2]; exact Function.update_eq_self _ _⟩

/-- C15, at a concrete input: participant 0 owns two events, then is cleared; a push for
participant 2 and three pops follow. -/
theorem clear_then_no_pop_of_owner_witness :
    (∀ ev, SorterOp.push ev (0 : Fin 3) ∉ demoLater) ∧
    ((0 : Fin 3) ∉ popOwners (demoSorter.clear 0) demoLater ∧
    (demoSorter.clear 0).pel 0 = [] ∧
    (demoSorter.pel 0 = [] → demoSorter.minimums 0 = none →
      demoSorter.clear 0 = demoSorter)) :=
  ⟨by intro ev; simp [demoLater],
    clear_then_no_pop_of_owner demoSorter 0 demoLater (by intro ev; simp [demoLater])⟩

/-! ## The generation counters of the other particles -/

theorem filter_isIncEventCount_taskOps {P : Type} (D : SimData P) (v : Nat → P)
    (ec : Nat → Nat) (t : Task) : (taskOps D v ec t).filter Op.isIncEventCount = [] := by
  rw [List.filter_eq_nil_iff]
  intro o ho
  rcases mem_taskOps D v ec t o ho with ⟨_, _, rfl⟩ | ⟨_, _, rfl⟩ <;> simp [Op.isIncEventCount]

theorem filter_isIncEventCount_queueOps {P : Type} (D : SimData P) (p1 p2 : Nat)
    (v : Nat → P) : (queueOps D p1 p2 v).filter Op.isIncEventCount = [] := by
  rw [List.filter_eq_nil_iff]
  intro o ho
  rcases mem_queueOps D p1 p2 v o ho with ⟨_, rfl⟩ | ⟨_, rfl⟩ <;> simp [Op.isIncEventCount]

theorem filter_isIncEventCount_map_updateParticle (ids : List Nat) :
    (ids.map Op.updateParticle).filter Op.isIncEventCount = [] := by
  rw [List.filter_eq_nil_iff]
  intro o ho
  rw [List.mem_map] at ho
  obtain ⟨_, _, rfl⟩ := ho
  simp [Op.isIncEventCount]

theorem filter_isIncEventCount_fullUpdateOps {P : Type} (D : SimData P) (σ : Schedule)
    (p1 p2 : Nat) (S : SimState P) :
    (fullUpdateOps D σ p1 p2 S).filter Op.isIncEventCount =
      [Op.incEventCount p1, Op.incEventCount p2] := by
  have htasks : ∀ (ts : List Task) (v : Nat → P) (ec : Nat → Nat),
      (ts.flatMap (taskOps D v ec)).filter Op.isIncEventCount = [] := by
    intro ts v ec
    rw [List.filter_eq_nil_iff]
    intro o ho
    rw [List.mem_flatMap] at ho
    obtain ⟨t, _, ho⟩ := ho
    exact List.filter_eq_nil_iff.mp (filter_isIncEventCount_taskOps D v ec t) o ho
  rw [fullUpdateOps_split]
  simp only [List.filter_append, filter_isIncEventCount_queueOps,
    filter_isIncEventCount_map_updateParticle, htasks]
  rfl

/-- C26: `fullUpdate(p1, p2)` leaves the generation counter of every particle other than `p1`
and `p2` as it was at entry; the only increments of a counter in the log of the call, tasks
included, are `++eventCount[p1]` and `++eventCount[p2]`; and a queued task, run from any
state, leaves all counters as they are and logs no increment. -/
theorem fullUpdate_other_counters_unchanged {P : Type} (D : SimData P) (σ : Schedule)
    (p1 p2 : Nat) (S : SimState P) :
    (∀ id, id ≠ p1 → id ≠ p2 → (fullUpdate D σ p1 p2 S).eventCount id = S.eventCount id) ∧
    (opsDuring S (fullUpdate D σ p1 p2 S)).filter Op.isIncEventCount =
      [Op.incEventCount p1, Op.incEventCount p2] ∧
    (∀ (S1 : SimState P) (t : Task),
      (runTask D S1 t).eventCount = S1.eventCount ∧
      (opsDuring S1 (runTask D S1 t)).filter Op.isIncEventCount = []) := by
  refine ⟨?_, ?_, ?_⟩
  · intro id h1 h2
    rw [fullUpdate_eventCount]
    simp [bumped, Function.update_noteq, h1, h2]
  · rw [opsDuring_fullUpdate, filter_isIncEventCount_fullUpdateOps]
  · intro S1 t
    refine ⟨?_, ?_⟩
    · rw [runTask_eq]
      rfl
    · rw [opsDuring_runTask, filter_isIncEventCount_taskOps]

/-! ## The index computed by `coordCalc` -/

/-- C21: each setter of `RTriangles` throws exactly on the inputs listed (an empty vector, a
length that is not a multiple of 4 for colours or of 3 for the others, and a recorded size of
another buffer that is not 0 and does not fit); a setter that throws leaves the object as it
was, recorded sizes and OpenGL calls; a setter that returns has set its own recorded size to
the length of the vector and left the other three as they were. -/
theorem setters_reject_before_changing {F I : Type} (v : List F) (e : List I)
    (t : RTriangles) :
    (((t.setGLColors v).2.isOk = false ↔
        (v.length = 0 ∨ v.length % 4 ≠ 0 ∨
          (t._posBuffSize ≠ 0 ∧ v.length / 4 ≠ t._posBuffSize / 3))) ∧
      ((t.setGLColors v).2.isOk = false → (t.setGLColors v).1 = t) ∧
      ((t.setGLColors v).2.isOk = true → (t.setGLColors v).1.sizes =
        (v.length, t._posBuffSize, t._normBuffSize, t._elementBuffSize))) ∧
    (((t.setGLPositions v).2.isOk = false ↔
        (v.length = 0 ∨ v.length % 3 ≠ 0 ∨
          (t._colBuffSize ≠ 0 ∧ t._colBuffSize / 4 ≠ v.length / 3) ∨
          (t._normBuffSize ≠ 0 ∧ t._normBuffSize ≠ v.length))) ∧
      ((t.setGLPositions v).2.isOk = false → (t.setGLPositions v).1 = t) ∧
      ((t.setGLPositions v).2.isOk = true → (t.setGLPositions v).1.sizes =
        (t._colBuffSize, v.length, t._normBuffSize, t._elementBuffSize))) ∧
    (((t.setGLNormals v).2.isOk = false ↔
        (v.length = 0 ∨ v.length % 3 ≠ 0 ∨
          (t._posBuffSize ≠ 0 ∧ v.length ≠ t._posBuffSize))) ∧
      ((t.setGLNormals v).2.isOk = false → (t.setGLNormals v).1 = t) ∧
      ((t.setGLNormals v).2.isOk = true → (t.setGLNormals v).1.sizes =
        (t._colBuffSize, t._posBuffSize, v.length, t._elementBuffSize))) ∧
    (((t.setGLElements e).2.isOk = false ↔ (e.length = 0 ∨ e.length % 3 ≠ 0)) ∧
      ((t.setGLElements e).2.isOk = false → (t.setGLElements e).1 = t) ∧
      ((t.setGLElements e).2.isOk = true → (t.setGLElements e).1.sizes =
        (t._colBuffSize, t._posBuffSize, t._normBuffSize, e.length))) := by
  refine ⟨?_, ?_, ?_, ?_⟩
  · unfold RTriangles.setGLColors
    split_ifs with h1 h2 h3 h4 <;>
      simp_all [Except.isOk, Except.toBool, RTriangles.sizes, RTriangles.gl]
  · unfold RTriangles.setGLPositions
    split_ifs with h1 h2 h3 h4 h5 <;>
      simp_all [Except.isOk, Except.toBool, RTriangles.sizes, RTriangles.gl]
  · unfold RTriangles.setGLNormals
    split_ifs with h1 h2 h3 h4 <;>
      simp_all [Except.isOk, Except.toBool, RTriangles.sizes, RTriangles.gl]
  · unfold RTriangles.setGLElements
    split_ifs with h1 h2 h3 <;>
      simp_all [Except.isOk, Except.toBool, RTriangles.sizes, RTriangles.gl]

/-! ## The shadow-map framebuffer -/

/-- C22: `init(length)` throws when the object is already initialised and when `length` is 0,
and in both cases leaves the object as it was; it also throws when the framebuffer is not
complete, and then `getLength()` is `length`, not the 0 it was before the call, and the
framebuffer and the texture have been generated; `init` returns normally exactly when the
object was not initialised, `length` is not 0 and the framebuffer is complete, and then
`getLength() == length`. -/
theorem init_throws_and_length (complete : Bool) (length : Int) (s : shadowFBO) :
    (s.getLength ≠ 0 →
      s.init complete length = (s, Except.error "shadowFBO has already been initialised!")) ∧
    (s.getLength = 0 → length = 0 →
      s.init complete length =
        (s, Except.error "Cannot initialise a shadowFBO with a side length == 0!")) ∧
    (s.getLength = 0 → length ≠ 0 →
      (s.init false length).2 = Except.error "GL_FRAMEBUFFER_COMPLETE_EXT failed" ∧
      (s.init false length).1.getLength = length ∧
      FBOCall.glGenFramebuffersEXT ∈ (s.init false length).1.glCalls ∧
      FBOCall.glGenTextures ∈ (s.init false length).1.glCalls) ∧
    ((s.init complete length).2.isOk = true ↔
      (s.getLength = 0 ∧ length ≠ 0 ∧ complete = true)) ∧
    ((s.init complete length).2.isOk = true → (s.init complete length).1.getLength = length) := by
  refine ⟨?_, ?_, ?_, ?_, ?_⟩
  · intro h
    simp only [shadowFBO.getLength] at h
    simp [shadowFBO.init, h]
  · intro h hl
    simp only [shadowFBO.getLength] at h
    simp [shadowFBO.init, h, hl]
  · intro h hl
    simp only [shadowFBO.getLength] at h
    simp [shadowFBO.init, shadowFBO.getLength, h, hl]
  · unfold shadowFBO.init shadowFBO.getLength
    cases complete <;> split_ifs <;> simp_all [Except.isOk, Except.toBool]
  · unfold shadowFBO.init shadowFBO.getLength
    cases complete <;> split_ifs <;> simp_all [Except.isOk, Except.toBool]

/-- C22, where the claim fails: a new `shadowFBO` has `getLength() == 0`; `init(4)` with a
framebuffer that is not complete throws, and afterwards `getLength()` is 4. -/
theorem init_throw_changes_length_counterexample :
    shadowFBO.new.getLength = 0 ∧
    (shadowFBO.new.init false 4).2 = Except.error "GL_FRAMEBUFFER_COMPLETE_EXT failed" ∧
    (shadowFBO.new.init false 4).1.getLength = 4 ∧
    (shadowFBO.new.init false 4).1.getLength ≠ shadowFBO.new.getLength := by
  refine ⟨rfl, rfl, rfl, ?_⟩
  decide

/-! ## Attributes and their selectors -/

/-- C23: the constructor throws exactly when `components > 4`; an attribute it constructs
holds `N * components` values; its `size()` is `N` when `components` is at least 1, and has no
result when `components` is 0, where the constructor does not throw and `size()` divides by
zero: with `N = 5` and `components = 0` the attribute is constructed, holds no values, and
`size()` does not return 5. -/
theorem attribute_size {R : Type} [Zero R] (N : Nat) (type : Int) (components : Nat) :
    ((Attribute.new N type components : Except String (Attribute R)).isOk = false ↔
      4 < components) ∧
    (∀ a : Attribute R, Attribute.new N type components = Except.ok a →
      a.getData.length = N * components ∧ a.components = components ∧
      a.size = if components = 0 then none else some N) ∧
    (Attribute.new 5 type 0 : Except String (Attribute R)) = Except.ok ⟨[], 0, type⟩ ∧
    (⟨[], 0, type⟩ : Attribute R).size = none ∧
    (⟨[], 0, type⟩ : Attribute R).size ≠ some 5 := by
  refine ⟨?_, ?_, ?_, ?_, ?_⟩
  · unfold Attribute.new
    by_cases h : 4 < components <;> simp [h, Except.isOk, Except.toBool]
  · intro a ha
    unfold Attribute.new at ha
    by_cases h : 4 < components
    · simp [h] at ha
    · simp only [gt_iff_lt, h, if_false, Except.ok.injEq] at ha
      subst ha
      refine ⟨by simp [Attribute.getData], rfl, ?_⟩
      by_cases h0 : components = 0
      · simp [Attribute.size, h0]
      · have hpos : 0 < components := Nat.pos_of_ne_zero h0
        simp [Attribute.size, h0, Nat.mul_div_cancel _ hpos]
  · simp [Attribute.new]
  · rfl
  · simp [Attribute.size]

theorem forEach_eq_map {α β : Type} (f : α → Except String β) (g : α → β) (l : List α)
    (h : ∀ x ∈ l, f x = Except.ok (g x)) : forEach f l = Except.ok (l.map g) := by
  induction l with
  | nil => rfl
  | cons a as ih =>
    have ha := h a (List.mem_cons_self a as)
    have ht := ih (fun x hx => h x (List.mem_cons_of_mem a hx))
    simp only [forEach, ha, ht, List.map_cons]

theorem foldEach_append {α β : Type} (f : β → α → Except String β) (l1 l2 : List α) (b : β) :
    foldEach f (l1 ++ l2) b =
      match foldEach f l1 b with
      | Except.error e => Except.error e
      | Except.ok b1 => foldEach f l2 b1 := by
  induction l1 generalizing b with
  | nil => rfl
  | cons a as ih =>
    simp only [List.cons_append, foldEach]
    cases f b a with
    | error e => rfl
    | ok b1 => exact ih b1

theorem sumSquares_eq {R : Type} [Zero R] [Add R] [Mul R] (attrdata : List R) (base k : Nat)
    (hk : base + k ≤ attrdata.length) :
    foldEach (fun sum j =>
        match readAt attrdata (base + j) with
        | Except.error e => Except.error e
        | Except.ok val => Except.ok (sum + val * val)) (List.range k) (0 : R) =
      Except.ok ((((attrdata.drop base).take k).map (fun v => v * v)).foldl
        (fun s q => s + q) 0) := by
  induction k with
  | zero => rfl
  | succ k ih =>
    have hlt : base + k < attrdata.length := by omega
    rw [List.range_succ, foldEach_append, ih (by omega)]
    have hget : attrdata[base + k]? = some (attrdata[base + k]) :=
      List.getElem?_eq_getElem hlt
    have htake : (attrdata.drop base).take (k + 1) =
        (attrdata.drop base).take k ++ [attrdata[base + k]] := by
      rw [List.take_succ, List.getElem?_drop, hget]
      rfl
    simp only [foldEach, readAt, hget, htake, List.map_append, List.map_cons, List.map_nil,
      List.foldl_append, List.foldl_cons, List.foldl_nil]

theorem componentSelectRows_length {R : Type} (ptr : Attribute R) (h : 1 ≤ ptr.components) :
    (componentSelectRows ptr).length ≤ ptr.components + 2 := by
  unfold componentSelectRows
  split_ifs <;> simp <;> omega

/-- C24: for an attribute with at least one component and a row `m` of the component selector
other than row 0, `generateFilteredData` returns without a failure (no read outside the host
data, no "invalid component"), with one entry per element (`Attribute::size()` entries); for
row 1 entry `i` is the Euclidean norm of the components of element `i`, all of which lie in the
host data; for a row `m >= 2` the component `m - 2` is less than the number of components, and
entry `i` is the value read at `i * components + (m - 2)`, which lies in the host data. -/
theorem generateFilteredData_in_bounds {R : Type} [Zero R] [Add R] [Mul R] (sqrt : R → R)
    (debug : Bool) (ptr : Attribute R) (m : Nat)
    (hc : 1 ≤ ptr.components) (hm1 : 1 ≤ m) (hm : m < (componentSelectRows ptr).length) :
    ∃ scalardata, generateFilteredData sqrt debug ptr m = Except.ok scalardata ∧
      ptr.size = some scalardata.length ∧
      (m = 1 → ∀ i, i < scalardata.length →
        ((ptr.getData.drop (i * ptr.components)).take ptr.components).length = ptr.components ∧
        scalardata[i]? = some (euclideanNorm sqrt
          ((ptr.getData.drop (i * ptr.components)).take ptr.components))) ∧
      (2 ≤ m → m - 2 < ptr.components ∧ ∀ i, i < scalardata.length →
        i * ptr.components + (m - 2) < ptr.getData.length ∧
        scalardata[i]? = ptr.getData[i * ptr.components + (m - 2)]?) := by
  have hlen := componentSelectRows_length ptr hc
  have hc0 : ptr._components ≠ 0 := by
    have : ptr.components = ptr._components := rfl
    omega
  have hsize : ptr.size = some (ptr.getData.length / ptr.components) := by
    simp [Attribute.size, hc0, Attribute.getData, Attribute.components]
  have hbound : ∀ i, i < ptr.getData.length / ptr.components →
      i * ptr.components + ptr.components ≤ ptr.getData.length := by
    intro i hi
    have h1 : (i + 1) * ptr.components ≤ ptr.getData.length / ptr.components * ptr.components :=
      Nat.mul_le_mul_right _ hi
    have h2 := Nat.div_mul_le_self ptr.getData.length ptr.components
    have h3 : (i + 1) * ptr.components = i * ptr.components + ptr.components := by ring
    omega
  by_cases h1 : m = 1
  · subst h1
    refine ⟨(List.range (ptr.getData.length / ptr.components)).map (fun i =>
      euclideanNorm sqrt ((ptr.getData.drop (i * ptr.components)).take ptr.components)),
      ?_, ?_, ?_, ?_⟩
    · unfold generateFilteredData
      rw [hsize]
      simp only [if_true]
      apply forEach_eq_map
      intro i hi
      rw [List.mem_range] at hi
      rw [sumSquares_eq ptr.getData (i * ptr.components) ptr.components (hbound i hi)]
      rfl
    · simp [hsize]
    · intro _ i hi
      simp only [List.length_map, List.length_range] at hi
      refine ⟨?_, ?_⟩
      · have := hbound i hi
        simp only [List.length_take, List.length_drop]
        omega
      · simp [hi]
    · intro h2
      omega
  · have h2 : 2 ≤ m := by omega
    have hcomp : m - 2 < ptr.components := by omega
    refine ⟨(List.range (ptr.getData.length / ptr.components)).map (fun i =>
      (ptr.getData[i * ptr.components + (m - 2)]?).getD 0), ?_, ?_, ?_, ?_⟩
    · unfold generateFilteredData
      rw [hsize]
      have hnot : ¬ (debug = true ∧ m - 2 ≥ ptr.components) := by
        intro h
        omega
      simp only [h1, if_false, h2, if_true, hnot]
      apply forEach_eq_map
      intro i hi
      rw [List.mem_range] at hi
      have hlt : i * ptr.components + (m - 2) < ptr.getData.length := by
        have := hbound i hi
        omega
      simp [readAt, List.getElem?_eq_getElem hlt]
    · simp [hsize]
    · intro h
      exact absurd h h1
    · intro _
      refine ⟨hcomp, ?_⟩
      intro i hi
      simp only [List.length_map, List.length_range] at hi
      have hlt : i * ptr.components + (m - 2) < ptr.getData.length := by
        have := hbound i hi
        omega
      refine ⟨hlt, ?_⟩
      simp [hi, List.getElem?_eq_getElem hlt]

/-- C24, at a concrete input: the attribute with host data `3, 4, 0, 6, 8, 0` and three
components, the integer square root `floorSqrt`, and row 1 ("Magnitude"). -/
theorem generateFilteredData_in_bounds_witness :
    1 ≤ demoAttribute.components ∧ 1 ≤ 1 ∧ 1 < (componentSelectRows demoAttribute).length ∧
    generateFilteredData floorSqrt false demoAttribute 1 = Except.ok [5, 10] ∧
    generateFilteredData floorSqrt true demoAttribute 3 = Except.ok [4, 8] ∧
    ∃ scalardata, generateFilteredData floorSqrt false demoAttribute 1 = Except.ok scalardata ∧
      demoAttribute.size = some scalardata.length ∧
      (1 = 1 → ∀ i, i < scalardata.length →
        ((demoAttribute.getData.drop (i * demoAttribute.components)).take
          demoAttribute.components).length = demoAttribute.components ∧
        scalardata[i]? = some (euclideanNorm floorSqrt
          ((demoAttribute.getData.drop (i * demoAttribute.components)).take
            demoAttribute.components))) ∧
      (2 ≤ 1 → 1 - 2 < demoAttribute.components ∧ ∀ i, i < scalardata.length →
        i * demoAttribute.components + (1 - 2) < demoAttribute.getData.length ∧
        scalardata[i]? = demoAttribute.getData[i * demoAttribute.components + (1 - 2)]?) :=
  ⟨by decide, by decide, by decide, by rfl, by rfl,
    generateFilteredData_in_bounds floorSqrt false demoAttribute 1 (by decide) (by decide)
      (by decide)⟩

/-! ## The orientation selector -/

theorem nrm_nonneg (a b c : ℝ) : 0 ≤ (Vector3.mk a b c).nrm Real.sqrt := Real.sqrt_nonneg _

end DynamO

